import Mathlib

/-!
# Graphyne core — shallow embedding and verification

This file embeds the core runtime of the Graphyne engine (the ECS core in
`src/project/src/core/ecs/ecs.cpp` and `include/graphyne/core/ecs/ecs.hpp`,
the memory manager in `src/project/src/core/memory.cpp`, and the event bus in
`src/project/src/events/event_system.cpp`) as executable Lean definitions, and
proves properties of the embedded operations.

Modelling conventions:
* `std::bitset<64>` component masks become `Fin 64 → Bool`.
* Heap pointers (`Entity*`, `System*`) become allocation identities: every
  `new` draws a fresh natural number from the world's allocation counter
  `refCtr`.  Dereferencing a pointer searches the entity store for the record
  carrying that identity.
* `size_t` arithmetic in the memory manager is `Nat` arithmetic reduced
  modulo `2^64` exactly where the C++ computation can wrap.
* Published events and calls of the virtual `System::update` are recorded in
  an observable trace; `System::update` is application code outside this
  repository, so its only modelled effect is its invocation.
* A failed C `assert` aborts a development build; embedded operations keep
  the guard and leave the state unchanged on the branch where the assertion
  would fire, so that the branch is visible but inert.
-/

namespace Graphyne

/-- Component type identifiers index a `std::array` of size `MAX_COMPONENTS = 64`. -/
abbrev CompId := Fin 64

/-- System type identifiers index a `std::array` of size `MAX_SYSTEMS = 32`. -/
abbrev SysId := Fin 32

/-- `ComponentMask`: `std::bitset<MAX_COMPONENTS>`, one bit per component type. -/
abbrev Mask := Fin 64 → Bool

/-- The all-zero mask (a freshly constructed `std::bitset`). -/
def Mask.none : Mask := fun _ => false

/-- `bitset::set(c)`. -/
def Mask.set (m : Mask) (c : CompId) : Mask := Function.update m c true

/-- `bitset::reset(c)`. -/
def Mask.clear (m : Mask) (c : CompId) : Mask := Function.update m c false

/-- `bitset::operator&`. -/
def Mask.and (m1 m2 : Mask) : Mask := fun c => m1 c && m2 c

/-- `bitset::operator==`, computed bit by bit. -/
def Mask.beq (m1 m2 : Mask) : Bool := (List.finRange 64).all fun c => m1 c == m2 c

/-- `bitset::any()`. -/
def Mask.any (m : Mask) : Bool := (List.finRange 64).any fun c => m c

/-- One component instance stored in a pool: the `Component` base holds the
`Entity* entity` back-reference (modelled as the owning entity's allocation
identity) and the derived part is the payload (abstracted to one number). -/
structure Comp where
  owner : Nat
  val : Nat
  deriving Repr, DecidableEq

/-- The `Entity` record: id, liveness flag, component mask and the
`m_componentIndices` slot-index table.  `ref` is the heap identity of the
object (the value of the `Entity*` pointer).  The C++ `m_componentIndices`
array starts uninitialised; it is only ever read at positions whose mask bit
is set, so the model initialises it to `0`. -/
structure Entity where
  ref : Nat
  id : Nat
  alive : Bool
  mask : Mask
  compIdx : Fin 64 → Nat

/-- A registered `System`: heap identity of the instance, the required and
excluded masks fixed by `initialize()`, and `m_entities`, the matched list of
`Entity*` pointers. -/
structure SystemR where
  ref : Nat
  required : Mask
  excluded : Mask
  entities : List Nat

/-- Observable actions: events published on the global `EventSystem` and the
invocations of the virtual `System::update`. -/
inductive TraceEv where
  | entityCreated (id : Nat)
  | entityDestroyed (id : Nat)
  | componentRemoved (id : Nat) (cid : CompId)
  | sysUpdate (ref : Nat) (dt : Int)
  deriving Repr, DecidableEq

/-- The `World`: entity storage (`m_entities`, a vector of `unique_ptr`
indexed by entity id), the free-id queue (front at the head of the list), the
pending-destruction list, the lazily created component pools, the system
array and the explicit update order (a vector of `System*` pointers).
`refCtr` supplies fresh heap identities; `trace` records observable actions. -/
structure World where
  nextEntityID : Nat
  entities : List (Option Entity)
  freeEntityIDs : List Nat
  pendingDestroy : List Nat
  pools : Fin 64 → Option (List Comp)
  systems : Fin 32 → Option SystemR
  systemsByUpdateOrder : List Nat
  refCtr : Nat
  trace : List TraceEv

/-- The freshly constructed `World` (`World::World()`). -/
def World.init : World :=
  ⟨0, [], [], [], fun _ => Option.none, fun _ => Option.none, [], 0, []⟩

/-- Search the entity store for the record with heap identity `r`
(dereferencing an `Entity*`). -/
def findRef : List (Option Entity) → Nat → Option Entity
  | [], _ => Option.none
  | Option.some e :: rest, r => if e.ref = r then Option.some e else findRef rest r
  | Option.none :: rest, r => findRef rest r

/-- Dereference an `Entity*`. -/
def World.derefEntity (w : World) (r : Nat) : Option Entity :=
  findRef w.entities r

/-- Write through an `Entity*`: apply `f` to every stored entity whose heap
identity is `r` (well-formed worlds hold at most one such record). -/
def World.updateEntity (w : World) (r : Nat) (f : Entity → Entity) : World :=
  { w with entities := w.entities.map fun oe =>
      match oe with
      | Option.some e => if e.ref = r then Option.some (f e) else Option.some e
      | Option.none => Option.none }

/-- The membership predicate evaluated in `World::updateEntitySystemList`:
`(mask & required) == required && !(mask & excluded).any() && alive`. -/
def sysShouldContain (e : Entity) (s : SystemR) : Bool :=
  Mask.beq (Mask.and e.mask s.required) s.required
    && !(Mask.any (Mask.and e.mask s.excluded)) && e.alive

/-- One system's step of `World::updateEntitySystemList`: insert or erase the
entity pointer according to the membership predicate (`push_back` appends;
`std::find` + `erase` removes the first occurrence). -/
def updateOneSystem (e : Entity) (s : SystemR) : SystemR :=
  let shouldBe := sysShouldContain e s
  let isIn := s.entities.contains e.ref
  if shouldBe && !isIn then { s with entities := s.entities ++ [e.ref] }
  else if !shouldBe && isIn then { s with entities := s.entities.erase e.ref }
  else s

/-- `World::updateEntitySystemList`: re-evaluate the entity's membership
against every non-null system. -/
def World.updateEntitySystemList (w : World) (r : Nat) : World :=
  match w.derefEntity r with
  | Option.none => w
  | Option.some e =>
      { w with systems := fun tid => (w.systems tid).map (updateOneSystem e) }

/-- `World::ensureComponentPoolExists`: lazily create an empty pool. -/
def World.ensurePool (w : World) (cid : CompId) : World :=
  match w.pools cid with
  | Option.some _ => w
  | Option.none => { w with pools := Function.update w.pools cid (Option.some []) }

/-- `ComponentPool::remove(index)` (asserts `index < m_size`): destruct the
instance at `index`; if it is not the last occupied slot, copy the last
slot's bytes into it; decrement the size.  On an index out of range (the
assertion branch) the pool is returned unchanged. -/
def poolRemove (p : List Comp) (index : Nat) : List Comp :=
  if index < p.length then
    if index < p.length - 1 then
      (p.set index (p.getD (p.length - 1) ⟨0, 0⟩)).take (p.length - 1)
    else
      p.take (p.length - 1)
  else p

/-- `World::createEntity`: reuse the front of the free-id queue if available,
else allocate `m_nextEntityID++` and grow the store; install a fresh live
`Entity` with cleared mask; publish `EntityCreatedEvent`.  Returns the new
world together with the entity's heap identity and id. -/
def World.createEntity (w : World) : World × Nat × Nat :=
  match w.freeEntityIDs with
  | id :: rest =>
      let e : Entity := ⟨w.refCtr, id, true, Mask.none, fun _ => 0⟩
      ({ w with
          freeEntityIDs := rest,
          entities := w.entities.set id (Option.some e),
          refCtr := w.refCtr + 1,
          trace := w.trace ++ [TraceEv.entityCreated id] }, w.refCtr, id)
  | [] =>
      let id := w.nextEntityID
      let grown :=
        if id < w.entities.length then w.entities
        else w.entities ++ List.replicate (id + 1 - w.entities.length) Option.none
      let e : Entity := ⟨w.refCtr, id, true, Mask.none, fun _ => 0⟩
      ({ w with
          nextEntityID := id + 1,
          entities := grown.set id (Option.some e),
          refCtr := w.refCtr + 1,
          trace := w.trace ++ [TraceEv.entityCreated id] }, w.refCtr, id)

/-- `World::destroyEntity(Entity&)`: no-op when the referenced entity is not
alive, otherwise append its id to the pending-destruction list. -/
def World.destroyEntity (w : World) (r : Nat) : World :=
  match w.derefEntity r with
  | Option.none => w
  | Option.some e =>
      if !e.alive then w
      else { w with pendingDestroy := w.pendingDestroy ++ [e.id] }

/-- `Entity::destroy()`: set `m_alive = false`, then call
`World::destroyEntity` on itself. -/
def World.entityDestroy (w : World) (r : Nat) : World :=
  match w.derefEntity r with
  | Option.none => w
  | Option.some _ =>
      (w.updateEntity r fun e => { e with alive := false }).destroyEntity r

/-- `World::addComponentToEntity<T>` (the body of `addComponent`): asserts
the entity does not already have the component (assertion branch inert);
lazily create the pool; placement-construct at the pool's end and set the
back-reference; record the slot index; set the mask bit; re-evaluate system
membership. -/
def addComponentBody (w : World) (r : Nat) (cid : CompId) (v : Nat) : World :=
  let w1 := w.ensurePool cid
  let pool := (w1.pools cid).getD []
  let grown := pool ++ [⟨r, v⟩]
  let w2 := { w1 with pools := Function.update w1.pools cid (Option.some grown) }
  let w3 := w2.updateEntity r fun e0 =>
    { e0 with
        compIdx := Function.update e0.compIdx cid (grown.length - 1),
        mask := Mask.set e0.mask cid }
  w3.updateEntitySystemList r

def World.addComponentToEntity (w : World) (r : Nat) (cid : CompId) (v : Nat) : World :=
  match w.derefEntity r with
  | Option.none => w
  | Option.some e =>
      if e.mask cid then w
      else addComponentBody w r cid v

/-- `World::removeComponentFromEntity`: return if the mask bit is clear;
publish `ComponentRemovedEvent`; `ComponentPool::remove(index)`; clear the
mask bit; if the freed slot is not past the new end, the last instance was
moved into it — update the moved instance's owner's slot-index entry to the
freed index; re-evaluate system membership. -/
def removeComponentBody (w : World) (r : Nat) (cid : CompId) (e : Entity) : World :=
  let w1 := w.ensurePool cid
  let index := e.compIdx cid
  let w2 := { w1 with trace := w1.trace ++ [TraceEv.componentRemoved e.id cid] }
  let pool := (w2.pools cid).getD []
  let shrunk := poolRemove pool index
  let w3 := { w2 with pools := Function.update w2.pools cid (Option.some shrunk) }
  let w4 := w3.updateEntity r fun e0 => { e0 with mask := Mask.clear e0.mask cid }
  let w5 :=
    if index < shrunk.length then
      let moved := shrunk.getD index ⟨0, 0⟩
      w4.updateEntity moved.owner fun o =>
        { o with compIdx := Function.update o.compIdx cid index }
    else w4
  w5.updateEntitySystemList r

def World.removeComponentFromEntity (w : World) (r : Nat) (cid : CompId) : World :=
  match w.derefEntity r with
  | Option.none => w
  | Option.some e =>
      if !(e.mask cid) then w
      else removeComponentBody w r cid e

/-- `World::getComponentForEntity`: null when the mask bit is clear,
otherwise the pool instance at the recorded slot index (`ComponentPool::get`
asserts the index is in range; out of range yields `none`, the assertion
branch). -/
def World.getComponentForEntity (w : World) (r : Nat) (cid : CompId) : Option Comp :=
  match w.derefEntity r with
  | Option.none => Option.none
  | Option.some e =>
      if !(e.mask cid) then Option.none
      else ((w.pools cid).getD [])[e.compIdx cid]?

/-- `World::getEntityByID`: null when the id is out of range, the slot is
empty, or the stored entity is not alive. -/
def World.getEntityByID (w : World) (id : Nat) : Option Entity :=
  match w.entities[id]? with
  | Option.some (Option.some e) => if !e.alive then Option.none else Option.some e
  | _ => Option.none

/-- One iteration of the deletion loop in `World::processPendingChanges`:
skip ids that are out of range, empty or dead; otherwise erase the entity
pointer from every system's matched list (`std::remove` + `erase` drops all
occurrences), remove every component whose mask bit is still set (in
component-type-id order, re-reading the mask each iteration), publish
`EntityDestroyedEvent`, free the slot and push the id onto the free queue. -/
def flushRemoveStep (r : Nat) (acc : World) (cid : CompId) : World :=
  match acc.derefEntity r with
  | Option.none => acc
  | Option.some cur =>
      if cur.mask cid then acc.removeComponentFromEntity r cid else acc

def flushPhase1 (w : World) (r : Nat) : World :=
  { w with systems := fun tid => (w.systems tid).map fun s : SystemR =>
      { s with entities := s.entities.filter (· ≠ r) } }

def flushFinish (w2 : World) (id : Nat) : World :=
  let w3 := { w2 with trace := w2.trace ++ [TraceEv.entityDestroyed id] }
  { w3 with
      entities := w3.entities.set id Option.none,
      freeEntityIDs := w3.freeEntityIDs ++ [id] }

def flushOneBody (w : World) (id : Nat) (e : Entity) : World :=
  let r := e.ref
  let w1 := flushPhase1 w r
  let w2 := (List.finRange 64).foldl (flushRemoveStep r) w1
  flushFinish w2 id

def flushOne (w : World) (id : Nat) : World :=
  match w.entities[id]? with
  | Option.some (Option.some e) =>
      if !e.alive then w
      else flushOneBody w id e
  | _ => w

/-- `World::processPendingChanges`: run the deletion loop over the pending
list, then clear it. -/
def World.processPendingChanges (w : World) : World :=
  let w1 := w.pendingDestroy.foldl flushOne w
  { w1 with pendingDestroy := [] }

/-- `World::update(deltaTime)`: call `update` on every system in
`m_systemsByUpdateOrder`, in order, then `processPendingChanges`. -/
def World.update (w : World) (dt : Int) : World :=
  let w1 := w.systemsByUpdateOrder.foldl
    (fun acc sref => { acc with trace := acc.trace ++ [TraceEv.sysUpdate sref dt] }) w
  w1.processPendingChanges

/-- `World::registerSystem<T>`: construct the system (a fresh heap identity),
let `initialize()` fix its masks, store it at its type's slot — silently
replacing any instance already there — and append the new pointer to the
update-order vector.  The only assertion in the source is
`typeID < MAX_SYSTEMS`, discharged here by the `Fin 32` index. -/
def World.registerSystem (w : World) (tid : SysId) (req excl : Mask) : World :=
  let s : SystemR := ⟨w.refCtr, req, excl, []⟩
  { w with
      systems := Function.update w.systems tid (Option.some s),
      systemsByUpdateOrder := w.systemsByUpdateOrder ++ [w.refCtr],
      refCtr := w.refCtr + 1 }

/-- `World::setSystemUpdateOrder`. -/
def World.setSystemUpdateOrder (w : World) (l : List Nat) : World :=
  { w with systemsByUpdateOrder := l }

/-- The public `World` operation alphabet used to describe reachable states. -/
inductive Op where
  | create
  | addComp (r : Nat) (cid : CompId) (v : Nat)
  | removeComp (r : Nat) (cid : CompId)
  | destroy (r : Nat)
  | entityDestroy (r : Nat)
  | update (dt : Int)
  | regSystem (tid : SysId) (req excl : Mask)
  | setOrder (l : List Nat)

/-- Apply one operation. -/
def World.applyOp (w : World) : Op → World
  | Op.create => (w.createEntity).1
  | Op.addComp r cid v => w.addComponentToEntity r cid v
  | Op.removeComp r cid => w.removeComponentFromEntity r cid
  | Op.destroy r => w.destroyEntity r
  | Op.entityDestroy r => w.entityDestroy r
  | Op.update dt => w.update dt
  | Op.regSystem tid req excl => w.registerSystem tid req excl
  | Op.setOrder l => w.setSystemUpdateOrder l

/-- Apply a sequence of operations. -/
def World.exec (w : World) (ops : List Op) : World :=
  ops.foldl World.applyOp w

/-- Call `World::createEntity` `k` times in a row, returning the final world
and the ids handed out, in creation order. -/
def World.createMany : World → Nat → World × List Nat
  | w, 0 => (w, [])
  | w, k + 1 =>
      let r := w.createEntity
      let r2 := World.createMany r.1 k
      (r2.1, r.2.2 :: r2.2)

/-- Storage invariant of `m_entities`: an occupied slot `i` holds the entity
whose id is `i`. -/
def SlotId (w : World) : Prop :=
  ∀ (i : Nat) (e : Entity), w.entities[i]? = Option.some (Option.some e) → e.id = i

/-- Heap-identity uniqueness: two occupied slots never store the same
`Entity*`. -/
def RefUniq (w : World) : Prop :=
  ∀ (i j : Nat) (ei ej : Entity), w.entities[i]? = Option.some (Option.some ei) →
    w.entities[j]? = Option.some (Option.some ej) → ei.ref = ej.ref → i = j

/-- Every registered system's matched-entity list is duplicate-free. -/
def SysNodup (w : World) : Prop :=
  ∀ tid s, w.systems tid = Option.some s → s.entities.Nodup

end Graphyne

namespace Graphyne

/-! ## EventSystem (`src/project/src/events/event_system.cpp`)

`EventSystem::publishEvent` snapshots the type bucket and the global list
under the bus mutex, then dispatches without the lock.  The model takes the
two snapshotted callback lists as inputs.  A callback receives the event by
reference; its modelled behaviour is a function from the event's `m_handled`
flag at call time to the flag it leaves behind plus its control outcome:
normal return, a thrown exception derived from `std::exception` (caught by
the dispatch loop; the log call in the catch body is commented out in the
source), or a thrown value of any other type (not caught — it propagates out
of `publishEvent`).  `publish<T>(args...)` constructs the event fresh, so a
pass starts with `m_handled = false`. -/

/-- Control outcome of one callback invocation. -/
inductive CbOutcome where
  | ok
  | stdExc
  | otherExc
  deriving Repr, DecidableEq

/-- One snapshotted subscription callback: its subscription id and its
behaviour (new handled flag and outcome, as a function of the handled flag
it observes). -/
structure Cb where
  id : Nat
  behave : Bool → Bool × CbOutcome

/-- Fallback callback used by positional lookups. -/
def getCb (l : List Cb) (i : Nat) : Cb :=
  l.getD i ⟨0, fun b => (b, CbOutcome.ok)⟩

/-- One dispatch loop of `EventSystem::publishEvent`: for each snapshotted
callback, `if (!event.isHandled())` invoke it inside
`try { ... } catch (const std::exception&)`.  Returns the final handled
flag, the ids of the callbacks actually invoked, and whether an uncaught
exception escaped (aborting the rest of the pass). -/
def runCallbacks : List Cb → Bool → Bool × List Nat × Bool
  | [], h => (h, [], false)
  | cb :: rest, h =>
      if h then runCallbacks rest h
      else
        match cb.behave h with
        | (h2, CbOutcome.otherExc) => (h2, [cb.id], true)
        | (h2, _) =>
            let r := runCallbacks rest h2
            (r.1, cb.id :: r.2.1, r.2.2)

/-- `EventSystem::publishEvent` on a freshly constructed event: dispatch the
type-bucket snapshot, then — unless an uncaught exception escaped — the
global-subscriber snapshot. -/
def publishEvent (typeCbs globalCbs : List Cb) : Bool × List Nat × Bool :=
  let r1 := runCallbacks typeCbs false
  if r1.2.2 then (r1.1, r1.2.1, true)
  else
    let r2 := runCallbacks globalCbs r1.1
    (r2.1, r1.2.1 ++ r2.2.1, r2.2.2)

/-- Reference dispatch, following the spec's words: invoke callbacks in
snapshot order, stopping the invocations as soon as one marks the event
handled (later ones are skipped). -/
def invokedSpec : List Cb → List Nat
  | [] => []
  | cb :: rest => cb.id :: (if (cb.behave false).1 then [] else invokedSpec rest)

/-- Reference final handled flag. -/
def specHandled : List Cb → Bool
  | [] => false
  | cb :: rest => if (cb.behave false).1 then true else specHandled rest

theorem runCallbacks_true (cbs : List Cb) : runCallbacks cbs true = (true, [], false) := by
  induction cbs with
  | nil => rfl
  | cons cb rest ih => simp [runCallbacks, ih]

theorem runCallbacks_false_eq (cbs : List Cb)
    (hno : ∀ cb ∈ cbs, ∀ b, (cb.behave b).2 ≠ CbOutcome.otherExc) :
    runCallbacks cbs false = (specHandled cbs, invokedSpec cbs, false) := by
  induction cbs with
  | nil => rfl
  | cons cb rest ih =>
      have hhd := hno cb (by simp) false
      rcases hb : cb.behave false with ⟨h2, out⟩
      have hout : out ≠ CbOutcome.otherExc := by rw [hb] at hhd; exact hhd
      have hrest : ∀ cb ∈ rest, ∀ b, (cb.behave b).2 ≠ CbOutcome.otherExc := by
        intro c hc b; exact hno c (by simp [hc]) b
      cases h2 with
      | true =>
          cases out with
          | otherExc => exact absurd rfl hout
          | ok => simp [runCallbacks, hb, runCallbacks_true, invokedSpec, specHandled]
          | stdExc => simp [runCallbacks, hb, runCallbacks_true, invokedSpec, specHandled]
      | false =>
          cases out with
          | otherExc => exact absurd rfl hout
          | ok => simp [runCallbacks, hb, ih hrest, invokedSpec, specHandled]
          | stdExc => simp [runCallbacks, hb, ih hrest, invokedSpec, specHandled]

theorem invokedSpec_append (xs ys : List Cb) :
    invokedSpec (xs ++ ys) =
      invokedSpec xs ++ (if specHandled xs then [] else invokedSpec ys) := by
  induction xs with
  | nil => simp [invokedSpec, specHandled]
  | cons cb rest ih =>
      by_cases h : (cb.behave false).1 = true
      · simp [invokedSpec, specHandled, h]
      · simp only [Bool.not_eq_true] at h
        simp [invokedSpec, specHandled, h, ih]

theorem specHandled_append (xs ys : List Cb) :
    specHandled (xs ++ ys) = (specHandled xs || specHandled ys) := by
  induction xs with
  | nil => simp [specHandled]
  | cons cb rest ih =>
      by_cases h : (cb.behave false).1 = true
      · simp [specHandled, h]
      · simp only [Bool.not_eq_true] at h
        simp [specHandled, h, ih]

theorem publishEvent_eq (typeCbs globalCbs : List Cb)
    (hno : ∀ cb ∈ typeCbs ++ globalCbs, ∀ b, (cb.behave b).2 ≠ CbOutcome.otherExc) :
    publishEvent typeCbs globalCbs =
      (specHandled (typeCbs ++ globalCbs), invokedSpec (typeCbs ++ globalCbs), false) := by
  have hty : ∀ cb ∈ typeCbs, ∀ b, (cb.behave b).2 ≠ CbOutcome.otherExc := by
    intro c hc b; exact hno c (by simp [hc]) b
  have hgl : ∀ cb ∈ globalCbs, ∀ b, (cb.behave b).2 ≠ CbOutcome.otherExc := by
    intro c hc b; exact hno c (by simp [hc]) b
  cases hsp : specHandled typeCbs with
  | true =>
      simp [publishEvent, runCallbacks_false_eq typeCbs hty, hsp, runCallbacks_true,
        invokedSpec_append, specHandled_append]
  | false =>
      simp [publishEvent, runCallbacks_false_eq typeCbs hty, hsp,
        runCallbacks_false_eq globalCbs hgl, invokedSpec_append, specHandled_append]

/-- Length of the prefix of callbacks that do not mark the event handled. -/
def firstSetLen (cbs : List Cb) : Nat :=
  (cbs.takeWhile fun cb => !(cb.behave false).1).length

theorem firstSetLen_le (cbs : List Cb) : firstSetLen cbs ≤ cbs.length :=
  (List.takeWhile_sublist _).length_le

theorem invokedSpec_eq_take (cbs : List Cb) :
    invokedSpec cbs = (cbs.take (firstSetLen cbs + 1)).map Cb.id := by
  induction cbs with
  | nil => rfl
  | cons cb rest ih =>
      by_cases h : (cb.behave false).1 = true
      · simp [invokedSpec, firstSetLen, List.takeWhile, h]
      · simp only [Bool.not_eq_true] at h
        simp [invokedSpec, firstSetLen, List.takeWhile, h, ih]

theorem before_firstSetLen (cbs : List Cb) :
    ∀ j, j < firstSetLen cbs → ((getCb cbs j).behave false).1 = false := by
  induction cbs with
  | nil => intro j hj; simp [firstSetLen, List.takeWhile] at hj
  | cons cb rest ih =>
      intro j hj
      by_cases h : (cb.behave false).1 = true
      · simp [firstSetLen, List.takeWhile, h] at hj
      · simp only [Bool.not_eq_true] at h
        cases j with
        | zero => simp [getCb]; exact h
        | succ j =>
            simp only [firstSetLen, List.takeWhile, h] at hj
            simp only [Bool.not_false, List.length_cons, Nat.add_lt_add_iff_right] at hj
            simpa [getCb] using ih j hj

theorem at_firstSetLen (cbs : List Cb) (h : firstSetLen cbs < cbs.length) :
    ((getCb cbs (firstSetLen cbs)).behave false).1 = true := by
  induction cbs with
  | nil => simp at h
  | cons cb rest ih =>
      by_cases hs : (cb.behave false).1 = true
      · simp [firstSetLen, List.takeWhile, hs, getCb]
      · simp only [Bool.not_eq_true] at hs
        have hfl : firstSetLen (cb :: rest) = firstSetLen rest + 1 := by
          simp [firstSetLen, List.takeWhile, hs]
        rw [hfl] at h ⊢
        simp only [List.length_cons, Nat.add_lt_add_iff_right] at h
        simpa [getCb] using ih h

theorem mem_take_iff_nodup {l : List Nat} (hl : l.Nodup) {i k : Nat} (hi : i < l.length) :
    l[i] ∈ l.take k ↔ i < k := by
  constructor
  · intro hm
    obtain ⟨j, hj, hjv⟩ := List.getElem_of_mem hm
    have hjk : j < k := by simp at hj; omega
    have hjl : j < l.length := by simp at hj; omega
    have hij : l[j] = l[i] := by rw [← hjv]; exact (List.getElem_take ..).symm
    have hinj := List.nodup_iff_injective_get.mp hl
    have : (⟨j, hjl⟩ : Fin l.length) = ⟨i, hi⟩ := by
      apply hinj; simpa using hij
    have := congrArg Fin.val this
    simp at this; omega
  · intro hik
    have hlen : i < (l.take k).length := by simp; omega
    have : (l.take k)[i] = l[i] := List.getElem_take ..
    rw [← this]; exact List.getElem_mem hlen

theorem invokedSpec_sublist (cbs : List Cb) : (invokedSpec cbs).Sublist (cbs.map Cb.id) := by
  induction cbs with
  | nil => simp [invokedSpec]
  | cons cb rest ih =>
      by_cases h : (cb.behave false).1 = true
      · simp only [invokedSpec, h, if_pos, List.map_cons]
        exact (List.nil_sublist _).cons₂ cb.id
      · simp only [Bool.not_eq_true] at h
        simp only [invokedSpec, h, List.map_cons, Bool.false_eq_true, if_false]
        exact ih.cons₂ cb.id

theorem mem_invokedSpec_iff (cbs : List Cb) (hids : (cbs.map Cb.id).Nodup)
    {i : Nat} (hi : i < cbs.length) :
    (getCb cbs i).id ∈ invokedSpec cbs ↔ i ≤ firstSetLen cbs := by
  have hil : i < (cbs.map Cb.id).length := by simpa using hi
  have hgd : (getCb cbs i).id = (cbs.map Cb.id)[i] := by
    simp [getCb, List.getD_eq_getElem?_getD, List.getElem?_eq_getElem hi]
  rw [invokedSpec_eq_take, List.map_take, hgd, mem_take_iff_nodup hids hil]
  omega

/-- C6 — EventBus publish dispatch order and handled-skip: on a pass over the
snapshotted type-bucket and global callback lists (all subscription ids
distinct, no callback raising an exception that escapes the per-callback
catch), `publishEvent` completes the pass, the invoked callbacks form an
in-order selection of the snapshot — type-bucket callbacks first, then
global callbacks — and a snapshotted callback is skipped if and only if a
callback invoked earlier in the same pass marked the event handled. -/
theorem publish_dispatch_order_handled_skip
    (typeCbs globalCbs : List Cb)
    (hno : ∀ cb ∈ typeCbs ++ globalCbs, ∀ b, (cb.behave b).2 ≠ CbOutcome.otherExc)
    (hids : ((typeCbs ++ globalCbs).map Cb.id).Nodup) :
    (publishEvent typeCbs globalCbs).2.2 = false ∧
    (∃ t1 t2, (publishEvent typeCbs globalCbs).2.1 = t1 ++ t2 ∧
      t1.Sublist (typeCbs.map Cb.id) ∧ t2.Sublist (globalCbs.map Cb.id)) ∧
    (∀ i, i < (typeCbs ++ globalCbs).length →
      ((getCb (typeCbs ++ globalCbs) i).id ∉ (publishEvent typeCbs globalCbs).2.1 ↔
        ∃ j, j < i ∧ (getCb (typeCbs ++ globalCbs) j).id ∈ (publishEvent typeCbs globalCbs).2.1 ∧
          ((getCb (typeCbs ++ globalCbs) j).behave false).1 = true)) := by
  have hpe := publishEvent_eq typeCbs globalCbs hno
  refine ⟨by rw [hpe], ?_, ?_⟩
  · refine ⟨invokedSpec typeCbs,
      if specHandled typeCbs then [] else invokedSpec globalCbs, ?_, ?_, ?_⟩
    · rw [hpe]; simp only [invokedSpec_append]
    · exact invokedSpec_sublist typeCbs
    · by_cases h : specHandled typeCbs = true
      · simp [h]
      · simp only [Bool.not_eq_true] at h
        simp only [h, Bool.false_eq_true, if_false]
        exact invokedSpec_sublist globalCbs
  · intro i hi
    rw [hpe]
    simp only
    set all := typeCbs ++ globalCbs with hall
    set k := firstSetLen all with hk
    rw [mem_invokedSpec_iff all hids hi]
    constructor
    · intro hki
      have hki' : k < i := by omega
      have hkl : k < all.length := by omega
      exact ⟨k, hki', (mem_invokedSpec_iff all hids hkl).mpr (le_refl k),
        at_firstSetLen all hkl⟩
    · rintro ⟨j, hji, hjm, hjset⟩
      have hjl : j < all.length := by omega
      have hjk : j ≤ k := (mem_invokedSpec_iff all hids hjl).mp hjm
      rcases Nat.lt_or_ge j k with hlt | hge
      · have := before_firstSetLen all j hlt
        rw [this] at hjset; exact absurd hjset (by simp)
      · have : j = k := by omega
        omega

/-- Witness for C6 at concrete inputs: callbacks 1 and 2 run, 2 marks the
event handled, so 3 and the global callback 4 are skipped. -/
theorem publish_dispatch_order_handled_skip_witness :
    (publishEvent
        [⟨1, fun b => (b, CbOutcome.ok)⟩, ⟨2, fun _ => (true, CbOutcome.ok)⟩,
          ⟨3, fun b => (b, CbOutcome.ok)⟩]
        [⟨4, fun b => (b, CbOutcome.ok)⟩]).2.1 = [1, 2] ∧
    (publishEvent
        [⟨1, fun b => (b, CbOutcome.ok)⟩, ⟨2, fun _ => (true, CbOutcome.ok)⟩,
          ⟨3, fun b => (b, CbOutcome.ok)⟩]
        [⟨4, fun b => (b, CbOutcome.ok)⟩]).2.2 = false := by
  have h := publish_dispatch_order_handled_skip
    [⟨1, fun b => (b, CbOutcome.ok)⟩, ⟨2, fun _ => (true, CbOutcome.ok)⟩,
      ⟨3, fun b => (b, CbOutcome.ok)⟩]
    [⟨4, fun b => (b, CbOutcome.ok)⟩]
    (by intro cb hcb b; fin_cases hcb <;> simp)
    (by simp)
  exact ⟨by rfl, h.1⟩

/-- C7 counterexample — the dispatch loop catches only
`const std::exception&`: a callback that throws a value of any other type
propagates the exception out of `publishEvent`, and a second, independently
registered subscriber to the same event type is NOT invoked in that publish
call, contradicting the claim that any fault in one callback leaves
subsequent callbacks running. -/
theorem callback_fault_isolation_counterexample :
    (publishEvent
        [⟨1, fun b => (b, CbOutcome.otherExc)⟩, ⟨2, fun b => (b, CbOutcome.ok)⟩]
        []).2.1 = [1] ∧
    (2 : Nat) ∉ (publishEvent
        [⟨1, fun b => (b, CbOutcome.otherExc)⟩, ⟨2, fun b => (b, CbOutcome.ok)⟩]
        []).2.1 ∧
    (publishEvent
        [⟨1, fun b => (b, CbOutcome.otherExc)⟩, ⟨2, fun b => (b, CbOutcome.ok)⟩]
        []).2.2 = true := by
  refine ⟨rfl, ?_, rfl⟩
  simp [publishEvent, runCallbacks]

/-- C7 amended — fault isolation holds exactly for exceptions derived from
`std::exception` (and the catch body's log call is commented out, so the
fault is swallowed silently): a callback that throws `std::exception` leaves
the rest of the pass exactly as a normal return would, and in particular a
second subscriber to the same event type is still invoked after such a
fault; exceptions of any other type propagate and abort the pass. -/
theorem callback_fault_isolation_amended :
    (∀ (cb : Cb) (rest : List Cb) (h2 : Bool), cb.behave false = (h2, CbOutcome.stdExc) →
      runCallbacks (cb :: rest) false =
        ((runCallbacks rest h2).1, cb.id :: (runCallbacks rest h2).2.1,
          (runCallbacks rest h2).2.2)) ∧
    (∀ (cb1 cb2 : Cb) (globalCbs : List Cb),
      cb1.behave false = (false, CbOutcome.stdExc) →
      cb2.id ∈ (publishEvent [cb1, cb2] globalCbs).2.1) := by
  constructor
  · intro cb rest h2 hb
    simp [runCallbacks, hb]
  · intro cb1 cb2 globalCbs hb
    rcases hb2 : cb2.behave false with ⟨h2, out⟩
    cases out <;> simp [publishEvent, runCallbacks, hb, hb2]

/-- Witness for the amended C7 at a concrete input: subscriber 1 throws a
`std::exception`; subscriber 2 to the same event type is still invoked. -/
theorem callback_fault_isolation_amended_witness :
    (2 : Nat) ∈ (publishEvent
        [⟨1, fun b => (b, CbOutcome.stdExc)⟩, ⟨2, fun _ => (true, CbOutcome.ok)⟩]
        []).2.1 :=
  callback_fault_isolation_amended.2
    ⟨1, fun b => (b, CbOutcome.stdExc)⟩ ⟨2, fun _ => (true, CbOutcome.ok)⟩ [] rfl

/-! ## MemoryManager (`src/project/src/core/memory.cpp`)

`MemoryManager::allocate` bump-allocates from the category's fixed pool.
All byte counts are `size_t`; the C++ arithmetic wraps modulo `2^64`, which
the model makes explicit. -/

/-- The `size_t` modulus. -/
def U64 : Nat := 2 ^ 64

/-- `x - 1` on `size_t` (wraps at zero). -/
def subOne64 (x : Nat) : Nat := (x + U64 - 1) % U64

/-- `~x` on `size_t`. -/
def not64 (x : Nat) : Nat := (U64 - 1) ^^^ (x % U64)

/-- `(x + alignment - 1) & ~(alignment - 1)` on `size_t` — the alignment
computation used for both the size and the data pointer in
`MemoryManager::allocate`. -/
def alignUp64 (x alignment : Nat) : Nat :=
  subOne64 (x + alignment) &&& not64 (subOne64 alignment)

/-- `constexpr size_t headerSize = sizeof(size_t)`. -/
def headerSize : Nat := 8

/-- The allocation categories (`AllocationType`). -/
inductive AllocationType where
  | general
  | graphics
  | audio
  | physics
  | script
  | temp
  deriving Repr, DecidableEq

/-- One `MemoryPool`: buffer base address, capacity (`size`), `used` and
`peak` counters and the address-to-size tracking map (association list). -/
structure MemoryPool where
  dataAddr : Nat
  size : Nat
  used : Nat
  peak : Nat
  allocations : List (Nat × Nat)
  deriving Repr, DecidableEq

/-- The memory-manager state: the `m_initialized` flag and one optional pool
per category (`m_impl->pools`). -/
structure MemState where
  initialized : Bool
  pools : AllocationType → Option MemoryPool

/-- `unordered_map::operator[] =`: overwrite the entry for `key` or insert a
new one. -/
def setAlloc (m : List (Nat × Nat)) (key v : Nat) : List (Nat × Nat) :=
  if m.any (·.1 = key) then m.map fun p => if p.1 = key then (key, v) else p
  else m ++ [(key, v)]

/-- `MemoryManager::allocate(size, alignment, type)`: fail (null) when not
initialized or the category pool is missing; compute the aligned size and
the header-inclusive total; fail — touching nothing — when
`pool.used + totalSize > pool.size` (`size_t` comparison, sums wrapping);
otherwise derive the aligned data pointer, bump `used` by
`totalSize + offset`, raise `peak`, record the allocation, and return the
data pointer. -/
def MemoryManager.allocate (st : MemState) (size alignment : Nat) (t : AllocationType) :
    Option Nat × MemState :=
  if !st.initialized then (Option.none, st)
  else
    match st.pools t with
    | Option.none => (Option.none, st)
    | Option.some pool =>
        let alignedSize := alignUp64 size alignment
        let totalSize := (alignedSize + headerSize) % U64
        if (pool.used + totalSize) % U64 > pool.size then (Option.none, st)
        else
          let basePtr := pool.dataAddr + pool.used
          let dataPtr := basePtr + headerSize
          let offset := alignUp64 dataPtr alignment - dataPtr
          let dataPtr2 := basePtr + offset + headerSize
          let used2 := (pool.used + totalSize + offset) % U64
          let pool2 : MemoryPool :=
            { pool with
                used := used2,
                peak := max pool.peak used2,
                allocations := setAlloc pool.allocations dataPtr2 alignedSize }
          (Option.some dataPtr2, { st with pools := Function.update st.pools t (Option.some pool2) })

theorem land_align_mask (y k : Nat) (hk : k ≤ 64) (hy : y < 2^64) :
    y &&& ((2^64 - 1) ^^^ (2^k - 1)) = y - y % 2^k := by
  have hmul : y - y % 2^k = (y / 2^k) <<< k := by
    rw [Nat.shiftLeft_eq]
    have h := Nat.div_add_mod y (2^k)
    rw [Nat.mul_comm] at h
    omega
  apply Nat.eq_of_testBit_eq
  intro i
  rw [Nat.testBit_and, Nat.testBit_xor, Nat.testBit_two_pow_sub_one,
    Nat.testBit_two_pow_sub_one, hmul, Nat.testBit_shiftLeft,
    ← Nat.shiftRight_eq_div_pow, Nat.testBit_shiftRight]
  rcases Nat.lt_or_ge i k with hik | hik
  · simp [hik, Nat.lt_of_lt_of_le hik hk, Nat.not_le_of_lt hik]
  · rcases Nat.lt_or_ge i 64 with hi64 | hi64
    · have : k + (i - k) = i := by omega
      simp [hi64, Nat.not_lt_of_ge hik, hik, this]
    · have hbf : y.testBit i = false :=
        Nat.testBit_lt_two_pow (Nat.lt_of_lt_of_le hy (Nat.pow_le_pow_right (by omega) hi64))
      have : k + (i - k) = i := by omega
      simp [Nat.not_lt_of_ge hi64, Nat.not_lt_of_ge hik, hik, this, hbf]

theorem subOne64_eq {x : Nat} (h1 : 1 ≤ x) (h2 : x ≤ U64) : subOne64 x = x - 1 := by
  unfold subOne64
  have hx : x + U64 - 1 = (x - 1) + U64 := by omega
  rw [hx, Nat.add_mod_right]
  exact Nat.mod_eq_of_lt (by unfold U64 at *; omega)

theorem alignUp64_bounds {size k : Nat} (hk : k < 64) (hnw : size + 2^k ≤ U64) :
    size ≤ alignUp64 size (2^k) ∧ alignUp64 size (2^k) ≤ size + 2^k - 1 := by
  have hpow : (1:Nat) ≤ 2^k := Nat.one_le_two_pow
  have hpowU : 2^k ≤ U64 := by
    unfold U64; exact Nat.pow_le_pow_right (by omega) (by omega)
  have h1 : subOne64 (size + 2^k) = size + 2^k - 1 := subOne64_eq (by omega) hnw
  have h2 : subOne64 (2^k) = 2^k - 1 := subOne64_eq hpow hpowU
  have h3 : not64 (2^k - 1) = (2^64 - 1) ^^^ (2^k - 1) := by
    unfold not64 U64
    rw [Nat.mod_eq_of_lt (by unfold U64 at hpowU; omega)]
  have hy : size + 2^k - 1 < 2^64 := by unfold U64 at hnw; omega
  have hland := land_align_mask (size + 2^k - 1) k (by omega) hy
  have hmod : (size + 2^k - 1) % 2^k < 2^k := Nat.mod_lt _ (by omega)
  unfold alignUp64
  rw [h1, h2, h3, hland]
  omega

/-- C5 amended — arena allocation failure is deterministic and atomic
provided the `size_t` arithmetic does not wrap: for a power-of-two
alignment, when `used + size + alignment + headerSize` fits in `size_t` and
`used + size` exceeds the category pool's capacity, `allocate` returns the
null marker and leaves the whole manager state — the pool's `used`, `peak`
and allocation-tracking map included — unchanged. -/
theorem allocate_failure_atomic (st : MemState) (size k : Nat) (t : AllocationType)
    (pool : MemoryPool) (hk : k < 64) (hpool : st.pools t = Option.some pool)
    (hnw : pool.used + size + 2^k + headerSize ≤ U64)
    (hover : pool.used + size > pool.size) :
    MemoryManager.allocate st size (2^k) t = (Option.none, st) := by
  unfold MemoryManager.allocate
  cases hinit : st.initialized with
  | false => simp
  | true =>
      simp only [hinit, Bool.not_true, Bool.false_eq_true, if_false, hpool]
      have hb := @alignUp64_bounds size k hk (by unfold headerSize at hnw; omega)
      have htot : (alignUp64 size (2^k) + headerSize) % U64 = alignUp64 size (2^k) + headerSize := by
        apply Nat.mod_eq_of_lt
        unfold headerSize at *
        have hp1 : (1:Nat) ≤ 2^k := Nat.one_le_two_pow
        omega
      have hsum : (pool.used + (alignUp64 size (2^k) + headerSize)) % U64 =
          pool.used + (alignUp64 size (2^k) + headerSize) := by
        apply Nat.mod_eq_of_lt
        unfold headerSize at *
        have hp1 : (1:Nat) ≤ 2^k := Nat.one_le_two_pow
        omega
      have hcond : (pool.used + (alignUp64 size (2^k) + headerSize) % U64) % U64 > pool.size := by
        rw [htot, hsum]
        unfold headerSize
        omega
      simp only [hcond, if_pos]

/-- Witness for the amended C5 at a concrete input: a 100-byte request with
alignment 16 against a full 64-byte pool fails and changes nothing. -/
theorem allocate_failure_atomic_witness :
    MemoryManager.allocate
      ⟨true, fun _ => Option.some ⟨0, 64, 60, 60, []⟩⟩ 100 16 AllocationType.general =
      (Option.none, ⟨true, fun _ => Option.some ⟨0, 64, 60, 60, []⟩⟩) :=
  allocate_failure_atomic _ 100 4 AllocationType.general ⟨0, 64, 60, 60, []⟩
    (by omega) rfl (by decide) (by decide)

/-- C5 counterexample — the claim fails as stated because the aligned-size
computation wraps: requesting `2^64 - 8` bytes (alignment 16) from a pool of
capacity 1024 with `used = 0` has `used + size > capacity`, yet the wrapped
aligned size is 0, the bounds check passes, `allocate` returns a non-null
pointer and bumps the pool's `used` counter to 16. -/
theorem allocate_overflow_counterexample :
    (0 : Nat) + (2^64 - 8) > 1024 ∧
    (MemoryManager.allocate
        ⟨true, fun _ => Option.some ⟨0, 1024, 0, 0, []⟩⟩ (2^64 - 8) 16
        AllocationType.general).1 = Option.some 16 ∧
    ((MemoryManager.allocate
        ⟨true, fun _ => Option.some ⟨0, 1024, 0, 0, []⟩⟩ (2^64 - 8) 16
        AllocationType.general).2.pools AllocationType.general).map MemoryPool.used =
      Option.some 16 := by
  refine ⟨by norm_num, ?_, ?_⟩ <;> decide

/-- C8 counterexample — `World::registerSystem<T>` contains no duplicate
check (its only assertion is `typeID < MAX_SYSTEMS`): registering the same
system type twice succeeds, silently replaces the stored instance (heap
identity 0) with the new one (heap identity 1), and appends the new pointer
to the update-order vector, which still also holds the destroyed first
instance's pointer.  This contradicts the claim that a second registration
fails fast. -/
theorem duplicate_register_counterexample :
    ((World.init.registerSystem 0 Mask.none Mask.none).registerSystem 0 Mask.none
        Mask.none).systemsByUpdateOrder = [0, 1] ∧
    (((World.init.registerSystem 0 Mask.none Mask.none).registerSystem 0 Mask.none
        Mask.none).systems 0).map SystemR.ref = Option.some 1 ∧
    (∀ tid : SysId, (((World.init.registerSystem 0 Mask.none Mask.none).registerSystem 0
        Mask.none Mask.none).systems tid).map SystemR.ref ≠ Option.some 0) := by
  refine ⟨rfl, rfl, ?_⟩
  decide

/-- C8 amended — duplicate system-type registration is not checked: a second
`registerSystem<T>()` for an already registered type replaces the stored
instance for that type with a freshly constructed one, appends the new
instance's pointer to the update-order vector (the list keeps any pointer to
the destroyed previous instance), and afterwards the previous instance is
stored in no system slot. -/
theorem duplicate_register_replaces (w : World) (tid : SysId) (req excl : Mask) (s : SystemR)
    (hs : w.systems tid = Option.some s) (hlt : s.ref < w.refCtr)
    (huniq : ∀ tid2, tid2 ≠ tid → (w.systems tid2).map SystemR.ref ≠ Option.some s.ref) :
    (w.registerSystem tid req excl).systems tid =
      Option.some ⟨w.refCtr, req, excl, []⟩ ∧
    (w.registerSystem tid req excl).systemsByUpdateOrder =
      w.systemsByUpdateOrder ++ [w.refCtr] ∧
    (∀ tid2, ((w.registerSystem tid req excl).systems tid2).map SystemR.ref ≠
      Option.some s.ref) := by
  unfold World.registerSystem
  refine ⟨by simp, rfl, ?_⟩
  intro tid2
  by_cases h : tid2 = tid
  · subst h
    simp only [Function.update_same, Option.map_some]
    intro hc
    have : w.refCtr = s.ref := by injection hc
    omega
  · simp only [Function.update_noteq h]
    exact huniq tid2 h

/-- Witness for the amended C8 at a concrete input: re-registering type 0
over a world that already holds instance 0 for it. -/
theorem duplicate_register_replaces_witness :
    ((World.init.registerSystem 0 Mask.none Mask.none).registerSystem 0 Mask.none
        Mask.none).systems 0 = Option.some ⟨1, Mask.none, Mask.none, []⟩ :=
  (duplicate_register_replaces (World.init.registerSystem 0 Mask.none Mask.none) 0
    Mask.none Mask.none ⟨0, Mask.none, Mask.none, []⟩ rfl (by decide)
    (by decide)).1


/-- C10 — `World::getEntityByID` is total and returns null exactly when the
id is out of the entity array's range, the slot at the id is empty, or the
entity stored there has its alive flag cleared; otherwise it returns the
live entity stored at the id, whose `getID()` equals the id (the last part
under the storage invariant that slot `i` holds an entity with id `i`). -/
theorem getEntityByID_total_spec (w : World)
    (hslot : ∀ (i : Nat) (e : Entity),
      w.entities[i]? = Option.some (Option.some e) → e.id = i) (id : Nat) :
    (w.getEntityByID id = Option.none ↔
      w.entities.length ≤ id ∨ w.entities[id]? = Option.some Option.none ∨
        ∃ e, w.entities[id]? = Option.some (Option.some e) ∧ e.alive = false) ∧
    (∀ e, w.getEntityByID id = Option.some e →
      e.alive = true ∧ e.id = id ∧ w.entities[id]? = Option.some (Option.some e)) := by
  rcases hg : w.entities[id]? with _ | oe
  · have hlen : w.entities.length ≤ id := List.getElem?_eq_none_iff.mp hg
    have hval : w.getEntityByID id = Option.none := by
      unfold World.getEntityByID; rw [hg]
    rw [hval]
    exact ⟨iff_of_true rfl (Or.inl hlen), fun e2 he2 => Option.noConfusion he2⟩
  · rcases oe with _ | e
    · have hval : w.getEntityByID id = Option.none := by
        unfold World.getEntityByID; rw [hg]
      rw [hval]
      exact ⟨iff_of_true rfl (Or.inr (Or.inl rfl)), fun e2 he2 => Option.noConfusion he2⟩
    · cases ha : e.alive with
      | false =>
          have hval : w.getEntityByID id = Option.none := by
            unfold World.getEntityByID; rw [hg]
            show (if (!e.alive) = true then Option.none else Option.some e) = Option.none
            rw [ha]; rfl
          rw [hval]
          exact ⟨iff_of_true rfl (Or.inr (Or.inr ⟨e, rfl, ha⟩)),
            fun e2 he2 => Option.noConfusion he2⟩
      | true =>
          have hval : w.getEntityByID id = Option.some e := by
            unfold World.getEntityByID; rw [hg]
            show (if (!e.alive) = true then Option.none else Option.some e) = Option.some e
            rw [ha]; rfl
          have hlen : id < w.entities.length := by
            by_contra hn
            rw [List.getElem?_eq_none_iff.mpr (by omega)] at hg
            exact Option.noConfusion hg
          rw [hval]
          constructor
          · apply iff_of_false (by simp)
            intro hc
            rcases hc with hc | hc | ⟨e2, he2, ha2⟩
            · omega
            · injection hc with hc
              exact Option.noConfusion hc
            · injection he2 with he2
              injection he2 with he2
              rw [he2] at ha
              rw [ha] at ha2
              exact Bool.noConfusion ha2
          · intro e2 he2
            injection he2 with he2
            subst he2
            exact ⟨ha, hslot id e hg, rfl⟩

/-- Witness for C10 at a concrete input: a two-slot store holding an empty
slot 0 and a live entity at slot 1. -/
theorem getEntityByID_total_spec_witness :
    ((⟨2, [Option.none, Option.some ⟨7, 1, true, Mask.none, fun _ => 0⟩], [], [],
        fun _ => Option.none, fun _ => Option.none, [], 8, []⟩ : World).getEntityByID 0 =
      Option.none ↔
      (([Option.none, Option.some ⟨7, 1, true, Mask.none, fun _ => 0⟩] :
          List (Option Entity)).length ≤ 0 ∨
        ([Option.none, Option.some ⟨7, 1, true, Mask.none, fun _ => 0⟩] :
          List (Option Entity))[0]? = Option.some Option.none ∨
        ∃ e, ([Option.none, Option.some ⟨7, 1, true, Mask.none, fun _ => 0⟩] :
          List (Option Entity))[0]? = Option.some (Option.some e) ∧ e.alive = false)) :=
  (getEntityByID_total_spec
    ⟨2, [Option.none, Option.some ⟨7, 1, true, Mask.none, fun _ => 0⟩], [], [],
      fun _ => Option.none, fun _ => Option.none, [], 8, []⟩
    (by
      intro i e he
      match i, he with
      | 0, he => simp at he
      | 1, he =>
          have h1 : Option.some (Option.some (⟨7, 1, true, Mask.none, fun _ => 0⟩ : Entity)) =
              Option.some (Option.some e) := he
          injection h1 with h2
          injection h2 with h3
          rw [← h3]
      | n+2, he => simp at he) 0).1

/-! ## Equation and frame lemmas for the `World` operations -/

theorem updateEntitySystemList_eq_none {w : World} {r : Nat}
    (hd : w.derefEntity r = Option.none) : w.updateEntitySystemList r = w := by
  unfold World.updateEntitySystemList; rw [hd]

theorem updateEntitySystemList_eq {w : World} {r : Nat} {e : Entity}
    (hd : w.derefEntity r = Option.some e) :
    w.updateEntitySystemList r =
      { w with systems := fun tid => (w.systems tid).map (updateOneSystem e) } := by
  unfold World.updateEntitySystemList; rw [hd]

theorem updateEntitySystemList_entities (w : World) (r : Nat) :
    (w.updateEntitySystemList r).entities = w.entities := by
  unfold World.updateEntitySystemList
  cases w.derefEntity r <;> rfl

theorem ensurePool_entities (w : World) (cid : CompId) :
    (w.ensurePool cid).entities = w.entities := by
  unfold World.ensurePool
  cases w.pools cid <;> rfl

theorem addComponentToEntity_eq_none {w : World} {r : Nat} {cid : CompId} {v : Nat}
    (hd : w.derefEntity r = Option.none) : w.addComponentToEntity r cid v = w := by
  unfold World.addComponentToEntity; rw [hd]

theorem addComponentToEntity_eq_dup {w : World} {r : Nat} {cid : CompId} {v : Nat} {e : Entity}
    (hd : w.derefEntity r = Option.some e) (hm : e.mask cid = true) :
    w.addComponentToEntity r cid v = w := by
  unfold World.addComponentToEntity
  rw [hd]
  show (if e.mask cid = true then w else addComponentBody w r cid v) = w
  rw [hm]; rfl

theorem addComponentToEntity_eq {w : World} {r : Nat} {cid : CompId} {v : Nat} {e : Entity}
    (hd : w.derefEntity r = Option.some e) (hm : e.mask cid = false) :
    w.addComponentToEntity r cid v = addComponentBody w r cid v := by
  unfold World.addComponentToEntity
  rw [hd]
  show (if e.mask cid = true then w else addComponentBody w r cid v) = _
  rw [hm]; rfl

theorem removeComponentFromEntity_eq_none {w : World} {r : Nat} {cid : CompId}
    (hd : w.derefEntity r = Option.none) : w.removeComponentFromEntity r cid = w := by
  unfold World.removeComponentFromEntity; rw [hd]

theorem removeComponentFromEntity_eq_noComp {w : World} {r : Nat} {cid : CompId} {e : Entity}
    (hd : w.derefEntity r = Option.some e) (hm : e.mask cid = false) :
    w.removeComponentFromEntity r cid = w := by
  unfold World.removeComponentFromEntity
  rw [hd]
  show (if (!e.mask cid) = true then w else removeComponentBody w r cid e) = w
  rw [hm]; rfl

theorem removeComponentFromEntity_eq {w : World} {r : Nat} {cid : CompId} {e : Entity}
    (hd : w.derefEntity r = Option.some e) (hm : e.mask cid = true) :
    w.removeComponentFromEntity r cid = removeComponentBody w r cid e := by
  unfold World.removeComponentFromEntity
  rw [hd]
  show (if (!e.mask cid) = true then w else removeComponentBody w r cid e) = _
  rw [hm]; rfl

theorem destroyEntity_eq_none {w : World} {r : Nat}
    (hd : w.derefEntity r = Option.none) : w.destroyEntity r = w := by
  unfold World.destroyEntity; rw [hd]

theorem destroyEntity_eq_dead {w : World} {r : Nat} {e : Entity}
    (hd : w.derefEntity r = Option.some e) (ha : e.alive = false) :
    w.destroyEntity r = w := by
  unfold World.destroyEntity
  rw [hd]
  show (if (!e.alive) = true then w else _) = w
  rw [ha]; rfl

theorem destroyEntity_eq_live {w : World} {r : Nat} {e : Entity}
    (hd : w.derefEntity r = Option.some e) (ha : e.alive = true) :
    w.destroyEntity r = { w with pendingDestroy := w.pendingDestroy ++ [e.id] } := by
  unfold World.destroyEntity
  rw [hd]
  show (if (!e.alive) = true then w
    else { w with pendingDestroy := w.pendingDestroy ++ [e.id] }) = _
  rw [ha]; rfl

theorem flushOne_eq_skip {w : World} {id : Nat}
    (h : w.entities[id]? = Option.none ∨ w.entities[id]? = Option.some Option.none ∨
      ∃ e, w.entities[id]? = Option.some (Option.some e) ∧ e.alive = false) :
    flushOne w id = w := by
  unfold flushOne
  rcases h with h | h | ⟨e, h, ha⟩ <;> rw [h]
  show (if (!e.alive) = true then w else flushOneBody w id e) = w
  rw [ha]; rfl

theorem flushOne_eq_live {w : World} {id : Nat} {e : Entity}
    (h : w.entities[id]? = Option.some (Option.some e)) (ha : e.alive = true) :
    flushOne w id = flushOneBody w id e := by
  unfold flushOne
  rw [h]
  show (if (!e.alive) = true then w else flushOneBody w id e) = _
  rw [ha]; rfl

/-- Entity records survive an operation with their identity: every occupied
slot stays occupied by an entity with the same heap identity and id. -/
def refIdPreserved (w w2 : World) : Prop :=
  ∀ (i : Nat) (e : Entity), w.entities[i]? = Option.some (Option.some e) →
    ∃ e2, w2.entities[i]? = Option.some (Option.some e2) ∧ e2.ref = e.ref ∧ e2.id = e.id

theorem refIdPreserved_of_eq {w w2 : World} (h : w2.entities = w.entities) :
    refIdPreserved w w2 := by
  unfold refIdPreserved
  intro i e he
  exact ⟨e, by rw [h]; exact he, rfl, rfl⟩

theorem refIdPreserved_trans {w1 w2 w3 : World}
    (h12 : refIdPreserved w1 w2) (h23 : refIdPreserved w2 w3) : refIdPreserved w1 w3 := by
  unfold refIdPreserved at h12 h23 ⊢
  intro i e he
  obtain ⟨e2, he2, hr2, hi2⟩ := h12 i e he
  obtain ⟨e3, he3, hr3, hi3⟩ := h23 i e2 he2
  exact ⟨e3, he3, hr3.trans hr2, hi3.trans hi2⟩

theorem updateEntity_entities_getElem (w : World) (r : Nat) (f : Entity → Entity) (i : Nat) :
    (w.updateEntity r f).entities[i]? = (w.entities[i]?).map fun oe =>
      match oe with
      | Option.some e => if e.ref = r then Option.some (f e) else Option.some e
      | Option.none => Option.none := by
  unfold World.updateEntity
  exact List.getElem?_map ..

theorem updateEntity_refIdPreserved (w : World) (r : Nat) (f : Entity → Entity)
    (hf : ∀ e, (f e).ref = e.ref ∧ (f e).id = e.id) :
    refIdPreserved w (w.updateEntity r f) := by
  unfold refIdPreserved
  intro i e he
  rw [updateEntity_entities_getElem, he]
  by_cases hr : e.ref = r
  · exact ⟨f e, by simp [hr], (hf e).1, (hf e).2⟩
  · exact ⟨e, by simp [hr], rfl, rfl⟩

theorem refIdPreserved_updateEntity_of {w0 w : World} (h : refIdPreserved w0 w) (r : Nat)
    (f : Entity → Entity) (hf : ∀ e, (f e).ref = e.ref ∧ (f e).id = e.id) :
    refIdPreserved w0 (w.updateEntity r f) :=
  refIdPreserved_trans h (updateEntity_refIdPreserved w r f hf)

theorem refIdPreserved_sysList_of {w0 w : World} (h : refIdPreserved w0 w) (r : Nat) :
    refIdPreserved w0 (w.updateEntitySystemList r) :=
  refIdPreserved_trans h (refIdPreserved_of_eq (updateEntitySystemList_entities w r))

theorem addComponentBody_refIdPreserved (w : World) (r : Nat) (cid : CompId) (v : Nat) :
    refIdPreserved w (addComponentBody w r cid v) := by
  unfold addComponentBody
  apply refIdPreserved_sysList_of
  apply refIdPreserved_updateEntity_of
  · exact refIdPreserved_of_eq (ensurePool_entities w cid)
  · intro e0; exact ⟨rfl, rfl⟩

theorem removeComponentBody_refIdPreserved (w : World) (r : Nat) (cid : CompId) (e : Entity) :
    refIdPreserved w (removeComponentBody w r cid e) := by
  unfold removeComponentBody
  apply refIdPreserved_sysList_of
  split
  · apply refIdPreserved_updateEntity_of
    · apply refIdPreserved_updateEntity_of
      · exact refIdPreserved_of_eq (ensurePool_entities w cid)
      · intro e0; exact ⟨rfl, rfl⟩
    · intro e0; exact ⟨rfl, rfl⟩
  · apply refIdPreserved_updateEntity_of
    · exact refIdPreserved_of_eq (ensurePool_entities w cid)
    · intro e0; exact ⟨rfl, rfl⟩

theorem createEntity_eq_reuse {w : World} {id : Nat} {rest : List Nat}
    (hfq : w.freeEntityIDs = id :: rest) :
    w.createEntity =
      ({ w with
          freeEntityIDs := rest,
          entities := w.entities.set id
            (Option.some ⟨w.refCtr, id, true, Mask.none, fun _ => 0⟩),
          refCtr := w.refCtr + 1,
          trace := w.trace ++ [TraceEv.entityCreated id] }, w.refCtr, id) := by
  unfold World.createEntity; rw [hfq]

theorem createEntity_eq_fresh {w : World} (hfq : w.freeEntityIDs = []) :
    w.createEntity =
      ({ w with
          nextEntityID := w.nextEntityID + 1,
          entities := (if w.nextEntityID < w.entities.length then w.entities
            else w.entities ++
              List.replicate (w.nextEntityID + 1 - w.entities.length) Option.none).set
            w.nextEntityID (Option.some ⟨w.refCtr, w.nextEntityID, true, Mask.none, fun _ => 0⟩),
          refCtr := w.refCtr + 1,
          trace := w.trace ++ [TraceEv.entityCreated w.nextEntityID] }, w.refCtr,
        w.nextEntityID) := by
  unfold World.createEntity; rw [hfq]

theorem destroyEntity_entities (w : World) (r : Nat) :
    (w.destroyEntity r).entities = w.entities := by
  cases hd : w.derefEntity r with
  | none => rw [destroyEntity_eq_none hd]
  | some e =>
      cases ha : e.alive with
      | false => rw [destroyEntity_eq_dead hd ha]
      | true => rw [destroyEntity_eq_live hd ha]

theorem entityDestroy_eq_none {w : World} {r : Nat}
    (hd : w.derefEntity r = Option.none) : w.entityDestroy r = w := by
  unfold World.entityDestroy; rw [hd]

theorem entityDestroy_eq {w : World} {r : Nat} {e : Entity}
    (hd : w.derefEntity r = Option.some e) :
    w.entityDestroy r =
      (w.updateEntity r fun e0 => { e0 with alive := false }).destroyEntity r := by
  unfold World.entityDestroy; rw [hd]

/-- C9 — deferred destruction semantics of `World::destroyEntity`: calling
it on a dead entity is a no-op; calling it on a live entity changes nothing
but appending the entity's id to the pending-destruction list (the entity
stays alive and stored, components, pools and system lists untouched); and
no operation other than `World::update` (which runs the
flush-pending-changes phase) ever removes an entity from the store — every
occupied slot survives with the same heap identity and id. -/
theorem deferred_destruction :
    (∀ (w : World) (r : Nat) (e : Entity), w.derefEntity r = Option.some e →
      e.alive = false → w.destroyEntity r = w) ∧
    (∀ (w : World) (r : Nat) (e : Entity), w.derefEntity r = Option.some e →
      e.alive = true →
      w.destroyEntity r = { w with pendingDestroy := w.pendingDestroy ++ [e.id] }) ∧
    (∀ (w : World) (op : Op), (∀ dt, op ≠ Op.update dt) →
      (∀ id ∈ w.freeEntityIDs, w.entities[id]? = Option.some Option.none) →
      w.entities.length ≤ w.nextEntityID →
      refIdPreserved w (w.applyOp op)) := by
  refine ⟨fun w r e hd ha => destroyEntity_eq_dead hd ha,
    fun w r e hd ha => destroyEntity_eq_live hd ha, ?_⟩
  intro w op hnu hfree hnext
  cases op with
  | create =>
      show refIdPreserved w (w.createEntity).1
      cases hfq : w.freeEntityIDs with
      | nil =>
          rw [createEntity_eq_fresh hfq]
          unfold refIdPreserved
          intro i e he
          have hi : i < w.entities.length := by
            by_contra hn
            rw [List.getElem?_eq_none_iff.mpr (by omega)] at he
            exact Option.noConfusion he
          have hc : ¬(w.nextEntityID < w.entities.length) := by omega
          refine ⟨e, ?_, rfl, rfl⟩
          show ((if w.nextEntityID < w.entities.length then w.entities
            else w.entities ++
              List.replicate (w.nextEntityID + 1 - w.entities.length) Option.none).set
            w.nextEntityID _)[i]? = _
          rw [if_neg hc, List.getElem?_set_ne (by omega : w.nextEntityID ≠ i),
            List.getElem?_append]
          rw [if_pos hi]
          exact he
      | cons id0 rest =>
          rw [createEntity_eq_reuse hfq]
          unfold refIdPreserved
          intro i e he
          have hid : w.entities[id0]? = Option.some Option.none :=
            hfree id0 (by rw [hfq]; exact List.mem_cons_self ..)
          have hne : id0 ≠ i := by
            intro hc
            rw [hc] at hid
            rw [hid] at he
            injection he with he
            exact Option.noConfusion he
          refine ⟨e, ?_, rfl, rfl⟩
          show (w.entities.set id0 _)[i]? = _
          rw [List.getElem?_set_ne hne]
          exact he
  | addComp r cid v =>
      show refIdPreserved w (w.addComponentToEntity r cid v)
      cases hd : w.derefEntity r with
      | none => rw [addComponentToEntity_eq_none hd]; exact refIdPreserved_of_eq rfl
      | some e =>
          cases hm : e.mask cid with
          | true => rw [addComponentToEntity_eq_dup hd hm]; exact refIdPreserved_of_eq rfl
          | false =>
              rw [addComponentToEntity_eq hd hm]
              exact addComponentBody_refIdPreserved w r cid v
  | removeComp r cid =>
      show refIdPreserved w (w.removeComponentFromEntity r cid)
      cases hd : w.derefEntity r with
      | none => rw [removeComponentFromEntity_eq_none hd]; exact refIdPreserved_of_eq rfl
      | some e =>
          cases hm : e.mask cid with
          | false => rw [removeComponentFromEntity_eq_noComp hd hm]; exact refIdPreserved_of_eq rfl
          | true =>
              rw [removeComponentFromEntity_eq hd hm]
              exact removeComponentBody_refIdPreserved w r cid e
  | destroy r =>
      exact refIdPreserved_of_eq (destroyEntity_entities w r)
  | entityDestroy r =>
      show refIdPreserved w (w.entityDestroy r)
      cases hd : w.derefEntity r with
      | none => rw [entityDestroy_eq_none hd]; exact refIdPreserved_of_eq rfl
      | some e =>
          rw [entityDestroy_eq hd]
          exact refIdPreserved_trans
            (updateEntity_refIdPreserved w r (fun e0 => { e0 with alive := false })
              (fun e0 => ⟨rfl, rfl⟩))
            (refIdPreserved_of_eq (destroyEntity_entities _ r))
  | update dt => exact absurd rfl (hnu dt)
  | regSystem tid req excl => exact refIdPreserved_of_eq rfl
  | setOrder l => exact refIdPreserved_of_eq rfl

/-- C9 witness at a concrete input: destroying the (live) entity 0 of a
one-entity world only appends its id to the pending list. -/
theorem deferred_destruction_witness :
    (World.init.createEntity).1.destroyEntity 0 =
      { (World.init.createEntity).1 with pendingDestroy := [0] } :=
  deferred_destruction.2.1 (World.init.createEntity).1 0
    ⟨0, 0, true, Mask.none, fun _ => 0⟩ rfl rfl

/-! ## Slot-level lemmas about entity storage and pointer dereference -/

/-- Slot preservation up to the `m_componentIndices` table: an occupied slot
keeps its heap identity, id, liveness and mask. -/
def slotKeep : Option (Option Entity) → Option (Option Entity) → Prop
  | Option.some (Option.some e), b =>
      ∃ e2, b = Option.some (Option.some e2) ∧
        e2.ref = e.ref ∧ e2.id = e.id ∧ e2.alive = e.alive ∧ e2.mask = e.mask
  | a, b => b = a

theorem slotKeep_refl (a : Option (Option Entity)) : slotKeep a a := by
  unfold slotKeep
  rcases a with _ | oe
  · rfl
  · rcases oe with _ | e
    · rfl
    · exact ⟨e, rfl, rfl, rfl, rfl, rfl⟩

theorem slotKeep_trans {a b c : Option (Option Entity)}
    (hab : slotKeep a b) (hbc : slotKeep b c) : slotKeep a c := by
  unfold slotKeep at *
  rcases a with _ | oe
  · rw [hab] at hbc; exact hbc
  · rcases oe with _ | e
    · rw [hab] at hbc; exact hbc
    · obtain ⟨e2, hb, h1, h2, h3, h4⟩ := hab
      rw [hb] at hbc
      obtain ⟨e3, hc, g1, g2, g3, g4⟩ := hbc
      exact ⟨e3, hc, g1.trans h1, g2.trans h2, g3.trans h3, g4.trans h4⟩

theorem updateEntity_slot_self {w : World} {r : Nat} {id : Nat} {e : Entity}
    (f : Entity → Entity) (hslot : w.entities[id]? = Option.some (Option.some e))
    (href : e.ref = r) :
    (w.updateEntity r f).entities[id]? = Option.some (Option.some (f e)) := by
  rw [updateEntity_entities_getElem, hslot]
  simp [href]

theorem updateEntity_slot_other {w : World} {r : Nat} {j : Nat}
    (f : Entity → Entity)
    (hne : ∀ e2, w.entities[j]? = Option.some (Option.some e2) → e2.ref ≠ r) :
    (w.updateEntity r f).entities[j]? = w.entities[j]? := by
  rw [updateEntity_entities_getElem]
  rcases hj : w.entities[j]? with _ | oe
  · rfl
  · rcases oe with _ | e2
    · rfl
    · simp [hne e2 hj]

theorem updateEntity_slotKeep_of_fields {w : World} {r : Nat} (f : Entity → Entity)
    (hf : ∀ e, (f e).ref = e.ref ∧ (f e).id = e.id ∧ (f e).alive = e.alive ∧
      (f e).mask = e.mask) (j : Nat) :
    slotKeep (w.entities[j]?) ((w.updateEntity r f).entities[j]?) := by
  rw [updateEntity_entities_getElem]
  rcases hj : w.entities[j]? with _ | oe
  · rfl
  · rcases oe with _ | e
    · rfl
    · unfold slotKeep
      by_cases hr : e.ref = r
      · exact ⟨f e, by simp [hr], (hf e).1, (hf e).2.1, (hf e).2.2.1, (hf e).2.2.2⟩
      · exact ⟨e, by simp [hr], rfl, rfl, rfl, rfl⟩

theorem findRef_spec (l : List (Option Entity)) (r : Nat) :
    ∀ (id : Nat) (e : Entity), l[id]? = Option.some (Option.some e) → e.ref = r →
    (∀ (j : Nat) (e2 : Entity), l[j]? = Option.some (Option.some e2) → e2.ref = r → j = id) →
    findRef l r = Option.some e := by
  induction l with
  | nil => intro id e hslot _ _; simp at hslot
  | cons oe rest ih =>
      intro id e hslot href huniq
      cases oe with
      | some e0 =>
          by_cases h0 : e0.ref = r
          · have hid : 0 = id := huniq 0 e0 (by simp) h0
            rw [← hid, List.getElem?_cons_zero] at hslot
            have he0 : e0 = e := by
              injection hslot with h
              injection h
            unfold findRef
            rw [if_pos h0, he0]
          · cases id with
            | zero =>
                rw [List.getElem?_cons_zero] at hslot
                injection hslot with h
                injection h with h
                rw [h] at h0
                exact absurd href h0
            | succ id2 =>
                rw [List.getElem?_cons_succ] at hslot
                unfold findRef
                rw [if_neg h0]
                refine ih id2 e hslot href ?_
                intro j e2 hj hr2
                have := huniq (j + 1) e2 (by simpa using hj) hr2
                omega
      | none =>
          cases id with
          | zero => simp at hslot
          | succ id2 =>
              rw [List.getElem?_cons_succ] at hslot
              show findRef rest r = Option.some e
              refine ih id2 e hslot href ?_
              intro j e2 hj hr2
              have := huniq (j + 1) e2 (by simpa using hj) hr2
              omega

theorem derefEntity_unique {w : World} {r : Nat} {id : Nat} {e : Entity}
    (hslot : w.entities[id]? = Option.some (Option.some e)) (href : e.ref = r)
    (huniq : ∀ (j : Nat) (e2 : Entity), w.entities[j]? = Option.some (Option.some e2) →
      e2.ref = r → j = id) :
    w.derefEntity r = Option.some e :=
  findRef_spec w.entities r id e hslot href huniq

theorem ensurePool_trace (w : World) (cid : CompId) : (w.ensurePool cid).trace = w.trace := by
  unfold World.ensurePool; cases w.pools cid <;> rfl

theorem ensurePool_freeEntityIDs (w : World) (cid : CompId) :
    (w.ensurePool cid).freeEntityIDs = w.freeEntityIDs := by
  unfold World.ensurePool; cases w.pools cid <;> rfl

theorem ensurePool_pendingDestroy (w : World) (cid : CompId) :
    (w.ensurePool cid).pendingDestroy = w.pendingDestroy := by
  unfold World.ensurePool; cases w.pools cid <;> rfl

theorem ensurePool_systems (w : World) (cid : CompId) :
    (w.ensurePool cid).systems = w.systems := by
  unfold World.ensurePool; cases w.pools cid <;> rfl

theorem ensurePool_nextEntityID (w : World) (cid : CompId) :
    (w.ensurePool cid).nextEntityID = w.nextEntityID := by
  unfold World.ensurePool; cases w.pools cid <;> rfl

theorem ensurePool_refCtr (w : World) (cid : CompId) :
    (w.ensurePool cid).refCtr = w.refCtr := by
  unfold World.ensurePool; cases w.pools cid <;> rfl

theorem updateEntitySystemList_trace (w : World) (r : Nat) :
    (w.updateEntitySystemList r).trace = w.trace := by
  unfold World.updateEntitySystemList; cases w.derefEntity r <;> rfl

theorem updateEntitySystemList_freeEntityIDs (w : World) (r : Nat) :
    (w.updateEntitySystemList r).freeEntityIDs = w.freeEntityIDs := by
  unfold World.updateEntitySystemList; cases w.derefEntity r <;> rfl

theorem updateEntitySystemList_pendingDestroy (w : World) (r : Nat) :
    (w.updateEntitySystemList r).pendingDestroy = w.pendingDestroy := by
  unfold World.updateEntitySystemList; cases w.derefEntity r <;> rfl

theorem updateEntitySystemList_pools (w : World) (r : Nat) :
    (w.updateEntitySystemList r).pools = w.pools := by
  unfold World.updateEntitySystemList; cases w.derefEntity r <;> rfl

theorem updateEntitySystemList_nextEntityID (w : World) (r : Nat) :
    (w.updateEntitySystemList r).nextEntityID = w.nextEntityID := by
  unfold World.updateEntitySystemList; cases w.derefEntity r <;> rfl

theorem updateEntitySystemList_refCtr (w : World) (r : Nat) :
    (w.updateEntitySystemList r).refCtr = w.refCtr := by
  unfold World.updateEntitySystemList; cases w.derefEntity r <;> rfl

theorem updateEntity_length (w : World) (r : Nat) (f : Entity → Entity) :
    (w.updateEntity r f).entities.length = w.entities.length := by
  unfold World.updateEntity
  exact List.length_map ..

theorem slots_after_clear (w u : World) (hu : u.entities = w.entities)
    (r : Nat) (cid : CompId) (id : Nat) (e0 : Entity)
    (hslot : w.entities[id]? = Option.some (Option.some e0))
    (href : e0.ref = r)
    (huniq : ∀ (j : Nat) (e2 : Entity), w.entities[j]? = Option.some (Option.some e2) →
      e2.ref = r → j = id) :
    (∃ f3, ((u.updateEntity r fun x =>
        { x with mask := Mask.clear x.mask cid }).entities[id]?) =
      Option.some (Option.some ⟨e0.ref, e0.id, e0.alive, Mask.clear e0.mask cid, f3⟩)) ∧
    (∀ j, j ≠ id → slotKeep (w.entities[j]?)
      ((u.updateEntity r fun x => { x with mask := Mask.clear x.mask cid }).entities[j]?)) := by
  constructor
  · have h1 : u.entities[id]? = Option.some (Option.some e0) := by rw [hu]; exact hslot
    exact ⟨e0.compIdx,
      updateEntity_slot_self (fun x => { x with mask := Mask.clear x.mask cid }) h1 href⟩
  · intro j hj
    have hne : ∀ e2, u.entities[j]? = Option.some (Option.some e2) → e2.ref ≠ r := by
      intro e2 hj2 hr2
      rw [hu] at hj2
      exact hj (huniq j e2 hj2 hr2)
    rw [updateEntity_slot_other _ hne, hu]
    exact slotKeep_refl _

theorem slots_after_clear_fix (w u : World) (hu : u.entities = w.entities)
    (r : Nat) (cid : CompId) (o : Nat) (idx : Nat) (id : Nat) (e0 : Entity)
    (hslot : w.entities[id]? = Option.some (Option.some e0))
    (href : e0.ref = r)
    (huniq : ∀ (j : Nat) (e2 : Entity), w.entities[j]? = Option.some (Option.some e2) →
      e2.ref = r → j = id) :
    (∃ f3, (((u.updateEntity r fun x => { x with mask := Mask.clear x.mask cid }).updateEntity o
        fun x => { x with compIdx := Function.update x.compIdx cid idx }).entities[id]?) =
      Option.some (Option.some ⟨e0.ref, e0.id, e0.alive, Mask.clear e0.mask cid, f3⟩)) ∧
    (∀ j, j ≠ id → slotKeep (w.entities[j]?)
      (((u.updateEntity r fun x => { x with mask := Mask.clear x.mask cid }).updateEntity o
        fun x => { x with compIdx := Function.update x.compIdx cid idx }).entities[j]?)) := by
  obtain ⟨hself, hother⟩ := slots_after_clear w u hu r cid id e0 hslot href huniq
  constructor
  · obtain ⟨f3, h⟩ := hself
    by_cases ho : e0.ref = o
    · rw [updateEntity_slot_self (fun x =>
        { x with compIdx := Function.update x.compIdx cid idx }) h ho]
      exact ⟨Function.update f3 cid idx, rfl⟩
    · rw [updateEntity_slot_other _ ?_]
      · exact ⟨f3, h⟩
      · intro e2 h2
        rw [h] at h2
        injection h2 with h2
        injection h2 with h2
        rw [← h2]
        exact ho
  · intro j hj
    refine slotKeep_trans (hother j hj) ?_
    exact updateEntity_slotKeep_of_fields
      (fun x => { x with compIdx := Function.update x.compIdx cid idx })
      (fun x => ⟨rfl, rfl, rfl, rfl⟩) j

theorem removeComponentBody_effects (w : World) (r : Nat) (cid : CompId) (e : Entity)
    (id : Nat) (e0 : Entity)
    (hslot : w.entities[id]? = Option.some (Option.some e0))
    (href : e0.ref = r)
    (huniq : ∀ (j : Nat) (e2 : Entity), w.entities[j]? = Option.some (Option.some e2) →
      e2.ref = r → j = id) :
    (∃ f3, (removeComponentBody w r cid e).entities[id]? =
      Option.some (Option.some ⟨e0.ref, e0.id, e0.alive, Mask.clear e0.mask cid, f3⟩)) ∧
    (∀ j, j ≠ id → slotKeep (w.entities[j]?) ((removeComponentBody w r cid e).entities[j]?)) ∧
    (removeComponentBody w r cid e).entities.length = w.entities.length ∧
    (removeComponentBody w r cid e).trace = w.trace ++ [TraceEv.componentRemoved e.id cid] ∧
    (removeComponentBody w r cid e).freeEntityIDs = w.freeEntityIDs ∧
    (removeComponentBody w r cid e).pendingDestroy = w.pendingDestroy ∧
    (removeComponentBody w r cid e).refCtr = w.refCtr ∧
    (removeComponentBody w r cid e).nextEntityID = w.nextEntityID := by
  unfold removeComponentBody
  simp only [updateEntitySystemList_entities, updateEntitySystemList_trace,
    updateEntitySystemList_freeEntityIDs, updateEntitySystemList_pendingDestroy,
    updateEntitySystemList_refCtr, updateEntitySystemList_nextEntityID]
  refine ⟨?_, ?_, ?_, ?_, ?_, ?_, ?_, ?_⟩
  · split
    · exact (slots_after_clear_fix w _ (ensurePool_entities w cid) r cid _ _ id e0 hslot
        href huniq).1
    · exact (slots_after_clear w _ (ensurePool_entities w cid) r cid id e0 hslot
        href huniq).1
  · intro j hj
    split
    · exact (slots_after_clear_fix w _ (ensurePool_entities w cid) r cid _ _ id e0 hslot
        href huniq).2 j hj
    · exact (slots_after_clear w _ (ensurePool_entities w cid) r cid id e0 hslot
        href huniq).2 j hj
  · split
    · rw [updateEntity_length, updateEntity_length]
      show (w.ensurePool cid).entities.length = w.entities.length
      rw [ensurePool_entities]
    · rw [updateEntity_length]
      show (w.ensurePool cid).entities.length = w.entities.length
      rw [ensurePool_entities]
  · split
    · show (w.ensurePool cid).trace ++ [TraceEv.componentRemoved e.id cid] = _
      rw [ensurePool_trace]
    · show (w.ensurePool cid).trace ++ [TraceEv.componentRemoved e.id cid] = _
      rw [ensurePool_trace]
  · split
    · show (w.ensurePool cid).freeEntityIDs = _
      rw [ensurePool_freeEntityIDs]
    · show (w.ensurePool cid).freeEntityIDs = _
      rw [ensurePool_freeEntityIDs]
  · split
    · show (w.ensurePool cid).pendingDestroy = _
      rw [ensurePool_pendingDestroy]
    · show (w.ensurePool cid).pendingDestroy = _
      rw [ensurePool_pendingDestroy]
  · split
    · show (w.ensurePool cid).refCtr = _
      rw [ensurePool_refCtr]
    · show (w.ensurePool cid).refCtr = _
      rw [ensurePool_refCtr]
  · split
    · show (w.ensurePool cid).nextEntityID = _
      rw [ensurePool_nextEntityID]
    · show (w.ensurePool cid).nextEntityID = _
      rw [ensurePool_nextEntityID]

/-! ## Mask and system-membership helper lemmas -/

theorem Mask.clear_eq_self {m : Mask} {c : CompId} (h : m c = false) : Mask.clear m c = m := by
  funext x
  unfold Mask.clear
  by_cases hx : x = c
  · subst hx; rw [Function.update_same, h]
  · rw [Function.update_noteq hx]

/-- Clearing a list of bits in order. -/
def maskClearList (m : Mask) (l : List CompId) : Mask := l.foldl Mask.clear m

theorem maskClearList_nil (m : Mask) : maskClearList m [] = m := rfl

theorem maskClearList_cons (m : Mask) (c : CompId) (l : List CompId) :
    maskClearList m (c :: l) = maskClearList (Mask.clear m c) l := rfl

theorem maskClearList_mono {m : Mask} {l : List CompId} {c : CompId}
    (h : maskClearList m l c = true) : m c = true := by
  induction l generalizing m with
  | nil => exact h
  | cons d rest ih =>
      rw [maskClearList_cons] at h
      have := ih h
      unfold Mask.clear at this
      by_cases hd : c = d
      · rw [hd, Function.update_same] at this; exact absurd this (by simp)
      · rw [Function.update_noteq hd] at this; exact this

theorem maskClearList_mem {m : Mask} {l : List CompId} {c : CompId} (h : c ∈ l) :
    maskClearList m l c = false := by
  induction l generalizing m with
  | nil => simp at h
  | cons d rest ih =>
      rw [maskClearList_cons]
      rcases List.mem_cons.mp h with hc | hc
      · subst hc
        cases hv : maskClearList (Mask.clear m c) rest c with
        | false => rfl
        | true =>
            have := maskClearList_mono hv
            unfold Mask.clear at this
            rw [Function.update_same] at this
            exact absurd this (by simp)
      · exact ih hc

theorem maskClearList_not_mem {m : Mask} {l : List CompId} {c : CompId} (h : c ∉ l) :
    maskClearList m l c = m c := by
  induction l generalizing m with
  | nil => rfl
  | cons d rest ih =>
      rw [maskClearList_cons]
      have hd : c ≠ d := fun hc => h (by rw [hc]; exact List.mem_cons_self ..)
      rw [ih (fun hc => h (List.mem_cons_of_mem d hc))]
      unfold Mask.clear
      rw [Function.update_noteq hd]

theorem maskClearList_finRange (m : Mask) :
    maskClearList m (List.finRange 64) = Mask.none := by
  funext c
  exact maskClearList_mem (List.mem_finRange c)

theorem updateOneSystem_required (e : Entity) (s : SystemR) :
    (updateOneSystem e s).required = s.required := by
  unfold updateOneSystem
  dsimp only
  split
  · rfl
  · split <;> rfl

theorem updateOneSystem_excluded (e : Entity) (s : SystemR) :
    (updateOneSystem e s).excluded = s.excluded := by
  unfold updateOneSystem
  dsimp only
  split
  · rfl
  · split <;> rfl

theorem updateOneSystem_sref (e : Entity) (s : SystemR) :
    (updateOneSystem e s).ref = s.ref := by
  unfold updateOneSystem
  dsimp only
  split
  · rfl
  · split <;> rfl

theorem updateOneSystem_nodup (e : Entity) (s : SystemR) (h : s.entities.Nodup) :
    (updateOneSystem e s).entities.Nodup := by
  unfold updateOneSystem
  dsimp only
  split
  · rename_i hcond
    have hnm : e.ref ∉ s.entities := by
      intro hm
      rw [Bool.and_eq_true] at hcond
      have hcf := hcond.2
      rw [Bool.not_eq_true'] at hcf
      have hc2 : s.entities.contains e.ref = true := List.elem_iff.mpr hm
      rw [hcf] at hc2
      exact Bool.noConfusion hc2
    simp [List.nodup_append, h, hnm]
  · split
    · exact h.erase e.ref
    · exact h

theorem updateOneSystem_mem_self (e : Entity) (s : SystemR) (h : s.entities.Nodup) :
    (e.ref ∈ (updateOneSystem e s).entities ↔ sysShouldContain e s = true) := by
  unfold updateOneSystem
  dsimp only
  split
  · rename_i hcond
    rw [Bool.and_eq_true] at hcond
    simp [hcond.1]
  · split
    · rename_i hcond hcond2
      rw [Bool.and_eq_true] at hcond2
      have hsb : sysShouldContain e s = false := by
        rw [Bool.not_eq_true'] at hcond2
        rcases hcond2 with ⟨h1, _⟩
        exact h1
      rw [hsb]
      simp [h.not_mem_erase]
    · rename_i hcond hcond2
      constructor
      · intro hm
        by_contra hsb
        rw [Bool.not_eq_true] at hsb
        exact hcond2 (by
          rw [Bool.and_eq_true]
          refine ⟨by rw [hsb]; rfl, List.elem_iff.mpr hm⟩)
      · intro hsb
        by_contra hm
        exact hcond (by
          rw [Bool.and_eq_true]
          refine ⟨hsb, ?_⟩
          rw [Bool.not_eq_true']
          cases hc : s.entities.contains e.ref with
          | false => rfl
          | true => exact absurd (List.elem_iff.mp hc) hm)

theorem updateOneSystem_mem_other (e : Entity) (s : SystemR) {x : Nat} (hne : x ≠ e.ref) :
    (x ∈ (updateOneSystem e s).entities ↔ x ∈ s.entities) := by
  unfold updateOneSystem
  dsimp only
  split
  · simp [hne]
  · split
    · exact List.mem_erase_of_ne hne
    · exact Iff.rfl

theorem uniq_of_slotKeep {w v : World} {r : Nat} {id : Nat}
    (huniq : ∀ (j : Nat) (e2 : Entity), w.entities[j]? = Option.some (Option.some e2) →
      e2.ref = r → j = id)
    (hoth : ∀ j, j ≠ id → slotKeep (w.entities[j]?) (v.entities[j]?)) :
    ∀ (j : Nat) (e2 : Entity), v.entities[j]? = Option.some (Option.some e2) →
      e2.ref = r → j = id := by
  intro j e2 hj hr
  by_contra hne
  have hk := hoth j hne
  unfold slotKeep at hk
  rcases hw : w.entities[j]? with _ | oe
  · rw [hw] at hk; rw [hk] at hj; exact Option.noConfusion hj
  · rcases oe with _ | x
    · rw [hw] at hk; rw [hk] at hj
      injection hj with hj
      exact Option.noConfusion hj
    · rw [hw] at hk
      obtain ⟨e3, hv, hr3, _, _, _⟩ := hk
      rw [hv] at hj
      injection hj with hj
      injection hj with hj
      exact hne (huniq j x hw (by rw [← hr3, hj, hr]))

theorem removeComponentBody_systems (w : World) (r : Nat) (cid : CompId) (e : Entity)
    (id : Nat) (e0 : Entity)
    (hslot : w.entities[id]? = Option.some (Option.some e0))
    (href : e0.ref = r)
    (huniq : ∀ (j : Nat) (e2 : Entity), w.entities[j]? = Option.some (Option.some e2) →
      e2.ref = r → j = id) :
    ∃ e1 : Entity, e1.ref = e0.ref ∧ e1.alive = e0.alive ∧
      e1.mask = Mask.clear e0.mask cid ∧
      ∀ tid, (removeComponentBody w r cid e).systems tid =
        (w.systems tid).map (updateOneSystem e1) := by
  have hbody : removeComponentBody w r cid e =
      (if e.compIdx cid <
          (poolRemove (((w.ensurePool cid).pools cid).getD []) (e.compIdx cid)).length
        then
          (({ w.ensurePool cid with
                trace := (w.ensurePool cid).trace ++ [TraceEv.componentRemoved e.id cid],
                pools := Function.update (w.ensurePool cid).pools cid
                  (Option.some (poolRemove (((w.ensurePool cid).pools cid).getD [])
                    (e.compIdx cid))) }).updateEntity r
              (fun x => { x with mask := Mask.clear x.mask cid })).updateEntity
            ((poolRemove (((w.ensurePool cid).pools cid).getD []) (e.compIdx cid)).getD
              (e.compIdx cid) ⟨0, 0⟩).owner
            (fun x => { x with compIdx := Function.update x.compIdx cid (e.compIdx cid) })
        else
          ({ w.ensurePool cid with
              trace := (w.ensurePool cid).trace ++ [TraceEv.componentRemoved e.id cid],
              pools := Function.update (w.ensurePool cid).pools cid
                (Option.some (poolRemove (((w.ensurePool cid).pools cid).getD [])
                  (e.compIdx cid))) }).updateEntity r
            (fun x => { x with mask := Mask.clear x.mask cid })).updateEntitySystemList
        r := rfl
  rw [hbody]
  set W3 : World :=
    { w.ensurePool cid with
        trace := (w.ensurePool cid).trace ++ [TraceEv.componentRemoved e.id cid],
        pools := Function.update (w.ensurePool cid).pools cid
          (Option.some (poolRemove (((w.ensurePool cid).pools cid).getD [])
            (e.compIdx cid))) } with hW3
  have hu : W3.entities = w.entities := ensurePool_entities w cid
  by_cases hc : e.compIdx cid <
      (poolRemove (((w.ensurePool cid).pools cid).getD []) (e.compIdx cid)).length
  · rw [if_pos hc]
    obtain ⟨⟨f3, hE⟩, hoth⟩ := slots_after_clear_fix w W3 hu r cid
      ((poolRemove (((w.ensurePool cid).pools cid).getD []) (e.compIdx cid)).getD
        (e.compIdx cid) ⟨0, 0⟩).owner
      (e.compIdx cid) id e0 hslot href huniq
    have huniq2 := uniq_of_slotKeep huniq hoth
    have hd := derefEntity_unique hE href huniq2
    rw [updateEntitySystemList_eq hd]
    refine ⟨⟨e0.ref, e0.id, e0.alive, Mask.clear e0.mask cid, f3⟩, rfl, rfl, rfl, ?_⟩
    intro tid
    show ((w.ensurePool cid).systems tid).map
      (updateOneSystem ⟨e0.ref, e0.id, e0.alive, Mask.clear e0.mask cid, f3⟩) =
      (w.systems tid).map (updateOneSystem ⟨e0.ref, e0.id, e0.alive, Mask.clear e0.mask cid, f3⟩)
    rw [ensurePool_systems]
  · rw [if_neg hc]
    obtain ⟨⟨f3, hE⟩, hoth⟩ := slots_after_clear w W3 hu r cid id e0 hslot href huniq
    have huniq2 := uniq_of_slotKeep huniq hoth
    have hd := derefEntity_unique hE href huniq2
    rw [updateEntitySystemList_eq hd]
    refine ⟨⟨e0.ref, e0.id, e0.alive, Mask.clear e0.mask cid, f3⟩, rfl, rfl, rfl, ?_⟩
    intro tid
    show ((w.ensurePool cid).systems tid).map
      (updateOneSystem ⟨e0.ref, e0.id, e0.alive, Mask.clear e0.mask cid, f3⟩) =
      (w.systems tid).map (updateOneSystem ⟨e0.ref, e0.id, e0.alive, Mask.clear e0.mask cid, f3⟩)
    rw [ensurePool_systems]

theorem flushRemoveStep_eq {w : World} {r : Nat} {cid : CompId} {e0 : Entity}
    (hd : w.derefEntity r = Option.some e0) :
    flushRemoveStep r w cid =
      if e0.mask cid = true then w.removeComponentFromEntity r cid else w := by
  unfold flushRemoveStep; rw [hd]

theorem flushRemoveStep_effects (w : World) (r : Nat) (cid : CompId)
    (id : Nat) (e0 : Entity)
    (hslot : w.entities[id]? = Option.some (Option.some e0))
    (href : e0.ref = r)
    (huniq : ∀ (j : Nat) (e2 : Entity), w.entities[j]? = Option.some (Option.some e2) →
      e2.ref = r → j = id) :
    (∃ f3, (flushRemoveStep r w cid).entities[id]? =
      Option.some (Option.some ⟨e0.ref, e0.id, e0.alive, Mask.clear e0.mask cid, f3⟩)) ∧
    (∀ j, j ≠ id → slotKeep (w.entities[j]?) ((flushRemoveStep r w cid).entities[j]?)) ∧
    (flushRemoveStep r w cid).entities.length = w.entities.length ∧
    (flushRemoveStep r w cid).trace = w.trace ++
      (if e0.mask cid = true then [TraceEv.componentRemoved e0.id cid] else []) ∧
    (flushRemoveStep r w cid).freeEntityIDs = w.freeEntityIDs ∧
    (flushRemoveStep r w cid).pendingDestroy = w.pendingDestroy ∧
    (flushRemoveStep r w cid).refCtr = w.refCtr ∧
    (flushRemoveStep r w cid).nextEntityID = w.nextEntityID ∧
    (∃ e1 : Entity, e1.ref = e0.ref ∧ e1.alive = e0.alive ∧
      e1.mask = Mask.clear e0.mask cid ∧
      ((∀ tid, (flushRemoveStep r w cid).systems tid =
          (w.systems tid).map (updateOneSystem e1)) ∨
        (e0.mask cid = false ∧
          ∀ tid, (flushRemoveStep r w cid).systems tid = w.systems tid))) := by
  have hd : w.derefEntity r = Option.some e0 := derefEntity_unique hslot href huniq
  rw [flushRemoveStep_eq hd]
  by_cases hm : e0.mask cid = true
  · rw [if_pos hm, removeComponentFromEntity_eq hd hm]
    obtain ⟨hself, hoth, hlen, htr, hfree, hpend, hctr, hnext⟩ :=
      removeComponentBody_effects w r cid e0 id e0 hslot href huniq
    obtain ⟨e1, he1r, he1a, he1m, he1s⟩ :=
      removeComponentBody_systems w r cid e0 id e0 hslot href huniq
    exact ⟨hself, hoth, hlen, by rw [htr, if_pos hm], hfree, hpend, hctr, hnext,
      e1, he1r, he1a, he1m, Or.inl he1s⟩
  · rw [if_neg hm]
    rw [Bool.not_eq_true] at hm
    refine ⟨⟨e0.compIdx, by rw [Mask.clear_eq_self hm]; exact hslot⟩,
      fun j hj => slotKeep_refl _, rfl, ?_, rfl, rfl, rfl, rfl,
      ⟨e0.ref, e0.id, e0.alive, Mask.clear e0.mask cid, e0.compIdx⟩, rfl, rfl, rfl,
      Or.inr ⟨hm, fun tid => rfl⟩⟩
    rw [if_neg (by rw [hm]; simp)]
    exact (List.append_nil _).symm

theorem flushFold_effects (l : List CompId) (r : Nat) :
    ∀ (w : World) (id : Nat) (e0 : Entity), l.Nodup →
      w.entities[id]? = Option.some (Option.some e0) → e0.ref = r →
      (∀ (j : Nat) (e2 : Entity), w.entities[j]? = Option.some (Option.some e2) →
        e2.ref = r → j = id) →
      (∃ f3, (l.foldl (flushRemoveStep r) w).entities[id]? =
        Option.some (Option.some ⟨e0.ref, e0.id, e0.alive, maskClearList e0.mask l, f3⟩)) ∧
      (∀ j, j ≠ id →
        slotKeep (w.entities[j]?) ((l.foldl (flushRemoveStep r) w).entities[j]?)) ∧
      (l.foldl (flushRemoveStep r) w).entities.length = w.entities.length ∧
      (l.foldl (flushRemoveStep r) w).trace = w.trace ++
        (l.filter fun c => e0.mask c).map (fun c => TraceEv.componentRemoved e0.id c) ∧
      (l.foldl (flushRemoveStep r) w).freeEntityIDs = w.freeEntityIDs ∧
      (l.foldl (flushRemoveStep r) w).pendingDestroy = w.pendingDestroy ∧
      (l.foldl (flushRemoveStep r) w).refCtr = w.refCtr ∧
      (l.foldl (flushRemoveStep r) w).nextEntityID = w.nextEntityID := by
  induction l with
  | nil =>
      intro w id e0 _ hslot href huniq
      refine ⟨⟨e0.compIdx, ?_⟩, fun j _ => slotKeep_refl _, rfl,
        (List.append_nil _).symm, rfl, rfl, rfl, rfl⟩
      rw [maskClearList_nil]
      exact hslot
  | cons c rest ih =>
      intro w id e0 hnd hslot href huniq
      obtain ⟨hc, hndr⟩ := List.nodup_cons.mp hnd
      obtain ⟨⟨f3, hself⟩, hoth, hlen, htr, hfree, hpend, hctr, hnext, _⟩ :=
        flushRemoveStep_effects w r c id e0 hslot href huniq
      have huniq1 := uniq_of_slotKeep huniq hoth
      have huniq2 : ∀ (j : Nat) (e2 : Entity),
          (flushRemoveStep r w c).entities[j]? = Option.some (Option.some e2) →
          e2.ref = r → j = id := huniq1
      obtain ⟨⟨f4, hself2⟩, hoth2, hlen2, htr2, hfree2, hpend2, hctr2, hnext2⟩ :=
        ih (flushRemoveStep r w c) id ⟨e0.ref, e0.id, e0.alive, Mask.clear e0.mask c, f3⟩
          hndr hself href huniq2
      rw [List.foldl_cons]
      refine ⟨⟨f4, hself2⟩, ?_, hlen2.trans hlen, ?_, hfree2.trans hfree,
        hpend2.trans hpend, hctr2.trans hctr, hnext2.trans hnext⟩
      · intro j hj
        exact slotKeep_trans (hoth j hj) (hoth2 j hj)
      · rw [htr2, htr]
        have hfc : (rest.filter fun x =>
            (⟨e0.ref, e0.id, e0.alive, Mask.clear e0.mask c, f3⟩ : Entity).mask x) =
            (rest.filter fun x => e0.mask x) := by
          apply List.filter_congr
          intro x hx
          show Mask.clear e0.mask c x = e0.mask x
          unfold Mask.clear
          rw [Function.update_noteq (fun he : x = c => hc (he ▸ hx))]
        rw [hfc]
        by_cases hm : e0.mask c = true
        · rw [if_pos hm]
          have : (c :: rest).filter (fun x => e0.mask x) =
              c :: rest.filter (fun x => e0.mask x) := by
            rw [List.filter_cons, if_pos (by rw [hm])]
          rw [this, List.map_cons, List.append_assoc]
          rfl
        · rw [if_neg hm]
          rw [Bool.not_eq_true] at hm
          have : (c :: rest).filter (fun x => e0.mask x) =
              rest.filter (fun x => e0.mask x) := by
            rw [List.filter_cons, if_neg (by rw [hm]; simp)]
          rw [this, List.append_nil]

/-- The membership predicate of `updateEntitySystemList` as a function of a
mask and a liveness flag (it reads nothing else of the entity). -/
def matchesMask (m : Mask) (a : Bool) (s : SystemR) : Bool :=
  Mask.beq (Mask.and m s.required) s.required && !(Mask.any (Mask.and m s.excluded)) && a

theorem sysShouldContain_eq (e : Entity) (s : SystemR) :
    sysShouldContain e s = matchesMask e.mask e.alive s := rfl

theorem matchesMask_congr (m : Mask) (a : Bool) {s s2 : SystemR}
    (hr : s2.required = s.required) (he : s2.excluded = s.excluded) :
    matchesMask m a s2 = matchesMask m a s := by
  unfold matchesMask; rw [hr, he]

theorem flushFold_systems (l : List CompId) (r : Nat) :
    ∀ (w : World) (id : Nat) (e0 : Entity), l.Nodup →
      w.entities[id]? = Option.some (Option.some e0) → e0.ref = r →
      (∀ (j : Nat) (e2 : Entity), w.entities[j]? = Option.some (Option.some e2) →
        e2.ref = r → j = id) →
      (∀ tid s, w.systems tid = Option.some s →
        s.entities.Nodup ∧
        (r ∈ s.entities → matchesMask e0.mask e0.alive s = true)) →
      (∀ tid s, (l.foldl (flushRemoveStep r) w).systems tid = Option.some s →
        ∃ s0, w.systems tid = Option.some s0 ∧
          s.required = s0.required ∧ s.excluded = s0.excluded ∧ s.ref = s0.ref ∧
          s.entities.Nodup ∧
          (∀ x, x ≠ r → (x ∈ s.entities ↔ x ∈ s0.entities)) ∧
          (r ∈ s.entities →
            matchesMask (maskClearList e0.mask l) e0.alive s = true)) ∧
      (∀ tid, w.systems tid = Option.none →
        (l.foldl (flushRemoveStep r) w).systems tid = Option.none) := by
  induction l with
  | nil =>
      intro w id e0 _ _ _ _ hsys
      refine ⟨?_, fun tid h => h⟩
      intro tid s hs
      exact ⟨s, hs, rfl, rfl, rfl, (hsys tid s hs).1,
        fun x _ => Iff.rfl, fun hm => (hsys tid s hs).2 hm⟩
  | cons c rest ih =>
      intro w id e0 hnd hslot href huniq hsys
      obtain ⟨hcn, hndr⟩ := List.nodup_cons.mp hnd
      obtain ⟨⟨f3, hself⟩, hoth, _, _, _, _, _, _, e1, he1r, he1a, he1m, he1s⟩ :=
        flushRemoveStep_effects w r c id e0 hslot href huniq
      have huniq2 := uniq_of_slotKeep huniq hoth
      have hsys2 : ∀ tid s, (flushRemoveStep r w c).systems tid = Option.some s →
          s.entities.Nodup ∧
          (r ∈ s.entities →
            matchesMask (Mask.clear e0.mask c) e0.alive s = true) := by
        intro tid s hs
        rcases he1s with hmap | ⟨hmf, hkeep⟩
        · rw [hmap tid] at hs
          rcases hs0 : w.systems tid with _ | s0
          · rw [hs0] at hs; exact Option.noConfusion hs
          · rw [hs0] at hs
            injection hs with hs
            obtain ⟨hnod0, _⟩ := hsys tid s0 hs0
            constructor
            · rw [← hs]; exact updateOneSystem_nodup e1 s0 hnod0
            · intro hmem
              rw [← hs] at hmem
              have hrr : r = e1.ref := by rw [he1r, href]
              rw [hrr] at hmem
              have := (updateOneSystem_mem_self e1 s0 hnod0).mp hmem
              rw [sysShouldContain_eq, he1m, he1a] at this
              rw [← hs]
              rw [matchesMask_congr (Mask.clear e0.mask c) e0.alive
                (updateOneSystem_required e1 s0) (updateOneSystem_excluded e1 s0)]
              exact this
        · rw [hkeep tid] at hs
          obtain ⟨hnod0, hM0⟩ := hsys tid s hs
          refine ⟨hnod0, fun hmem => ?_⟩
          rw [Mask.clear_eq_self hmf]
          exact hM0 hmem
      obtain ⟨hA, hB⟩ := ih (flushRemoveStep r w c) id
        ⟨e0.ref, e0.id, e0.alive, Mask.clear e0.mask c, f3⟩ hndr hself href huniq2 hsys2
      rw [List.foldl_cons]
      constructor
      · intro tid s hs
        obtain ⟨s1, hs1, hreq, hexc, hsref, hnod, hother, hM⟩ := hA tid s hs
        rcases he1s with hmap | ⟨_, hkeep⟩
        · rw [hmap tid] at hs1
          rcases hs0 : w.systems tid with _ | s0
          · rw [hs0] at hs1; exact Option.noConfusion hs1
          · rw [hs0] at hs1
            injection hs1 with hs1
            refine ⟨s0, rfl, ?_, ?_, ?_, hnod, ?_, fun hm => hM hm⟩
            · rw [hreq, ← hs1, updateOneSystem_required]
            · rw [hexc, ← hs1, updateOneSystem_excluded]
            · rw [hsref, ← hs1, updateOneSystem_sref]
            · intro x hx
              rw [hother x hx, ← hs1]
              have hxr : x ≠ e1.ref := by rw [he1r, href]; exact hx
              exact updateOneSystem_mem_other e1 s0 hxr
        · rw [hkeep tid] at hs1
          exact ⟨s1, hs1, hreq, hexc, hsref, hnod, hother, fun hm => hM hm⟩
      · intro tid hnone
        apply hB
        rcases he1s with hmap | ⟨_, hkeep⟩
        · rw [hmap tid, hnone]; rfl
        · rw [hkeep tid]; exact hnone

theorem matchesMask_none_mask {s : SystemR} {a : Bool} (h : ∃ c, s.required c = true) :
    matchesMask Mask.none a s = false := by
  obtain ⟨c, hc⟩ := h
  unfold matchesMask
  have hb : Mask.beq (Mask.and Mask.none s.required) s.required = false := by
    unfold Mask.beq
    rw [List.all_eq_false]
    exact ⟨c, List.mem_finRange c, by simp [Mask.and, Mask.none, hc]⟩
  rw [hb]
  rfl


theorem flushPhase1_entities (w : World) (r : Nat) : (flushPhase1 w r).entities = w.entities :=
  rfl

theorem flushPhase1_systems (w : World) (r : Nat) (tid : SysId) :
    (flushPhase1 w r).systems tid = (w.systems tid).map fun s : SystemR =>
      { s with entities := s.entities.filter (· ≠ r) } := rfl

theorem flushOneBody_eq (w : World) (id : Nat) (e : Entity) :
    flushOneBody w id e = flushFinish ((List.finRange 64).foldl (flushRemoveStep e.ref)
      (flushPhase1 w e.ref)) id := rfl

theorem flushFinish_trace (u : World) (id : Nat) :
    (flushFinish u id).trace = u.trace ++ [TraceEv.entityDestroyed id] := rfl

theorem flushFinish_free (u : World) (id : Nat) :
    (flushFinish u id).freeEntityIDs = u.freeEntityIDs ++ [id] := rfl

theorem flushFinish_pend (u : World) (id : Nat) :
    (flushFinish u id).pendingDestroy = u.pendingDestroy := rfl

theorem flushFinish_entities (u : World) (id : Nat) :
    (flushFinish u id).entities = u.entities.set id Option.none := rfl

theorem flushFinish_refCtr (u : World) (id : Nat) :
    (flushFinish u id).refCtr = u.refCtr := rfl

theorem flushFinish_next (u : World) (id : Nat) :
    (flushFinish u id).nextEntityID = u.nextEntityID := rfl

theorem flushFinish_systems (u : World) (id : Nat) :
    (flushFinish u id).systems = u.systems := rfl

theorem flushOneBody_effects (w : World) (id : Nat) (e0 : Entity)
    (hslot : w.entities[id]? = Option.some (Option.some e0))
    (huniq : ∀ (j : Nat) (e2 : Entity), w.entities[j]? = Option.some (Option.some e2) →
      e2.ref = e0.ref → j = id)
    (hsysnd : ∀ tid s, w.systems tid = Option.some s → s.entities.Nodup) :
    (flushOneBody w id e0).trace = w.trace ++
      ((List.finRange 64).filter fun c => e0.mask c).map
        (fun c => TraceEv.componentRemoved e0.id c) ++ [TraceEv.entityDestroyed id] ∧
    (flushOneBody w id e0).freeEntityIDs = w.freeEntityIDs ++ [id] ∧
    (flushOneBody w id e0).pendingDestroy = w.pendingDestroy ∧
    (flushOneBody w id e0).entities[id]? = Option.some Option.none ∧
    (∀ j, j ≠ id → slotKeep (w.entities[j]?) ((flushOneBody w id e0).entities[j]?)) ∧
    (flushOneBody w id e0).entities.length = w.entities.length ∧
    (flushOneBody w id e0).refCtr = w.refCtr ∧
    (flushOneBody w id e0).nextEntityID = w.nextEntityID ∧
    (∀ tid s2, (flushOneBody w id e0).systems tid = Option.some s2 →
      ∃ s0, w.systems tid = Option.some s0 ∧
        s2.required = s0.required ∧ s2.excluded = s0.excluded ∧ s2.ref = s0.ref ∧
        s2.entities.Nodup ∧
        (∀ x, x ≠ e0.ref → (x ∈ s2.entities ↔ x ∈ s0.entities)) ∧
        ((∃ c, s0.required c = true) → e0.ref ∉ s2.entities)) ∧
    (∀ tid, w.systems tid = Option.none →
      (flushOneBody w id e0).systems tid = Option.none) := by
  have hslot1 : (flushPhase1 w e0.ref).entities[id]? = Option.some (Option.some e0) := hslot
  have huniq1 : ∀ (j : Nat) (e2 : Entity),
      (flushPhase1 w e0.ref).entities[j]? = Option.some (Option.some e2) →
      e2.ref = e0.ref → j = id := huniq
  have hsys1 : ∀ tid s, (flushPhase1 w e0.ref).systems tid = Option.some s →
      s.entities.Nodup ∧
      (e0.ref ∈ s.entities → matchesMask e0.mask e0.alive s = true) := by
    intro tid s hs
    rw [flushPhase1_systems] at hs
    rcases hs0 : w.systems tid with _ | s0
    · rw [hs0] at hs; exact Option.noConfusion hs
    · rw [hs0] at hs
      injection hs with hs
      constructor
      · rw [← hs]
        exact (hsysnd tid s0 hs0).filter _
      · intro hmem
        rw [← hs] at hmem
        have := List.of_mem_filter hmem
        simp at this
  obtain ⟨⟨f3, hself⟩, hoth, hlen, htr, hfree, hpend, hctr, hnext⟩ :=
    flushFold_effects (List.finRange 64) e0.ref (flushPhase1 w e0.ref) id e0
      (List.nodup_finRange 64) hslot1 rfl huniq1
  obtain ⟨hsysA, hsysB⟩ :=
    flushFold_systems (List.finRange 64) e0.ref (flushPhase1 w e0.ref) id e0
      (List.nodup_finRange 64) hslot1 rfl huniq1 hsys1
  have hidlen : id < w.entities.length := by
    by_contra hn
    rw [List.getElem?_eq_none_iff.mpr (by omega)] at hslot
    exact Option.noConfusion hslot
  refine ⟨?_, ?_, ?_, ?_, ?_, ?_, ?_, ?_, ?_, ?_⟩
  · rw [flushOneBody_eq, flushFinish_trace, htr]
    rfl
  · rw [flushOneBody_eq, flushFinish_free, hfree]
    rfl
  · rw [flushOneBody_eq, flushFinish_pend, hpend]
    rfl
  · rw [flushOneBody_eq, flushFinish_entities]
    have hlid : id < ((List.finRange 64).foldl (flushRemoveStep e0.ref)
        (flushPhase1 w e0.ref)).entities.length := by
      rw [hlen]
      exact hidlen
    simp [List.getElem?_set_self, hlid]
  · intro j hj
    rw [flushOneBody_eq, flushFinish_entities,
      List.getElem?_set_ne (fun hh : id = j => hj hh.symm)]
    exact hoth j hj
  · rw [flushOneBody_eq, flushFinish_entities, List.length_set, hlen]
    rfl
  · rw [flushOneBody_eq, flushFinish_refCtr, hctr]
    rfl
  · rw [flushOneBody_eq, flushFinish_next, hnext]
    rfl
  · intro tid s2 hs2
    rw [flushOneBody_eq, flushFinish_systems] at hs2
    obtain ⟨s1, hs1, hreq, hexc, hsref, hnod, hother, hM⟩ := hsysA tid s2 hs2
    rw [flushPhase1_systems] at hs1
    rcases hs0 : w.systems tid with _ | s0
    · rw [hs0] at hs1; exact Option.noConfusion hs1
    · rw [hs0] at hs1
      injection hs1 with hs1
      refine ⟨s0, rfl, by rw [hreq, ← hs1], by rw [hexc, ← hs1], by rw [hsref, ← hs1],
        hnod, ?_, ?_⟩
      · intro x hx
        rw [hother x hx, ← hs1]
        show x ∈ s0.entities.filter (· ≠ e0.ref) ↔ x ∈ s0.entities
        constructor
        · exact fun hm => List.mem_of_mem_filter hm
        · intro hm
          exact List.mem_filter.mpr ⟨hm, by simp [hx]⟩
      · intro hreqne hmem
        have hMv := hM hmem
        rw [maskClearList_finRange] at hMv
        have hreqs2 : ∃ c, s2.required c = true := by
          obtain ⟨c, hc⟩ := hreqne
          exact ⟨c, by rw [hreq, ← hs1]; exact hc⟩
        rw [matchesMask_none_mask hreqs2] at hMv
        exact Bool.noConfusion hMv
  · intro tid hnone
    rw [flushOneBody_eq, flushFinish_systems]
    apply hsysB
    rw [flushPhase1_systems, hnone]
    rfl

theorem runSystems_trace (l : List Nat) (dt : Int) : ∀ w : World,
    l.foldl (fun acc sref => { acc with trace := acc.trace ++ [TraceEv.sysUpdate sref dt] }) w =
      { w with trace := w.trace ++ l.map fun sref => TraceEv.sysUpdate sref dt } := by
  induction l with
  | nil =>
      intro w
      rw [List.foldl_nil, List.map_nil, List.append_nil]
  | cons a rest ih =>
      intro w
      rw [List.foldl_cons, ih, List.map_cons]
      congr 1
      rw [List.append_assoc]
      rfl

/-- C3 — `World::update(deltaTime)` first invokes `update(deltaTime)` on the
systems in `m_systemsByUpdateOrder` — exactly the vector installed by
`setSystemUpdateOrder`, in its order — and only then runs the deferred
destruction flush; the flush, for a pending id holding a live entity,
removes the entity's pointer from every system's matched list (final lists
hold it in no system whose required mask is non-empty, and no other
pointer's membership changes), removes every component the entity still
holds through the `removeComponentFromEntity` path (one
`ComponentRemovedEvent` per held component type, in type-id order), then
publishes `EntityDestroyedEvent`, frees the slot and recycles the id onto
the free queue. -/
theorem update_order_and_flush :
    (∀ (w : World) (dt : Int), w.update dt =
      World.processPendingChanges
        { w with trace := w.trace ++
            (w.systemsByUpdateOrder.map fun sref => TraceEv.sysUpdate sref dt) }) ∧
    (∀ (w : World) (l : List Nat), (w.setSystemUpdateOrder l).systemsByUpdateOrder = l) ∧
    (∀ (w : World) (id : Nat) (e0 : Entity),
      w.entities[id]? = Option.some (Option.some e0) → e0.alive = true →
      (∀ (j : Nat) (e2 : Entity), w.entities[j]? = Option.some (Option.some e2) →
        e2.ref = e0.ref → j = id) →
      (∀ tid s, w.systems tid = Option.some s → s.entities.Nodup) →
      (flushOne w id).trace = w.trace ++
        ((List.finRange 64).filter fun c => e0.mask c).map
          (fun c => TraceEv.componentRemoved e0.id c) ++ [TraceEv.entityDestroyed id] ∧
      (flushOne w id).freeEntityIDs = w.freeEntityIDs ++ [id] ∧
      (flushOne w id).entities[id]? = Option.some Option.none ∧
      (∀ j, j ≠ id → slotKeep (w.entities[j]?) ((flushOne w id).entities[j]?)) ∧
      (∀ tid s2, (flushOne w id).systems tid = Option.some s2 →
        ∃ s0, w.systems tid = Option.some s0 ∧
          s2.required = s0.required ∧ s2.excluded = s0.excluded ∧
          (∀ x, x ≠ e0.ref → (x ∈ s2.entities ↔ x ∈ s0.entities)) ∧
          ((∃ c, s0.required c = true) → e0.ref ∉ s2.entities))) := by
  refine ⟨?_, fun w l => rfl, ?_⟩
  · intro w dt
    unfold World.update
    rw [runSystems_trace]
  · intro w id e0 hslot halive huniq hsysnd
    rw [flushOne_eq_live hslot halive]
    obtain ⟨htr, hfree, _, hnone, hoth, _, _, _, hsysA, _⟩ :=
      flushOneBody_effects w id e0 hslot huniq hsysnd
    refine ⟨htr, hfree, hnone, hoth, ?_⟩
    intro tid s2 hs2
    obtain ⟨s0, hs0, hreq, hexc, _, _, hother, hnomem⟩ := hsysA tid s2 hs2
    exact ⟨s0, hs0, hreq, hexc, hother, hnomem⟩

/-- Witness for C3 at concrete inputs: the structural update equation at a
fresh world, and the flush of the single live entity of a one-entity world,
which recycles id 0 onto the free queue. -/
theorem update_order_and_flush_witness :
    (World.init.update 1 =
      World.processPendingChanges
        { World.init with trace := World.init.trace ++
            (World.init.systemsByUpdateOrder.map fun sref => TraceEv.sysUpdate sref 1) }) ∧
    (flushOne (World.init.createEntity).1 0).freeEntityIDs =
      (World.init.createEntity).1.freeEntityIDs ++ [0] := by
  constructor
  · exact update_order_and_flush.1 World.init 1
  · refine (update_order_and_flush.2.2 (World.init.createEntity).1 0
      ⟨0, 0, true, Mask.none, fun _ => 0⟩ rfl rfl ?_ ?_).2.1
    · intro j e2 hj hr
      match j, hj with
      | 0, hj => rfl
      | n+1, hj =>
          rw [show (World.init.createEntity).1.entities =
            [Option.some ⟨0, 0, true, Mask.none, fun _ => 0⟩] from rfl] at hj
          simp at hj
    · intro tid s h
      exact Option.noConfusion h

/-! ## C4 infrastructure: the slot-id storage invariant and id management -/

theorem slotKeep_inv {a b : Option (Option Entity)} {e2 : Entity}
    (h : slotKeep a b) (hb : b = Option.some (Option.some e2)) :
    ∃ e, a = Option.some (Option.some e) ∧ e2.ref = e.ref ∧ e2.id = e.id ∧
      e2.alive = e.alive ∧ e2.mask = e.mask := by
  rcases a with _ | oe
  · have h2 : b = Option.none := h
    rw [h2] at hb
    exact Option.noConfusion hb
  · rcases oe with _ | e
    · have h2 : b = Option.some Option.none := h
      rw [h2] at hb
      injection hb with hb
      exact Option.noConfusion hb
    · obtain ⟨e3, hb3, f1, f2, f3, f4⟩ := h
      rw [hb3] at hb
      injection hb with hb
      injection hb with hb
      exact ⟨e, rfl, hb ▸ f1, hb ▸ f2, hb ▸ f3, hb ▸ f4⟩

theorem SlotId_of_entities_eq {w w2 : World} (h : w2.entities = w.entities)
    (hs : SlotId w) : SlotId w2 := by
  intro i e he
  rw [h] at he
  exact hs i e he

theorem SlotId_updateEntity (w : World) (r : Nat) (f : Entity → Entity)
    (hf : ∀ e, (f e).id = e.id) (h : SlotId w) : SlotId (w.updateEntity r f) := by
  intro i e he
  rw [updateEntity_entities_getElem] at he
  rcases hs : w.entities[i]? with _ | oe
  · rw [hs] at he
    exact Option.noConfusion he
  · rw [hs] at he
    rcases oe with _ | e0
    · injection he with he
      have he2 : (Option.none : Option Entity) = Option.some e := he
      exact Option.noConfusion he2
    · injection he with he
      have he2 : (if e0.ref = r then Option.some (f e0) else Option.some e0) =
          Option.some e := he
      by_cases hr : e0.ref = r
      · rw [if_pos hr] at he2
        injection he2 with he2
        rw [← he2, hf]
        exact h i e0 hs
      · rw [if_neg hr] at he2
        injection he2 with he2
        rw [← he2]
        exact h i e0 hs

theorem SlotId_ensurePool (w : World) (cid : CompId) (h : SlotId w) :
    SlotId (w.ensurePool cid) :=
  SlotId_of_entities_eq (ensurePool_entities w cid) h

theorem SlotId_updateEntitySystemList (w : World) (r : Nat) (h : SlotId w) :
    SlotId (w.updateEntitySystemList r) :=
  SlotId_of_entities_eq (updateEntitySystemList_entities w r) h

theorem SlotId_addComponentBody (w : World) (r : Nat) (cid : CompId) (v : Nat)
    (h : SlotId w) : SlotId (addComponentBody w r cid v) :=
  SlotId_updateEntitySystemList _ r
    (SlotId_updateEntity _ r _ (fun _ => rfl)
      (SlotId_ensurePool w cid h))

theorem SlotId_removeComponentBody (w : World) (r : Nat) (cid : CompId) (e : Entity)
    (h : SlotId w) : SlotId (removeComponentBody w r cid e) := by
  have h1 : SlotId (w.ensurePool cid) := SlotId_ensurePool w cid h
  unfold removeComponentBody
  apply SlotId_updateEntitySystemList
  dsimp only
  split
  · apply SlotId_updateEntity
    · intro o; rfl
    · apply SlotId_updateEntity
      · intro e0; rfl
      · exact h1
  · apply SlotId_updateEntity
    · intro e0; rfl
    · exact h1

theorem SlotId_createEntity (w : World) (h : SlotId w) : SlotId (w.createEntity).1 := by
  unfold SlotId
  intro i e he
  cases hfq : w.freeEntityIDs with
  | cons id0 rest =>
      rw [createEntity_eq_reuse hfq] at he
      dsimp only at he
      by_cases hii : id0 = i
      · subst hii
        by_cases hlt : id0 < w.entities.length
        · rw [List.getElem?_set_self hlt] at he
          injection he with he
          injection he with he
          rw [← he]
        · rw [List.getElem?_eq_none_iff.mpr (by rw [List.length_set]; omega)] at he
          exact Option.noConfusion he
      · rw [List.getElem?_set_ne hii] at he
        exact h i e he
  | nil =>
      rw [createEntity_eq_fresh hfq] at he
      dsimp only at he
      by_cases hii : w.nextEntityID = i
      · subst hii
        have hlen : w.nextEntityID < (if w.nextEntityID < w.entities.length then w.entities
            else w.entities ++ List.replicate (w.nextEntityID + 1 - w.entities.length)
              (Option.none : Option Entity)).length := by
          by_cases hc : w.nextEntityID < w.entities.length
          · rw [if_pos hc]; exact hc
          · rw [if_neg hc, List.length_append, List.length_replicate]; omega
        rw [List.getElem?_set_self hlen] at he
        injection he with he
        injection he with he
        rw [← he]
      · rw [List.getElem?_set_ne hii] at he
        by_cases hc : w.nextEntityID < w.entities.length
        · rw [if_pos hc] at he
          exact h i e he
        · rw [if_neg hc] at he
          rw [List.getElem?_append] at he
          by_cases hi2 : i < w.entities.length
          · rw [if_pos hi2] at he
            exact h i e he
          · rw [if_neg hi2] at he
            have hx : (Option.some e : Option Entity) = Option.none :=
              List.eq_of_mem_replicate (List.getElem?_mem he)
            exact Option.noConfusion hx

theorem SlotId_flushFinish (u : World) (id : Nat) (h : SlotId u) :
    SlotId (flushFinish u id) := by
  intro i e he
  rw [flushFinish_entities] at he
  by_cases hii : id = i
  · subst hii
    by_cases hlt : id < u.entities.length
    · rw [List.getElem?_set_self hlt] at he
      injection he with he
      exact Option.noConfusion he
    · rw [List.getElem?_eq_none_iff.mpr (by rw [List.length_set]; omega)] at he
      exact Option.noConfusion he
  · rw [List.getElem?_set_ne hii] at he
    exact h i e he

theorem SlotId_flushRemoveStep (r : Nat) (acc : World) (cid : CompId)
    (h : SlotId acc) : SlotId (flushRemoveStep r acc cid) := by
  cases hd : acc.derefEntity r with
  | none =>
      unfold flushRemoveStep
      rw [hd]
      exact h
  | some cur =>
      rw [flushRemoveStep_eq hd]
      by_cases hm : cur.mask cid = true
      · rw [if_pos hm, removeComponentFromEntity_eq hd hm]
        exact SlotId_removeComponentBody acc r cid cur h
      · rw [if_neg hm]
        exact h

theorem SlotId_flushFold (l : List CompId) (r : Nat) :
    ∀ acc : World, SlotId acc → SlotId (l.foldl (flushRemoveStep r) acc) := by
  induction l with
  | nil => intro acc h; exact h
  | cons c cs ih =>
      intro acc h
      rw [List.foldl_cons]
      exact ih _ (SlotId_flushRemoveStep r acc c h)

theorem SlotId_flushOne (w : World) (id : Nat) (h : SlotId w) :
    SlotId (flushOne w id) := by
  rcases hs : w.entities[id]? with _ | oe
  · rw [flushOne_eq_skip (Or.inl hs)]
    exact h
  · rcases oe with _ | e
    · rw [flushOne_eq_skip (Or.inr (Or.inl hs))]
      exact h
    · by_cases ha : e.alive = true
      · rw [flushOne_eq_live hs ha, flushOneBody_eq]
        apply SlotId_flushFinish
        apply SlotId_flushFold
        exact SlotId_of_entities_eq rfl h
      · have ha2 : e.alive = false := by
          cases hb : e.alive
          · rfl
          · exact absurd hb ha
        rw [flushOne_eq_skip (Or.inr (Or.inr ⟨e, hs, ha2⟩))]
        exact h

theorem SlotId_processPendingChanges (w : World) (h : SlotId w) :
    SlotId w.processPendingChanges := by
  have hfold : ∀ (P : List Nat) (u : World), SlotId u → SlotId (P.foldl flushOne u) := by
    intro P
    induction P with
    | nil => intro u hu; exact hu
    | cons p ps ih =>
        intro u hu
        rw [List.foldl_cons]
        exact ih _ (SlotId_flushOne u p hu)
  exact SlotId_of_entities_eq rfl (hfold w.pendingDestroy w h)

theorem runSystems_entities (l : List Nat) (dt : Int) :
    ∀ w : World, (l.foldl
      (fun acc sref => { acc with trace := acc.trace ++ [TraceEv.sysUpdate sref dt] })
      w).entities = w.entities := by
  induction l with
  | nil => intro w; rfl
  | cons s ss ih =>
      intro w
      rw [List.foldl_cons]
      exact ih _

theorem SlotId_update (w : World) (dt : Int) (h : SlotId w) : SlotId (w.update dt) := by
  unfold World.update
  apply SlotId_processPendingChanges
  exact SlotId_of_entities_eq (runSystems_entities w.systemsByUpdateOrder dt w) h

theorem SlotId_applyOp (w : World) (op : Op) (h : SlotId w) : SlotId (w.applyOp op) := by
  cases op with
  | create => exact SlotId_createEntity w h
  | addComp r cid v =>
      show SlotId (w.addComponentToEntity r cid v)
      cases hd : w.derefEntity r with
      | none => rw [addComponentToEntity_eq_none hd]; exact h
      | some e =>
          cases hm : e.mask cid with
          | true => rw [addComponentToEntity_eq_dup hd hm]; exact h
          | false =>
              rw [addComponentToEntity_eq hd hm]
              exact SlotId_addComponentBody w r cid v h
  | removeComp r cid =>
      show SlotId (w.removeComponentFromEntity r cid)
      cases hd : w.derefEntity r with
      | none => rw [removeComponentFromEntity_eq_none hd]; exact h
      | some e =>
          cases hm : e.mask cid with
          | false => rw [removeComponentFromEntity_eq_noComp hd hm]; exact h
          | true =>
              rw [removeComponentFromEntity_eq hd hm]
              exact SlotId_removeComponentBody w r cid e h
  | destroy r =>
      show SlotId (w.destroyEntity r)
      exact SlotId_of_entities_eq (destroyEntity_entities w r) h
  | entityDestroy r =>
      show SlotId (w.entityDestroy r)
      cases hd : w.derefEntity r with
      | none => rw [entityDestroy_eq_none hd]; exact h
      | some e =>
          rw [entityDestroy_eq hd]
          exact SlotId_of_entities_eq (destroyEntity_entities _ r)
            (SlotId_updateEntity w r _ (fun _ => rfl) h)
  | update dt => exact SlotId_update w dt h
  | regSystem tid req excl => exact SlotId_of_entities_eq rfl h
  | setOrder l => exact SlotId_of_entities_eq rfl h

theorem SlotId_init : SlotId World.init := by
  intro i e he
  rw [show World.init.entities = ([] : List (Option Entity)) from rfl,
    List.getElem?_nil] at he
  exact Option.noConfusion he

theorem SlotId_execAux (ops : List Op) : ∀ w : World, SlotId w → SlotId (w.exec ops) := by
  induction ops with
  | nil => intro w h; exact h
  | cons op rest ih =>
      intro w h
      show SlotId (rest.foldl World.applyOp (w.applyOp op))
      exact ih _ (SlotId_applyOp w op h)

theorem SlotId_exec (ops : List Op) : SlotId (World.init.exec ops) :=
  SlotId_execAux ops World.init SlotId_init

set_option maxRecDepth 4000 in
theorem flushLoop_effects (P : List Nat) : ∀ w : World, P.Nodup → RefUniq w →
    SysNodup w →
    (∀ id ∈ P, ∃ e, w.entities[id]? = Option.some (Option.some e) ∧ e.alive = true) →
    (P.foldl flushOne w).freeEntityIDs = w.freeEntityIDs ++ P ∧
    (∀ id ∈ P, (P.foldl flushOne w).entities[id]? = Option.some Option.none) ∧
    (∀ j, j ∉ P → slotKeep (w.entities[j]?) ((P.foldl flushOne w).entities[j]?)) ∧
    (P.foldl flushOne w).entities.length = w.entities.length ∧
    (P.foldl flushOne w).pendingDestroy = w.pendingDestroy ∧
    (P.foldl flushOne w).nextEntityID = w.nextEntityID ∧
    (P.foldl flushOne w).refCtr = w.refCtr ∧
    RefUniq (P.foldl flushOne w) := by
  induction P with
  | nil =>
      intro w _ hu _ _
      exact ⟨(List.append_nil _).symm, fun id hid => absurd hid (List.not_mem_nil id),
        fun j _ => slotKeep_refl _, rfl, rfl, rfl, rfl, hu⟩
  | cons id0 rest ih =>
      intro w hnd hu hs hlive
      obtain ⟨e0, hslot0, halive0⟩ := hlive id0 (List.mem_cons_self ..)
      have hfl : flushOne w id0 = flushOneBody w id0 e0 := flushOne_eq_live hslot0 halive0
      have huniq0 : ∀ (j : Nat) (e2 : Entity),
          w.entities[j]? = Option.some (Option.some e2) → e2.ref = e0.ref → j = id0 :=
        fun j e2 hj hr => hu j id0 e2 e0 hj hslot0 hr
      obtain ⟨htr, hfree, hpend, hself, hoth, hlen, hctr, hnext, hsysA, hsysB⟩ :=
        flushOneBody_effects w id0 e0 hslot0 huniq0 hs
      rw [List.foldl_cons, hfl]
      generalize hgen : flushOneBody w id0 e0 = w1
      rw [hgen] at hfree hpend hself hoth hlen hctr hnext hsysA hsysB
      have hu1 : RefUniq w1 := by
        intro i j ei ej hi hj hr
        by_cases hi0 : i = id0
        · exfalso
          rw [hi0] at hi
          rw [hself] at hi
          injection hi with hi
          exact Option.noConfusion hi
        · by_cases hj0 : j = id0
          · exfalso
            rw [hj0] at hj
            rw [hself] at hj
            injection hj with hj
            exact Option.noConfusion hj
          · obtain ⟨xi, hxi, hrefi, _, _, _⟩ := slotKeep_inv (hoth i hi0) hi
            obtain ⟨xj, hxj, hrefj, _, _, _⟩ := slotKeep_inv (hoth j hj0) hj
            exact hu i j xi xj hxi hxj (by rw [← hrefi, ← hrefj]; exact hr)
      have hs1 : SysNodup w1 := by
        intro tid s2 h2
        obtain ⟨s0, _, _, _, _, hnd2, _, _⟩ := hsysA tid s2 h2
        exact hnd2
      have hlive1 : ∀ id ∈ rest, ∃ e,
          w1.entities[id]? = Option.some (Option.some e) ∧
          e.alive = true := by
        intro id hidm
        obtain ⟨e, he, ha⟩ := hlive id (List.mem_cons_of_mem _ hidm)
        have hne : id ≠ id0 := by
          intro hc
          rw [hc] at hidm
          exact (List.nodup_cons.mp hnd).1 hidm
        have hk := hoth id hne
        rw [he] at hk
        obtain ⟨e2, h2, _, _, ha2, _⟩ := hk
        exact ⟨e2, h2, ha2.trans ha⟩
      obtain ⟨ihfree, ihslots, ihframe, ihlen, ihpend, ihnext, ihctr, ihuniq⟩ :=
        ih w1 (List.nodup_cons.mp hnd).2 hu1 hs1 hlive1
      refine ⟨?_, ?_, ?_, ?_, ?_, ?_, ?_, ihuniq⟩
      · rw [ihfree, hfree, List.append_assoc]
        rfl
      · intro id hid
        rcases List.mem_cons.mp hid with h | h
        · subst h
          have hfr := ihframe id (List.nodup_cons.mp hnd).1
          rw [hself] at hfr
          exact hfr
        · exact ihslots id h
      · intro j hj
        have hj0 : j ≠ id0 := fun hc => hj (hc ▸ List.mem_cons_self ..)
        have hjr : j ∉ rest := fun hc => hj (List.mem_cons_of_mem _ hc)
        exact slotKeep_trans (hoth j hj0) (ihframe j hjr)
      · rw [ihlen, hlen]
      · rw [ihpend, hpend]
      · rw [ihnext, hnext]
      · rw [ihctr, hctr]

theorem createMany_zero (w : World) : w.createMany 0 = (w, []) := rfl

theorem createMany_succ_fst (w : World) (k : Nat) :
    (w.createMany (k + 1)).1 = (World.createMany (w.createEntity).1 k).1 := rfl

theorem createMany_succ_snd (w : World) (k : Nat) :
    (w.createMany (k + 1)).2 =
      (w.createEntity).2.2 :: (World.createMany (w.createEntity).1 k).2 := rfl

theorem createMany_reuse (k : Nat) : ∀ w : World, k ≤ w.freeEntityIDs.length →
    (∀ id ∈ w.freeEntityIDs.take k, id < w.entities.length) →
    (w.freeEntityIDs.take k).Nodup →
    (w.createMany k).2 = w.freeEntityIDs.take k ∧
    (w.createMany k).1.freeEntityIDs = w.freeEntityIDs.drop k ∧
    (w.createMany k).1.entities.length = w.entities.length ∧
    (∀ j, j ∉ w.freeEntityIDs.take k → (w.createMany k).1.entities[j]? = w.entities[j]?) ∧
    (∀ id ∈ w.freeEntityIDs.take k, ∃ ref,
      (w.createMany k).1.entities[id]? =
        Option.some (Option.some ⟨ref, id, true, Mask.none, fun _ => 0⟩)) ∧
    (w.createMany k).1.pendingDestroy = w.pendingDestroy ∧
    (w.createMany k).1.nextEntityID = w.nextEntityID := by
  induction k with
  | zero =>
      intro w _ _ _
      exact ⟨rfl, rfl, rfl, fun j _ => rfl,
        fun id hid => absurd hid (List.not_mem_nil id), rfl, rfl⟩
  | succ k ih =>
      intro w hk hlt hnd
      cases hfq : w.freeEntityIDs with
      | nil =>
          rw [hfq] at hk
          exact absurd hk (by simp)
      | cons id0 rest =>
          have hce := createEntity_eq_reuse hfq
          rw [hfq, List.take_succ_cons] at hnd hlt
          have hnd0 : id0 ∉ rest.take k := (List.nodup_cons.mp hnd).1
          have hndr : (rest.take k).Nodup := (List.nodup_cons.mp hnd).2
          have hlt0 : id0 < w.entities.length := hlt id0 (List.mem_cons_self ..)
          have hfree1 : (w.createEntity).1.freeEntityIDs = rest := by rw [hce]
          have hid1 : (w.createEntity).2.2 = id0 := by rw [hce]
          have hlen1 : (w.createEntity).1.entities.length = w.entities.length := by
            rw [hce]
            exact List.length_set ..
          have hself1 : (w.createEntity).1.entities[id0]? =
              Option.some (Option.some ⟨w.refCtr, id0, true, Mask.none, fun _ => 0⟩) := by
            rw [hce]
            show (w.entities.set id0
              (Option.some ⟨w.refCtr, id0, true, Mask.none, fun _ => 0⟩))[id0]? = _
            rw [List.getElem?_set_self hlt0]
          have hother1 : ∀ j, j ≠ id0 →
              (w.createEntity).1.entities[j]? = w.entities[j]? := by
            intro j hj
            rw [hce]
            show (w.entities.set id0
              (Option.some ⟨w.refCtr, id0, true, Mask.none, fun _ => 0⟩))[j]? = _
            rw [List.getElem?_set_ne (Ne.symm hj)]
          have hpend1 : (w.createEntity).1.pendingDestroy = w.pendingDestroy := by rw [hce]
          have hnext1 : (w.createEntity).1.nextEntityID = w.nextEntityID := by rw [hce]
          have hk' : k ≤ (w.createEntity).1.freeEntityIDs.length := by
            rw [hfree1]
            rw [hfq, List.length_cons] at hk
            omega
          have hlt' : ∀ id ∈ (w.createEntity).1.freeEntityIDs.take k,
              id < (w.createEntity).1.entities.length := by
            rw [hfree1, hlen1]
            intro id hidm
            exact hlt id (List.mem_cons_of_mem _ hidm)
          have hnd' : ((w.createEntity).1.freeEntityIDs.take k).Nodup := by
            rw [hfree1]
            exact hndr
          obtain ⟨cids, cfree, clen, cframe, cslots, cpend, cnext⟩ :=
            ih (w.createEntity).1 hk' hlt' hnd'
          refine ⟨?_, ?_, ?_, ?_, ?_, ?_, ?_⟩
          · rw [createMany_succ_snd, cids, hid1, hfree1, List.take_succ_cons]
          · rw [createMany_succ_fst, cfree, hfree1, List.drop_succ_cons]
          · rw [createMany_succ_fst, clen, hlen1]
          · intro j hj
            rw [List.take_succ_cons] at hj
            have hj0 : j ≠ id0 := by
              intro hc
              exact hj (hc ▸ List.mem_cons_self ..)
            have hjr : j ∉ (w.createEntity).1.freeEntityIDs.take k := by
              rw [hfree1]
              intro hc
              exact hj (List.mem_cons_of_mem _ hc)
            rw [createMany_succ_fst, cframe j hjr, hother1 j hj0]
          · intro id hid
            rw [List.take_succ_cons] at hid
            rcases List.mem_cons.mp hid with h | h
            · subst h
              have hnm : id ∉ (w.createEntity).1.freeEntityIDs.take k := by
                rw [hfree1]
                exact hnd0
              refine ⟨w.refCtr, ?_⟩
              rw [createMany_succ_fst, cframe id hnm]
              exact hself1
            · have h' : id ∈ (w.createEntity).1.freeEntityIDs.take k := by
                rw [hfree1]
                exact h
              rw [createMany_succ_fst]
              exact cslots id h'
          · rw [createMany_succ_fst, cpend, hpend1]
          · rw [createMany_succ_fst, cnext, hnext1]

/-- C4 — entity id reuse.  (1) If the free-id queue is empty and the distinct
pending-destruction ids all denote live stored entities, then flushing the
pending changes and creating as many entities as were destroyed hands out
exactly the destroyed ids, in queue order, each slot holding a fresh live
entity with a cleared mask, and empties the free queue again.  (2) In every
state reachable from the initial world by the public operations, no id is
simultaneously held by two live entities (occupied slots with equal ids
coincide).  (3) `World::createEntity` reuses the front of the free-id queue
when one is available, installing a fresh live cleared-mask entity at that
id without advancing `m_nextEntityID`; (4) otherwise it allocates the next
monotonically increasing id, growing the backing storage as needed, and
returns a live, empty-mask entity stored at that id. -/
theorem entity_id_reuse :
    (∀ w : World, w.freeEntityIDs = [] → w.pendingDestroy.Nodup →
      RefUniq w → SysNodup w →
      (∀ id ∈ w.pendingDestroy, ∃ e, w.entities[id]? = Option.some (Option.some e) ∧
        e.alive = true) →
      (w.processPendingChanges.createMany w.pendingDestroy.length).2 = w.pendingDestroy ∧
      (∀ id ∈ w.pendingDestroy, ∃ ref,
        (w.processPendingChanges.createMany w.pendingDestroy.length).1.entities[id]? =
          Option.some (Option.some ⟨ref, id, true, Mask.none, fun _ => 0⟩)) ∧
      (w.processPendingChanges.createMany
        w.pendingDestroy.length).1.freeEntityIDs = []) ∧
    (∀ (ops : List Op) (i j : Nat) (ei ej : Entity),
      (World.init.exec ops).entities[i]? = Option.some (Option.some ei) →
      (World.init.exec ops).entities[j]? = Option.some (Option.some ej) →
      ei.alive = true → ej.alive = true → ei.id = ej.id → i = j) ∧
    (∀ (w : World) (id : Nat) (rest : List Nat), w.freeEntityIDs = id :: rest →
      (w.createEntity).2.2 = id ∧
      (w.createEntity).1.freeEntityIDs = rest ∧
      (w.createEntity).1.nextEntityID = w.nextEntityID ∧
      (id < w.entities.length →
        (w.createEntity).1.entities[id]? =
          Option.some (Option.some ⟨w.refCtr, id, true, Mask.none, fun _ => 0⟩))) ∧
    (∀ w : World, w.freeEntityIDs = [] →
      (w.createEntity).2.2 = w.nextEntityID ∧
      (w.createEntity).1.nextEntityID = w.nextEntityID + 1 ∧
      w.nextEntityID < (w.createEntity).1.entities.length ∧
      (w.createEntity).1.entities[w.nextEntityID]? =
        Option.some (Option.some ⟨w.refCtr, w.nextEntityID, true, Mask.none,
          fun _ => 0⟩)) := by
  refine ⟨?_, ?_, ?_, ?_⟩
  · intro w hf hnd hu hs hlive
    obtain ⟨Ffree, Fslots, Fframe, Flen, Fpend, Fnext, Fctr, Funiq⟩ :=
      flushLoop_effects w.pendingDestroy w hnd hu hs hlive
    have hWFfree : w.processPendingChanges.freeEntityIDs = w.pendingDestroy := by
      show (w.pendingDestroy.foldl flushOne w).freeEntityIDs = w.pendingDestroy
      rw [Ffree, hf, List.nil_append]
    have hWFlen : w.processPendingChanges.entities.length = w.entities.length := Flen
    have hk : w.pendingDestroy.length ≤ w.processPendingChanges.freeEntityIDs.length :=
      le_of_eq (congrArg List.length hWFfree).symm
    have htake : w.processPendingChanges.freeEntityIDs.take w.pendingDestroy.length =
        w.pendingDestroy := by
      rw [hWFfree]
      exact List.take_length _
    have hlt : ∀ id ∈ w.processPendingChanges.freeEntityIDs.take w.pendingDestroy.length,
        id < w.processPendingChanges.entities.length := by
      rw [htake, hWFlen]
      intro id hid
      obtain ⟨e, he, _⟩ := hlive id hid
      by_contra hn
      rw [List.getElem?_eq_none_iff.mpr (by omega)] at he
      exact Option.noConfusion he
    have hnd' : (w.processPendingChanges.freeEntityIDs.take
        w.pendingDestroy.length).Nodup := by
      rw [htake]
      exact hnd
    obtain ⟨cids, cfree, clen, cframe, cslots, cpend, cnext⟩ :=
      createMany_reuse w.pendingDestroy.length w.processPendingChanges hk hlt hnd'
    refine ⟨?_, ?_, ?_⟩
    · rw [cids, htake]
    · intro id hid
      exact cslots id (by rw [htake]; exact hid)
    · rw [cfree, hWFfree]
      exact List.drop_length _
  · intro ops i j ei ej hi hj _ _ hij
    have h1 := SlotId_exec ops i ei hi
    have h2 := SlotId_exec ops j ej hj
    rw [← h1, ← h2]
    exact hij
  · intro w id rest hfq
    rw [createEntity_eq_reuse hfq]
    dsimp only
    refine ⟨rfl, rfl, rfl, ?_⟩
    intro hlt
    rw [List.getElem?_set_self hlt]
  · intro w hfq
    rw [createEntity_eq_fresh hfq]
    dsimp only
    have hlen : w.nextEntityID < (if w.nextEntityID < w.entities.length then w.entities
        else w.entities ++ List.replicate (w.nextEntityID + 1 - w.entities.length)
          (Option.none : Option Entity)).length := by
      by_cases hc : w.nextEntityID < w.entities.length
      · rw [if_pos hc]; exact hc
      · rw [if_neg hc, List.length_append, List.length_replicate]; omega
    refine ⟨rfl, rfl, ?_, ?_⟩
    · rw [List.length_set]
      exact hlen
    · rw [List.getElem?_set_self hlen]

/-- Witness for C4 at a concrete input: create one entity from the initial
world, destroy it; the flush followed by one creation hands id 0 out again. -/
theorem entity_id_reuse_witness :
    ((World.exec World.init [Op.create, Op.destroy 0]).freeEntityIDs = [] ∧
      (World.exec World.init [Op.create, Op.destroy 0]).pendingDestroy = [0]) ∧
    ((World.exec World.init [Op.create, Op.destroy 0]).processPendingChanges.createMany
        (World.exec World.init [Op.create, Op.destroy 0]).pendingDestroy.length).2 =
      (World.exec World.init [Op.create, Op.destroy 0]).pendingDestroy := by
  refine ⟨⟨rfl, rfl⟩, (entity_id_reuse.1 (World.exec World.init [Op.create, Op.destroy 0])
    rfl ?_ ?_ ?_ ?_).1⟩
  · show ([0] : List Nat).Nodup
    exact List.nodup_singleton 0
  · intro i j ei ej hi hj hr
    rw [show (World.exec World.init [Op.create, Op.destroy 0]).entities =
      [Option.some ⟨0, 0, true, Mask.none, fun _ => 0⟩] from rfl] at hi hj
    match i, j, hi, hj with
    | 0, 0, hi, hj => rfl
    | 0, n+1, hi, hj => exact Option.noConfusion hj
    | n+1, j, hi, hj => exact Option.noConfusion hi
  · intro tid s hs2
    exact Option.noConfusion hs2
  · intro id hid
    rw [show (World.exec World.init [Op.create, Op.destroy 0]).pendingDestroy = [0]
      from rfl] at hid
    simp only [List.mem_singleton] at hid
    subst hid
    exact ⟨⟨0, 0, true, Mask.none, fun _ => 0⟩, rfl, rfl⟩

/-! ## C2 infrastructure: the system-membership invariant -/

/-- The operation alphabet named by the membership-invariant claim:
`createEntity`, `addComponent`, `removeComponent`, `World::destroyEntity` and
`update`.  (`Entity::destroy` and system (re)registration are excluded.) -/
def AllowedOp : Op → Prop
  | Op.create => True
  | Op.addComp _ _ _ => True
  | Op.removeComp _ _ => True
  | Op.destroy _ => True
  | Op.update _ => True
  | Op.entityDestroy _ => False
  | Op.regSystem _ _ _ => False
  | Op.setOrder _ => False

/-- The state invariant from which the membership property follows: pointer
uniqueness, id bounds, fresh-counter bounds, a well-formed free queue, and,
for every registered system (each with a non-empty required mask), a
duplicate-free matched list containing exactly the pointers of the stored
entities that currently satisfy the system's mask test. -/
def SInv (w : World) : Prop :=
  RefUniq w ∧
  w.entities.length ≤ w.nextEntityID ∧
  (∀ (i : Nat) (e : Entity), w.entities[i]? = Option.some (Option.some e) →
    e.ref < w.refCtr) ∧
  w.freeEntityIDs.Nodup ∧
  (∀ id ∈ w.freeEntityIDs, w.entities[id]? = Option.some Option.none) ∧
  (∀ tid s, w.systems tid = Option.some s →
    (∃ c, s.required c = true) ∧ s.entities.Nodup ∧
    (∀ r : Nat, r ∈ s.entities ↔ ∃ (i : Nat) (e : Entity),
      w.entities[i]? = Option.some (Option.some e) ∧
      e.ref = r ∧ matchesMask e.mask e.alive s = true))

theorem findRef_some (l : List (Option Entity)) (r : Nat) :
    ∀ e, findRef l r = Option.some e → e.ref = r ∧
      ∃ i : Nat, l[i]? = Option.some (Option.some e) := by
  induction l with
  | nil => intro e h; exact Option.noConfusion h
  | cons oe rest ih =>
      intro e h
      cases oe with
      | some e0 =>
          by_cases h0 : e0.ref = r
          · unfold findRef at h
            rw [if_pos h0] at h
            injection h with h
            subst h
            exact ⟨h0, 0, by rw [List.getElem?_cons_zero]⟩
          · unfold findRef at h
            rw [if_neg h0] at h
            obtain ⟨hr, i, hi⟩ := ih e h
            exact ⟨hr, i + 1, by rw [List.getElem?_cons_succ]; exact hi⟩
      | none =>
          have h2 : findRef rest r = Option.some e := h
          obtain ⟨hr, i, hi⟩ := ih e h2
          exact ⟨hr, i + 1, by rw [List.getElem?_cons_succ]; exact hi⟩

theorem derefEntity_inv {w : World} {r : Nat} {e : Entity}
    (h : w.derefEntity r = Option.some e) :
    e.ref = r ∧ ∃ i : Nat, w.entities[i]? = Option.some (Option.some e) :=
  findRef_some w.entities r e h

theorem updateEntity_slot_inv (w : World) (r : Nat) (f : Entity → Entity)
    (hf : ∀ x, (f x).ref = x.ref) (j : Nat) (e2 : Entity)
    (h : (w.updateEntity r f).entities[j]? = Option.some (Option.some e2)) :
    ∃ e3, w.entities[j]? = Option.some (Option.some e3) ∧ e3.ref = e2.ref := by
  rw [updateEntity_entities_getElem] at h
  rcases hs : w.entities[j]? with _ | oe
  · rw [hs] at h
    exact Option.noConfusion h
  · rw [hs] at h
    rcases oe with _ | e0
    · injection h with h
      have h2 : (Option.none : Option Entity) = Option.some e2 := h
      exact Option.noConfusion h2
    · injection h with h
      have h2 : (if e0.ref = r then Option.some (f e0) else Option.some e0) =
          Option.some e2 := h
      by_cases hr : e0.ref = r
      · rw [if_pos hr] at h2
        injection h2 with h2
        exact ⟨e0, rfl, by rw [← h2, hf]⟩
      · rw [if_neg hr] at h2
        injection h2 with h2
        exact ⟨e0, rfl, by rw [← h2]⟩

theorem SInv_congr {w w2 : World} (he : w2.entities = w.entities)
    (hs : w2.systems = w.systems) (hf : w2.freeEntityIDs = w.freeEntityIDs)
    (hc : w2.refCtr = w.refCtr) (hn : w2.nextEntityID = w.nextEntityID)
    (h : SInv w) : SInv w2 := by
  obtain ⟨hRU, hLN, hRC, hFN, hFS, hSY⟩ := h
  refine ⟨?_, ?_, ?_, ?_, ?_, ?_⟩
  · intro i j ei ej hi hj hr
    rw [he] at hi hj
    exact hRU i j ei ej hi hj hr
  · rw [he, hn]
    exact hLN
  · intro i e hi
    rw [he] at hi
    rw [hc]
    exact hRC i e hi
  · rw [hf]
    exact hFN
  · intro id hid
    rw [hf] at hid
    rw [he]
    exact hFS id hid
  · intro tid s hs2
    rw [hs] at hs2
    obtain ⟨h1, h2, h3⟩ := hSY tid s hs2
    refine ⟨h1, h2, ?_⟩
    intro r
    rw [h3 r]
    constructor
    · rintro ⟨i, e, hi, hre, hm⟩
      exact ⟨i, e, by rw [he]; exact hi, hre, hm⟩
    · rintro ⟨i, e, hi, hre, hm⟩
      rw [he] at hi
      exact ⟨i, e, hi, hre, hm⟩

theorem SInv_init : SInv World.init := by
  refine ⟨?_, ?_, ?_, ?_, ?_, ?_⟩
  · intro i j ei ej hi _ _
    rw [show World.init.entities = ([] : List (Option Entity)) from rfl,
      List.getElem?_nil] at hi
    exact Option.noConfusion hi
  · exact Nat.le_refl 0
  · intro i e hi
    rw [show World.init.entities = ([] : List (Option Entity)) from rfl,
      List.getElem?_nil] at hi
    exact Option.noConfusion hi
  · exact List.nodup_nil
  · intro id hid
    exact absurd hid (List.not_mem_nil id)
  · intro tid s hs
    exact Option.noConfusion hs

theorem SInv_regSystem (w : World) (tid : SysId) (req excl : Mask)
    (hreqx : ∃ c, req c = true) (hent : w.entities = [])
    (h : SInv w) : SInv (w.registerSystem tid req excl) := by
  obtain ⟨hRU, hLN, hRC, hFN, hFS, hSY⟩ := h
  refine ⟨?_, ?_, ?_, hFN, ?_, ?_⟩
  · intro i j ei ej hi hj hr
    exact hRU i j ei ej hi hj hr
  · exact hLN
  · intro i e hi
    exact Nat.lt_succ_of_lt (hRC i e hi)
  · intro id hid
    exact hFS id hid
  · intro tid2 s hs
    have hs2 : Function.update w.systems tid
        (Option.some ⟨w.refCtr, req, excl, []⟩) tid2 = Option.some s := hs
    by_cases ht : tid2 = tid
    · subst ht
      rw [Function.update_same] at hs2
      injection hs2 with hs2
      subst hs2
      refine ⟨hreqx, List.nodup_nil, ?_⟩
      intro r
      constructor
      · intro hm
        exact absurd hm (List.not_mem_nil r)
      · rintro ⟨i, e2, hi, _, _⟩
        have hi2 : w.entities[i]? = Option.some (Option.some e2) := hi
        rw [hent, List.getElem?_nil] at hi2
        exact Option.noConfusion hi2
    · rw [Function.update_noteq ht _ _] at hs2
      obtain ⟨h1, h2, h3⟩ := hSY tid2 s hs2
      exact ⟨h1, h2, fun r => h3 r⟩

theorem exec_cons (w : World) (o : Op) (l : List Op) :
    w.exec (o :: l) = (w.applyOp o).exec l := rfl

theorem SInv_setupAux (regs : List (SysId × Mask × Mask)) :
    ∀ w : World, SInv w → w.entities = [] →
      (∀ x ∈ regs, ∃ c, x.2.1 c = true) →
      SInv (w.exec (regs.map fun x => Op.regSystem x.1 x.2.1 x.2.2)) ∧
      (w.exec (regs.map fun x => Op.regSystem x.1 x.2.1 x.2.2)).entities = [] := by
  induction regs with
  | nil => intro w h he _; exact ⟨h, he⟩
  | cons x xs ih =>
      intro w h he hreq
      rw [List.map_cons, exec_cons]
      exact ih _ (SInv_regSystem w x.1 x.2.1 x.2.2 (hreq x (List.mem_cons_self ..)) he h)
        he (fun y hy => hreq y (List.mem_cons_of_mem _ hy))

theorem addSlots_systems (w u : World) (hu : u.entities = w.entities)
    (husys : u.systems = w.systems) (hufree : u.freeEntityIDs = w.freeEntityIDs)
    (hupend : u.pendingDestroy = w.pendingDestroy) (huctr : u.refCtr = w.refCtr)
    (hunext : u.nextEntityID = w.nextEntityID)
    (r : Nat) (cid : CompId) (n : Nat) (id : Nat) (e0 : Entity)
    (hslot : w.entities[id]? = Option.some (Option.some e0))
    (href : e0.ref = r)
    (huniq : ∀ (j : Nat) (e2 : Entity), w.entities[j]? = Option.some (Option.some e2) →
      e2.ref = r → j = id)
    (W : World)
    (hW : W = (u.updateEntity r (fun x => { x with
        compIdx := Function.update x.compIdx cid n,
        mask := Mask.set x.mask cid })).updateEntitySystemList r) :
    W.entities[id]? = Option.some (Option.some ⟨e0.ref, e0.id, e0.alive,
      Mask.set e0.mask cid, Function.update e0.compIdx cid n⟩) ∧
    (∀ j, j ≠ id → W.entities[j]? = w.entities[j]?) ∧
    (∀ tid, W.systems tid = (w.systems tid).map (updateOneSystem
      ⟨e0.ref, e0.id, e0.alive, Mask.set e0.mask cid,
        Function.update e0.compIdx cid n⟩)) ∧
    W.entities.length = w.entities.length ∧
    W.freeEntityIDs = w.freeEntityIDs ∧
    W.pendingDestroy = w.pendingDestroy ∧
    W.refCtr = w.refCtr ∧
    W.nextEntityID = w.nextEntityID := by
  subst hW
  have hslot2 : u.entities[id]? = Option.some (Option.some e0) := by
    rw [hu]
    exact hslot
  have hSelf : (u.updateEntity r (fun x => { x with
      compIdx := Function.update x.compIdx cid n,
      mask := Mask.set x.mask cid })).entities[id]? =
      Option.some (Option.some ⟨e0.ref, e0.id, e0.alive,
        Mask.set e0.mask cid, Function.update e0.compIdx cid n⟩) :=
    updateEntity_slot_self _ hslot2 href
  have hOth : ∀ j, j ≠ id → (u.updateEntity r (fun x => { x with
      compIdx := Function.update x.compIdx cid n,
      mask := Mask.set x.mask cid })).entities[j]? = w.entities[j]? := by
    intro j hj
    have hne : ∀ e2, u.entities[j]? = Option.some (Option.some e2) → e2.ref ≠ r := by
      intro e2 hj2 hr2
      rw [hu] at hj2
      exact hj (huniq j e2 hj2 hr2)
    rw [updateEntity_slot_other _ hne, hu]
  have huniq4 : ∀ (j : Nat) (e2 : Entity),
      (u.updateEntity r (fun x => { x with
        compIdx := Function.update x.compIdx cid n,
        mask := Mask.set x.mask cid })).entities[j]? = Option.some (Option.some e2) →
      e2.ref = r → j = id := by
    intro j e2 hj hr2
    obtain ⟨e3, hj3, hr3⟩ := updateEntity_slot_inv u r
      (fun x => { x with
        compIdx := Function.update x.compIdx cid n,
        mask := Mask.set x.mask cid }) (fun x => rfl) j e2 hj
    rw [hu] at hj3
    exact huniq j e3 hj3 (by rw [hr3, hr2])
  have hd : (u.updateEntity r (fun x => { x with
      compIdx := Function.update x.compIdx cid n,
      mask := Mask.set x.mask cid })).derefEntity r =
      Option.some ⟨e0.ref, e0.id, e0.alive,
        Mask.set e0.mask cid, Function.update e0.compIdx cid n⟩ :=
    derefEntity_unique hSelf href huniq4
  rw [updateEntitySystemList_eq hd]
  refine ⟨hSelf, hOth, ?_, ?_, ?_, ?_, ?_, ?_⟩
  · intro tid
    show (u.systems tid).map (updateOneSystem ⟨e0.ref, e0.id, e0.alive,
      Mask.set e0.mask cid, Function.update e0.compIdx cid n⟩) = _
    rw [husys]
  · show (u.updateEntity r (fun x => { x with
      compIdx := Function.update x.compIdx cid n,
      mask := Mask.set x.mask cid })).entities.length = w.entities.length
    rw [updateEntity_length, hu]
  · show u.freeEntityIDs = w.freeEntityIDs
    exact hufree
  · show u.pendingDestroy = w.pendingDestroy
    exact hupend
  · show u.refCtr = w.refCtr
    exact huctr
  · show u.nextEntityID = w.nextEntityID
    exact hunext

theorem addComponentBody_systems (w : World) (r : Nat) (cid : CompId) (v : Nat)
    (id : Nat) (e0 : Entity)
    (hslot : w.entities[id]? = Option.some (Option.some e0))
    (href : e0.ref = r)
    (huniq : ∀ (j : Nat) (e2 : Entity), w.entities[j]? = Option.some (Option.some e2) →
      e2.ref = r → j = id) :
    ∃ e1 : Entity, e1.ref = e0.ref ∧ e1.alive = e0.alive ∧
      e1.mask = Mask.set e0.mask cid ∧
      (addComponentBody w r cid v).entities[id]? = Option.some (Option.some e1) ∧
      (∀ j, j ≠ id → (addComponentBody w r cid v).entities[j]? = w.entities[j]?) ∧
      (∀ tid, (addComponentBody w r cid v).systems tid =
        (w.systems tid).map (updateOneSystem e1)) ∧
      (addComponentBody w r cid v).entities.length = w.entities.length ∧
      (addComponentBody w r cid v).freeEntityIDs = w.freeEntityIDs ∧
      (addComponentBody w r cid v).pendingDestroy = w.pendingDestroy ∧
      (addComponentBody w r cid v).refCtr = w.refCtr ∧
      (addComponentBody w r cid v).nextEntityID = w.nextEntityID ∧
      e1.id = e0.id ∧
      e1.compIdx = Function.update e0.compIdx cid
        ((((w.ensurePool cid).pools cid).getD [] ++ [(⟨r, v⟩ : Comp)]).length - 1) := by
  obtain ⟨h1, h2, h3, h4, h5, h6, h7, h8⟩ := addSlots_systems w
    { w.ensurePool cid with
        pools := Function.update (w.ensurePool cid).pools cid
          (Option.some (((w.ensurePool cid).pools cid).getD [] ++ [(⟨r, v⟩ : Comp)])) }
    (ensurePool_entities w cid) (ensurePool_systems w cid)
    (ensurePool_freeEntityIDs w cid) (ensurePool_pendingDestroy w cid)
    (ensurePool_refCtr w cid) (ensurePool_nextEntityID w cid)
    r cid ((((w.ensurePool cid).pools cid).getD [] ++ [(⟨r, v⟩ : Comp)]).length - 1)
    id e0 hslot href huniq
    (addComponentBody w r cid v) rfl
  exact ⟨⟨e0.ref, e0.id, e0.alive, Mask.set e0.mask cid,
    Function.update e0.compIdx cid
      ((((w.ensurePool cid).pools cid).getD [] ++ [(⟨r, v⟩ : Comp)]).length - 1)⟩,
    rfl, rfl, rfl, h1, h2, h3, h4, h5, h6, h7, h8, rfl, rfl⟩

theorem SInv_systems_transfer (w W : World) (i0 : Nat) (e0 e1 : Entity)
    (hRU : RefUniq w)
    (hSY : ∀ tid s, w.systems tid = Option.some s →
      (∃ c, s.required c = true) ∧ s.entities.Nodup ∧
      (∀ r : Nat, r ∈ s.entities ↔ ∃ (i : Nat) (e : Entity),
        w.entities[i]? = Option.some (Option.some e) ∧
        e.ref = r ∧ matchesMask e.mask e.alive s = true))
    (hslot0 : w.entities[i0]? = Option.some (Option.some e0))
    (he1r : e1.ref = e0.ref)
    (hself : ∃ e1x : Entity, W.entities[i0]? = Option.some (Option.some e1x) ∧
      e1x.ref = e1.ref ∧ e1x.alive = e1.alive ∧ e1x.mask = e1.mask)
    (hoth : ∀ j, j ≠ i0 → slotKeep (w.entities[j]?) (W.entities[j]?))
    (hsys : ∀ tid, W.systems tid = (w.systems tid).map (updateOneSystem e1)) :
    ∀ tid s, W.systems tid = Option.some s →
      (∃ c, s.required c = true) ∧ s.entities.Nodup ∧
      (∀ r : Nat, r ∈ s.entities ↔ ∃ (i : Nat) (e : Entity),
        W.entities[i]? = Option.some (Option.some e) ∧
        e.ref = r ∧ matchesMask e.mask e.alive s = true) := by
  intro tid s hs2
  rw [hsys tid] at hs2
  cases hs0 : w.systems tid with
  | none =>
      rw [hs0] at hs2
      exact Option.noConfusion hs2
  | some s0 =>
      rw [hs0] at hs2
      injection hs2 with hs2
      subst hs2
      obtain ⟨h1, h2, h3⟩ := hSY tid s0 hs0
      have hreq : (updateOneSystem e1 s0).required = s0.required :=
        updateOneSystem_required e1 s0
      have hexc : (updateOneSystem e1 s0).excluded = s0.excluded :=
        updateOneSystem_excluded e1 s0
      obtain ⟨e1x, hx, hxr, hxa, hxm⟩ := hself
      have huniq : ∀ (j : Nat) (e2 : Entity),
          w.entities[j]? = Option.some (Option.some e2) → e2.ref = e0.ref → j = i0 :=
        fun j e2 hj hr2 => hRU j i0 e2 e0 hj hslot0 hr2
      refine ⟨by rw [hreq]; exact h1, updateOneSystem_nodup e1 s0 h2, ?_⟩
      intro r
      by_cases hre : r = e1.ref
      · subst hre
        rw [updateOneSystem_mem_self e1 s0 h2, sysShouldContain_eq]
        constructor
        · intro hm
          refine ⟨i0, e1x, hx, hxr, ?_⟩
          rw [hxm, hxa, matchesMask_congr e1.mask e1.alive hreq hexc]
          exact hm
        · rintro ⟨i, e2, hi, hre2, hm⟩
          have hii : i = i0 := by
            by_cases hii0 : i = i0
            · exact hii0
            · obtain ⟨eo, ho, hro, _, _, _⟩ := slotKeep_inv (hoth i hii0) hi
              exact absurd (huniq i eo ho (by rw [← hro, hre2, he1r])) hii0
          rw [hii, hx] at hi
          injection hi with hi
          injection hi with hi
          rw [← hi, hxm, hxa] at hm
          rw [matchesMask_congr e1.mask e1.alive hreq hexc] at hm
          exact hm
      · rw [updateOneSystem_mem_other e1 s0 hre, h3 r]
        constructor
        · rintro ⟨i, e2, hi, hre2, hm⟩
          have hii : i ≠ i0 := by
            intro hc
            rw [hc, hslot0] at hi
            injection hi with hi
            injection hi with hi
            exact hre (by rw [← hre2, ← hi]; exact he1r.symm)
          have hk := hoth i hii
          rw [hi] at hk
          obtain ⟨e3, h3x, hr3, _, ha3, hm3⟩ := hk
          refine ⟨i, e3, h3x, by rw [hr3, hre2], ?_⟩
          rw [hm3, ha3, matchesMask_congr e2.mask e2.alive hreq hexc]
          exact hm
        · rintro ⟨i, e2, hi, hre2, hm⟩
          have hii : i ≠ i0 := by
            intro hc
            rw [hc, hx] at hi
            injection hi with hi
            injection hi with hi
            exact hre (by rw [← hre2, ← hi, hxr])
          obtain ⟨eo, ho, hro, _, hao, hmo⟩ := slotKeep_inv (hoth i hii) hi
          refine ⟨i, eo, ho, by rw [← hro]; exact hre2, ?_⟩
          rw [← hmo, ← hao]
          rw [matchesMask_congr e2.mask e2.alive hreq hexc] at hm
          exact hm

theorem SInv_createEntity (w : World) (h : SInv w) : SInv (w.createEntity).1 := by
  obtain ⟨hRU, hLN, hRC, hFN, hFS, hSY⟩ := h
  cases hfq : w.freeEntityIDs with
  | cons id0 rest =>
      have hW : (w.createEntity).1 = { w with
          freeEntityIDs := rest,
          entities := w.entities.set id0
            (Option.some ⟨w.refCtr, id0, true, Mask.none, fun _ => 0⟩),
          refCtr := w.refCtr + 1,
          trace := w.trace ++ [TraceEv.entityCreated id0] } := by
        rw [createEntity_eq_reuse hfq]
      rw [hW]
      have hslot2 : ∀ (k : Nat) (ek : Entity),
          (w.entities.set id0
            (Option.some ⟨w.refCtr, id0, true, Mask.none, fun _ => 0⟩))[k]? =
            Option.some (Option.some ek) →
          (k = id0 ∧ ek = ⟨w.refCtr, id0, true, Mask.none, fun _ => 0⟩) ∨
          (k ≠ id0 ∧ w.entities[k]? = Option.some (Option.some ek)) := by
        intro k ek hk
        by_cases hkk : k = id0
        · by_cases hl : id0 < w.entities.length
          · rw [hkk, List.getElem?_set_self hl] at hk
            injection hk with hk
            injection hk with hk
            exact Or.inl ⟨hkk, hk.symm⟩
          · rw [hkk, List.getElem?_eq_none_iff.mpr (by rw [List.length_set]; omega)] at hk
            exact Option.noConfusion hk
        · rw [List.getElem?_set_ne (fun hc => hkk hc.symm)] at hk
          exact Or.inr ⟨hkk, hk⟩
      have hisid0 : w.entities[id0]? = Option.some Option.none :=
        hFS id0 (by rw [hfq]; exact List.mem_cons_self ..)
      refine ⟨?_, ?_, ?_, ?_, ?_, ?_⟩
      · intro i j ei ej hi hj hr
        rcases hslot2 i ei hi with ⟨hi0, hie⟩ | ⟨hi0, hio⟩
        · rcases hslot2 j ej hj with ⟨hj0, hje⟩ | ⟨hj0, hjo⟩
          · rw [hi0, hj0]
          · exfalso
            have hlt := hRC j ej hjo
            rw [hie] at hr
            have hr2 : w.refCtr = ej.ref := hr
            omega
        · rcases hslot2 j ej hj with ⟨hj0, hje⟩ | ⟨hj0, hjo⟩
          · exfalso
            have hlt := hRC i ei hio
            rw [hje] at hr
            have hr2 : ei.ref = w.refCtr := hr
            omega
          · exact hRU i j ei ej hio hjo hr
      · show (w.entities.set id0 _).length ≤ w.nextEntityID
        rw [List.length_set]
        exact hLN
      · intro i e hi
        show e.ref < w.refCtr + 1
        rcases hslot2 i e hi with ⟨_, hie⟩ | ⟨_, hio⟩
        · rw [hie]
          exact Nat.lt_succ_self _
        · exact Nat.lt_succ_of_lt (hRC i e hio)
      · show rest.Nodup
        rw [hfq] at hFN
        exact (List.nodup_cons.mp hFN).2
      · intro idf hidf
        have hidf2 : idf ∈ w.freeEntityIDs := by
          rw [hfq]
          exact List.mem_cons_of_mem _ hidf
        have hne : id0 ≠ idf := by
          intro hc
          rw [hfq] at hFN
          rw [← hc] at hidf
          exact (List.nodup_cons.mp hFN).1 hidf
        show (w.entities.set id0 _)[idf]? = Option.some Option.none
        rw [List.getElem?_set_ne hne]
        exact hFS idf hidf2
      · intro tid s hs
        obtain ⟨h1, h2, h3⟩ := hSY tid s hs
        refine ⟨h1, h2, ?_⟩
        intro r
        rw [h3 r]
        constructor
        · rintro ⟨i, e, hi, hre, hm⟩
          have hne : i ≠ id0 := by
            intro hc
            rw [hc, hisid0] at hi
            injection hi with hi
            exact Option.noConfusion hi
          refine ⟨i, e, ?_, hre, hm⟩
          show (w.entities.set id0 _)[i]? = _
          rw [List.getElem?_set_ne (fun hc => hne hc.symm)]
          exact hi
        · rintro ⟨i, e, hi, hre, hm⟩
          rcases hslot2 i e hi with ⟨_, hie⟩ | ⟨_, hio⟩
          · exfalso
            rw [hie] at hm
            have hm2 : matchesMask Mask.none true s = true := hm
            rw [matchesMask_none_mask h1] at hm2
            exact Bool.noConfusion hm2
          · exact ⟨i, e, hio, hre, hm⟩
  | nil =>
      have hW : (w.createEntity).1 = { w with
          nextEntityID := w.nextEntityID + 1,
          entities := (if w.nextEntityID < w.entities.length then w.entities
            else w.entities ++ List.replicate (w.nextEntityID + 1 - w.entities.length)
              Option.none).set w.nextEntityID
            (Option.some ⟨w.refCtr, w.nextEntityID, true, Mask.none, fun _ => 0⟩),
          refCtr := w.refCtr + 1,
          trace := w.trace ++ [TraceEv.entityCreated w.nextEntityID] } := by
        rw [createEntity_eq_fresh hfq]
      rw [hW]
      have hcond : ¬(w.nextEntityID < w.entities.length) := by omega
      have hgrow : (if w.nextEntityID < w.entities.length then w.entities
          else w.entities ++ List.replicate (w.nextEntityID + 1 - w.entities.length)
            (Option.none : Option Entity)) =
          w.entities ++ List.replicate (w.nextEntityID + 1 - w.entities.length)
            Option.none := by
        rw [if_neg hcond]
      rw [hgrow]
      have hlen2 : (w.entities ++ List.replicate (w.nextEntityID + 1 - w.entities.length)
          (Option.none : Option Entity)).length = w.nextEntityID + 1 := by
        rw [List.length_append, List.length_replicate]
        omega
      have hslot2 : ∀ (k : Nat) (ek : Entity),
          ((w.entities ++ List.replicate (w.nextEntityID + 1 - w.entities.length)
            Option.none).set w.nextEntityID
            (Option.some ⟨w.refCtr, w.nextEntityID, true, Mask.none, fun _ => 0⟩))[k]? =
            Option.some (Option.some ek) →
          (k = w.nextEntityID ∧
            ek = ⟨w.refCtr, w.nextEntityID, true, Mask.none, fun _ => 0⟩) ∨
          (k ≠ w.nextEntityID ∧ w.entities[k]? = Option.some (Option.some ek)) := by
        intro k ek hk
        by_cases hkk : k = w.nextEntityID
        · rw [hkk, List.getElem?_set_self (by rw [hlen2]; omega)] at hk
          injection hk with hk
          injection hk with hk
          exact Or.inl ⟨hkk, hk.symm⟩
        · rw [List.getElem?_set_ne (fun hc => hkk hc.symm)] at hk
          rw [List.getElem?_append] at hk
          by_cases hkl : k < w.entities.length
          · rw [if_pos hkl] at hk
            exact Or.inr ⟨hkk, hk⟩
          · rw [if_neg hkl] at hk
            exfalso
            have hx : (Option.some ek : Option Entity) = Option.none :=
              List.eq_of_mem_replicate (List.getElem?_mem hk)
            exact Option.noConfusion hx
      refine ⟨?_, ?_, ?_, ?_, ?_, ?_⟩
      · intro i j ei ej hi hj hr
        rcases hslot2 i ei hi with ⟨hi0, hie⟩ | ⟨hi0, hio⟩
        · rcases hslot2 j ej hj with ⟨hj0, hje⟩ | ⟨hj0, hjo⟩
          · rw [hi0, hj0]
          · exfalso
            have hlt := hRC j ej hjo
            rw [hie] at hr
            have hr2 : w.refCtr = ej.ref := hr
            omega
        · rcases hslot2 j ej hj with ⟨hj0, hje⟩ | ⟨hj0, hjo⟩
          · exfalso
            have hlt := hRC i ei hio
            rw [hje] at hr
            have hr2 : ei.ref = w.refCtr := hr
            omega
          · exact hRU i j ei ej hio hjo hr
      · show ((w.entities ++ _).set w.nextEntityID _).length ≤ w.nextEntityID + 1
        rw [List.length_set, hlen2]
      · intro i e hi
        show e.ref < w.refCtr + 1
        rcases hslot2 i e hi with ⟨_, hie⟩ | ⟨_, hio⟩
        · rw [hie]
          exact Nat.lt_succ_self _
        · exact Nat.lt_succ_of_lt (hRC i e hio)
      · exact hFN
      · intro idf hidf
        have hidf2 : idf ∈ w.freeEntityIDs := hidf
        rw [hfq] at hidf2
        exact absurd hidf2 (List.not_mem_nil idf)
      · intro tid s hs
        obtain ⟨h1, h2, h3⟩ := hSY tid s hs
        refine ⟨h1, h2, ?_⟩
        intro r
        rw [h3 r]
        constructor
        · rintro ⟨i, e, hi, hre, hm⟩
          have hil : i < w.entities.length := by
            by_contra hn
            rw [List.getElem?_eq_none_iff.mpr (by omega)] at hi
            exact Option.noConfusion hi
          have hne : w.nextEntityID ≠ i := by omega
          refine ⟨i, e, ?_, hre, hm⟩
          show ((w.entities ++ _).set w.nextEntityID _)[i]? = _
          rw [List.getElem?_set_ne hne, List.getElem?_append, if_pos hil]
          exact hi
        · rintro ⟨i, e, hi, hre, hm⟩
          rcases hslot2 i e hi with ⟨_, hie⟩ | ⟨_, hio⟩
          · exfalso
            rw [hie] at hm
            have hm2 : matchesMask Mask.none true s = true := hm
            rw [matchesMask_none_mask h1] at hm2
            exact Bool.noConfusion hm2
          · exact ⟨i, e, hio, hre, hm⟩

theorem SInv_addComp (w : World) (r : Nat) (cid : CompId) (v : Nat) (h : SInv w) :
    SInv (w.addComponentToEntity r cid v) := by
  obtain ⟨hRU, hLN, hRC, hFN, hFS, hSY⟩ := h
  cases hd : w.derefEntity r with
  | none =>
      rw [addComponentToEntity_eq_none hd]
      exact ⟨hRU, hLN, hRC, hFN, hFS, hSY⟩
  | some e =>
      cases hm : e.mask cid with
      | true =>
          rw [addComponentToEntity_eq_dup hd hm]
          exact ⟨hRU, hLN, hRC, hFN, hFS, hSY⟩
      | false =>
          rw [addComponentToEntity_eq hd hm]
          obtain ⟨hrr, i0, hslot0⟩ := derefEntity_inv hd
          have huniq : ∀ (j : Nat) (e2 : Entity),
              w.entities[j]? = Option.some (Option.some e2) → e2.ref = r → j = i0 :=
            fun j e2 hj hr2 => hRU j i0 e2 e hj hslot0 (by rw [hr2, hrr])
          obtain ⟨e1, he1r, he1a, he1m, hSelf, hOth, hSys, hLen, hFree, hPend, hCtr,
            hNext, _, _⟩ := addComponentBody_systems w r cid v i0 e hslot0 hrr huniq
          have habs : ∀ (k : Nat) (ek : Entity),
              (addComponentBody w r cid v).entities[k]? = Option.some (Option.some ek) →
              ∃ eo, w.entities[k]? = Option.some (Option.some eo) ∧ eo.ref = ek.ref := by
            intro k ek hk
            by_cases hkk : k = i0
            · rw [hkk, hSelf] at hk
              injection hk with hk
              injection hk with hk
              refine ⟨e, by rw [hkk]; exact hslot0, ?_⟩
              rw [← hk]
              exact he1r.symm
            · rw [hOth k hkk] at hk
              exact ⟨ek, hk, rfl⟩
          refine ⟨?_, ?_, ?_, ?_, ?_, ?_⟩
          · intro i j ei ej hi hj hr2
            obtain ⟨eoi, hoi, hri⟩ := habs i ei hi
            obtain ⟨eoj, hoj, hrj⟩ := habs j ej hj
            exact hRU i j eoi eoj hoi hoj (by rw [hri, hrj, hr2])
          · rw [hLen, hNext]
            exact hLN
          · intro i e2 hi
            obtain ⟨eo, ho, hro⟩ := habs i e2 hi
            rw [hCtr, ← hro]
            exact hRC i eo ho
          · rw [hFree]
            exact hFN
          · intro idf hidf
            rw [hFree] at hidf
            have hne : idf ≠ i0 := by
              intro hc
              have hx := hFS idf hidf
              rw [hc, hslot0] at hx
              injection hx with hx
              exact Option.noConfusion hx
            rw [hOth idf hne]
            exact hFS idf hidf
          · exact SInv_systems_transfer w (addComponentBody w r cid v) i0 e e1 hRU hSY
              hslot0 (by rw [he1r])
              ⟨e1, hSelf, rfl, rfl, rfl⟩
              (fun j hj => by rw [hOth j hj]; exact slotKeep_refl _)
              hSys

theorem SInv_removeComp (w : World) (r : Nat) (cid : CompId) (h : SInv w) :
    SInv (w.removeComponentFromEntity r cid) := by
  obtain ⟨hRU, hLN, hRC, hFN, hFS, hSY⟩ := h
  cases hd : w.derefEntity r with
  | none =>
      rw [removeComponentFromEntity_eq_none hd]
      exact ⟨hRU, hLN, hRC, hFN, hFS, hSY⟩
  | some e =>
      cases hm : e.mask cid with
      | false =>
          rw [removeComponentFromEntity_eq_noComp hd hm]
          exact ⟨hRU, hLN, hRC, hFN, hFS, hSY⟩
      | true =>
          rw [removeComponentFromEntity_eq hd hm]
          obtain ⟨hrr, i0, hslot0⟩ := derefEntity_inv hd
          have huniq : ∀ (j : Nat) (e2 : Entity),
              w.entities[j]? = Option.some (Option.some e2) → e2.ref = r → j = i0 :=
            fun j e2 hj hr2 => hRU j i0 e2 e hj hslot0 (by rw [hr2, hrr])
          obtain ⟨⟨f3, hSelf⟩, hOth, hLen, htr, hFree, hPend, hCtr, hNext⟩ :=
            removeComponentBody_effects w r cid e i0 e hslot0 hrr huniq
          obtain ⟨e1, he1r, he1a, he1m, hSys⟩ :=
            removeComponentBody_systems w r cid e i0 e hslot0 hrr huniq
          have habs : ∀ (k : Nat) (ek : Entity),
              (removeComponentBody w r cid e).entities[k]? =
                Option.some (Option.some ek) →
              ∃ eo, w.entities[k]? = Option.some (Option.some eo) ∧ eo.ref = ek.ref := by
            intro k ek hk
            by_cases hkk : k = i0
            · rw [hkk, hSelf] at hk
              injection hk with hk
              injection hk with hk
              refine ⟨e, by rw [hkk]; exact hslot0, ?_⟩
              rw [← hk]
            · obtain ⟨eo, ho, hro, _, _, _⟩ := slotKeep_inv (hOth k hkk) hk
              exact ⟨eo, ho, hro.symm⟩
          refine ⟨?_, ?_, ?_, ?_, ?_, ?_⟩
          · intro i j ei ej hi hj hr2
            obtain ⟨eoi, hoi, hri⟩ := habs i ei hi
            obtain ⟨eoj, hoj, hrj⟩ := habs j ej hj
            exact hRU i j eoi eoj hoi hoj (by rw [hri, hrj, hr2])
          · rw [hLen, hNext]
            exact hLN
          · intro i e2 hi
            obtain ⟨eo, ho, hro⟩ := habs i e2 hi
            rw [hCtr, ← hro]
            exact hRC i eo ho
          · rw [hFree]
            exact hFN
          · intro idf hidf
            rw [hFree] at hidf
            have hne : idf ≠ i0 := by
              intro hc
              have hx := hFS idf hidf
              rw [hc, hslot0] at hx
              injection hx with hx
              exact Option.noConfusion hx
            have hk := hOth idf hne
            have hfs2 := hFS idf hidf
            rw [hfs2] at hk
            exact hk
          · exact SInv_systems_transfer w (removeComponentBody w r cid e) i0 e e1 hRU hSY
              hslot0 he1r
              ⟨⟨e.ref, e.id, e.alive, Mask.clear e.mask cid, f3⟩, hSelf,
                by rw [he1r], by rw [he1a], by rw [he1m]⟩
              hOth
              hSys

theorem SInv_destroy (w : World) (r : Nat) (h : SInv w) : SInv (w.destroyEntity r) := by
  cases hd : w.derefEntity r with
  | none =>
      rw [destroyEntity_eq_none hd]
      exact h
  | some e =>
      cases ha : e.alive with
      | false =>
          rw [destroyEntity_eq_dead hd ha]
          exact h
      | true =>
          rw [destroyEntity_eq_live hd ha]
          exact SInv_congr rfl rfl rfl rfl rfl h

theorem SInv_flushOne (u : World) (id : Nat) (h : SInv u) : SInv (flushOne u id) := by
  obtain ⟨hRU, hLN, hRC, hFN, hFS, hSY⟩ := h
  rcases hs : u.entities[id]? with _ | oe
  · rw [flushOne_eq_skip (Or.inl hs)]
    exact ⟨hRU, hLN, hRC, hFN, hFS, hSY⟩
  · rcases oe with _ | e0
    · rw [flushOne_eq_skip (Or.inr (Or.inl hs))]
      exact ⟨hRU, hLN, hRC, hFN, hFS, hSY⟩
    · by_cases ha : e0.alive = true
      · rw [flushOne_eq_live hs ha]
        have huniq : ∀ (j : Nat) (e2 : Entity),
            u.entities[j]? = Option.some (Option.some e2) → e2.ref = e0.ref → j = id :=
          fun j e2 hj hr2 => hRU j id e2 e0 hj hs hr2
        have hSND : ∀ tid s, u.systems tid = Option.some s → s.entities.Nodup :=
          fun tid s hss => ((hSY tid s hss).2).1
        obtain ⟨htr, hfree, hpend, hself, hoth, hlen, hctr, hnext, hsysA, hsysB⟩ :=
          flushOneBody_effects u id e0 hs huniq hSND
        generalize hgen : flushOneBody u id e0 = w1
        rw [hgen] at hfree hpend hself hoth hlen hctr hnext hsysA hsysB
        refine ⟨?_, ?_, ?_, ?_, ?_, ?_⟩
        · intro i j ei ej hi hj hr
          by_cases hi0 : i = id
          · exfalso
            rw [hi0, hself] at hi
            injection hi with hi
            exact Option.noConfusion hi
          · by_cases hj0 : j = id
            · exfalso
              rw [hj0, hself] at hj
              injection hj with hj
              exact Option.noConfusion hj
            · obtain ⟨xi, hxi, hrefi, _, _, _⟩ := slotKeep_inv (hoth i hi0) hi
              obtain ⟨xj, hxj, hrefj, _, _, _⟩ := slotKeep_inv (hoth j hj0) hj
              exact hRU i j xi xj hxi hxj (by rw [← hrefi, ← hrefj]; exact hr)
        · rw [hlen, hnext]
          exact hLN
        · intro i e2 hi
          rw [hctr]
          by_cases hi0 : i = id
          · exfalso
            rw [hi0, hself] at hi
            injection hi with hi
            exact Option.noConfusion hi
          · obtain ⟨xo, ho, hro, _, _, _⟩ := slotKeep_inv (hoth i hi0) hi
            rw [hro]
            exact hRC i xo ho
        · rw [hfree]
          have hnm : id ∉ u.freeEntityIDs := by
            intro hc
            have hx := hFS id hc
            rw [hs] at hx
            injection hx with hx
            exact Option.noConfusion hx
          exact List.Nodup.append hFN (List.nodup_singleton id)
            (by simp [List.disjoint_singleton]; exact hnm)
        · intro idf hidf
          rw [hfree] at hidf
          rcases List.mem_append.mp hidf with hh | hh
          · have hne : idf ≠ id := by
              intro hc
              have hx := hFS idf hh
              rw [hc, hs] at hx
              injection hx with hx
              exact Option.noConfusion hx
            have hk := hoth idf hne
            have hfs2 := hFS idf hh
            rw [hfs2] at hk
            exact hk
          · rw [List.mem_singleton] at hh
            rw [hh]
            exact hself
        · intro tid s2 hs2
          obtain ⟨s0, hs0, hreq, hexc, _, hnd2, hothmem, hnomem⟩ := hsysA tid s2 hs2
          obtain ⟨h1, h2, h3⟩ := hSY tid s0 hs0
          refine ⟨by rw [hreq]; exact h1, hnd2, ?_⟩
          intro r
          by_cases hre : r = e0.ref
          · subst hre
            constructor
            · intro hmem
              exact absurd hmem (hnomem h1)
            · rintro ⟨i, e2, hi, hre2, _⟩
              exfalso
              by_cases hi0 : i = id
              · rw [hi0, hself] at hi
                injection hi with hi
                exact Option.noConfusion hi
              · obtain ⟨eo, ho, hro, _, _, _⟩ := slotKeep_inv (hoth i hi0) hi
                exact hi0 (huniq i eo ho (by rw [← hro]; exact hre2))
          · rw [hothmem r hre, h3 r]
            constructor
            · rintro ⟨i, e2, hi, hre2, hm⟩
              have hii : i ≠ id := by
                intro hc
                rw [hc, hs] at hi
                injection hi with hi
                injection hi with hi
                exact hre (by rw [← hre2, ← hi])
              have hk := hoth i hii
              rw [hi] at hk
              obtain ⟨e3, h3x, hr3, _, ha3, hm3⟩ := hk
              refine ⟨i, e3, h3x, by rw [hr3, hre2], ?_⟩
              rw [hm3, ha3, matchesMask_congr e2.mask e2.alive hreq hexc]
              exact hm
            · rintro ⟨i, e2, hi, hre2, hm⟩
              have hii : i ≠ id := by
                intro hc
                rw [hc, hself] at hi
                injection hi with hi
                exact Option.noConfusion hi
              obtain ⟨eo, ho, hro, _, hao, hmo⟩ := slotKeep_inv (hoth i hii) hi
              refine ⟨i, eo, ho, by rw [← hro]; exact hre2, ?_⟩
              rw [← hmo, ← hao]
              rw [matchesMask_congr e2.mask e2.alive hreq hexc] at hm
              exact hm
      · have ha2 : e0.alive = false := by
          cases hb : e0.alive
          · rfl
          · exact absurd hb ha
        rw [flushOne_eq_skip (Or.inr (Or.inr ⟨e0, hs, ha2⟩))]
        exact ⟨hRU, hLN, hRC, hFN, hFS, hSY⟩

theorem SInv_processPendingChanges (w : World) (h : SInv w) :
    SInv w.processPendingChanges := by
  have hfold : ∀ (P : List Nat) (u : World), SInv u → SInv (P.foldl flushOne u) := by
    intro P
    induction P with
    | nil => intro u hu; exact hu
    | cons p ps ih =>
        intro u hu
        rw [List.foldl_cons]
        exact ih _ (SInv_flushOne u p hu)
  exact SInv_congr rfl rfl rfl rfl rfl (hfold w.pendingDestroy w h)

theorem runSystems_frame (l : List Nat) (dt : Int) :
    ∀ w : World,
      (l.foldl (fun acc sref => { acc with
        trace := acc.trace ++ [TraceEv.sysUpdate sref dt] }) w).entities = w.entities ∧
      (l.foldl (fun acc sref => { acc with
        trace := acc.trace ++ [TraceEv.sysUpdate sref dt] }) w).systems = w.systems ∧
      (l.foldl (fun acc sref => { acc with
        trace := acc.trace ++ [TraceEv.sysUpdate sref dt] }) w).freeEntityIDs =
        w.freeEntityIDs ∧
      (l.foldl (fun acc sref => { acc with
        trace := acc.trace ++ [TraceEv.sysUpdate sref dt] }) w).refCtr = w.refCtr ∧
      (l.foldl (fun acc sref => { acc with
        trace := acc.trace ++ [TraceEv.sysUpdate sref dt] }) w).nextEntityID =
        w.nextEntityID := by
  induction l with
  | nil => intro w; exact ⟨rfl, rfl, rfl, rfl, rfl⟩
  | cons s ss ih =>
      intro w
      rw [List.foldl_cons]
      obtain ⟨a, b, c, d, e⟩ := ih { w with trace := w.trace ++ [TraceEv.sysUpdate s dt] }
      exact ⟨a, b, c, d, e⟩

theorem SInv_update (w : World) (dt : Int) (h : SInv w) : SInv (w.update dt) := by
  unfold World.update
  apply SInv_processPendingChanges
  obtain ⟨a, b, c, d, e⟩ := runSystems_frame w.systemsByUpdateOrder dt w
  exact SInv_congr a b c d e h

theorem SInv_applyOp (w : World) (op : Op) (h : SInv w) (hop : AllowedOp op) :
    SInv (w.applyOp op) := by
  cases op with
  | create => exact SInv_createEntity w h
  | addComp r cid v => exact SInv_addComp w r cid v h
  | removeComp r cid => exact SInv_removeComp w r cid h
  | destroy r => exact SInv_destroy w r h
  | update dt => exact SInv_update w dt h
  | entityDestroy r => exact hop.elim
  | regSystem tid req excl => exact hop.elim
  | setOrder l => exact hop.elim

/-- Counterexample to C2 as stated: `Entity::destroy` clears `m_alive` before
calling `World::destroyEntity`, which then sees a dead entity and returns
without queueing or re-evaluating anything — the dead entity remains in the
system's matched list, violating the claimed iff (it is in the list while
`e.alive` is false and the membership predicate evaluates to false). -/
theorem system_membership_counterexample :
    ∃ (s : SystemR) (e : Entity),
      (World.exec World.init [Op.regSystem 0 (Mask.set Mask.none 0) Mask.none, Op.create,
        Op.addComp 1 0 5, Op.entityDestroy 1]).systems 0 = Option.some s ∧
      (World.exec World.init [Op.regSystem 0 (Mask.set Mask.none 0) Mask.none, Op.create,
        Op.addComp 1 0 5, Op.entityDestroy 1]).entities[0]? =
        Option.some (Option.some e) ∧
      e.ref ∈ s.entities ∧ e.alive = false ∧ sysShouldContain e s = false := by
  refine ⟨_, _, rfl, rfl, ?_, rfl, rfl⟩
  show (1 : Nat) ∈ [1]
  exact List.mem_singleton.mpr rfl

/-- C2 (amended) — system membership invariant.  For systems with a
non-empty required mask, the invariant `SInv` — whose membership clause says
a pointer is in a system's matched list iff some stored entity with that
pointer currently passes the system's mask-and-liveness test — is preserved
by every operation of the claim's alphabet (`createEntity`, `addComponent`,
`removeComponent`, `World::destroyEntity`, `update`), yields the claimed
per-entity iff, and holds after any startup registration sequence.
(`Entity::destroy` is excluded: it breaks the invariant, see the
counterexample.) -/
theorem system_membership_amended :
    (∀ (w : World) (op : Op), SInv w → AllowedOp op → SInv (w.applyOp op)) ∧
    (∀ w : World, SInv w → ∀ (tid : SysId) (s : SystemR) (i : Nat) (e : Entity),
      w.systems tid = Option.some s →
      w.entities[i]? = Option.some (Option.some e) →
      (e.ref ∈ s.entities ↔ matchesMask e.mask e.alive s = true)) ∧
    (∀ regs : List (SysId × Mask × Mask), (∀ x ∈ regs, ∃ c, x.2.1 c = true) →
      SInv (World.init.exec (regs.map fun x => Op.regSystem x.1 x.2.1 x.2.2))) := by
  refine ⟨fun w op h hop => SInv_applyOp w op h hop, ?_, ?_⟩
  · intro w h tid s i e hsys hslot
    obtain ⟨hRU, _, _, _, _, hSY⟩ := h
    obtain ⟨_, _, h3⟩ := hSY tid s hsys
    rw [h3 e.ref]
    constructor
    · rintro ⟨j, e2, hj, hre, hm⟩
      have hji : j = i := hRU j i e2 e hj hslot hre
      rw [hji, hslot] at hj
      injection hj with hj
      injection hj with hj
      rw [hj]
      exact hm
    · intro hm
      exact ⟨i, e, hslot, rfl, hm⟩
  · intro regs hreq
    exact (SInv_setupAux regs World.init SInv_init rfl hreq).1

/-- Witness for C2 at a concrete input: registering one system (required
mask \x7bbit 0\x7d) from the initial world establishes the invariant. -/
theorem system_membership_amended_witness :
    (∀ x ∈ [((0 : SysId), Mask.set Mask.none 0, Mask.none)], ∃ c, x.2.1 c = true) ∧
    SInv (World.init.exec ([((0 : SysId), Mask.set Mask.none 0, Mask.none)].map
      fun x => Op.regSystem x.1 x.2.1 x.2.2)) := by
  have hreq : ∀ x ∈ [((0 : SysId), Mask.set Mask.none 0, Mask.none)],
      ∃ c, x.2.1 c = true := by
    intro x hx
    rw [List.mem_singleton] at hx
    subst hx
    refine ⟨0, ?_⟩
    show Mask.set Mask.none 0 0 = true
    exact Function.update_same 0 true Mask.none
  exact ⟨hreq, system_membership_amended.2.2 _ hreq⟩

/-! ## C1 infrastructure: swap-remove refinement of the component store -/

/-- The component-operation alphabet of the swap-remove claim. -/
inductive COp where
  | add (i : Nat) (cid : CompId) (v : Nat)
  | rem (i : Nat) (cid : CompId)

/-- The entity an operation targets. -/
def COp.idx : COp → Nat
  | COp.add i _ _ => i
  | COp.rem i _ => i

/-- Interpretation into the `World` operation alphabet. -/
def COp.toOp : COp → Op
  | COp.add i cid v => Op.addComp i cid v
  | COp.rem i cid => Op.removeComp i cid

/-- The abstract specification: a per-entity, per-component-type map of the
most recently constructed value.  `addComponent` on a holder is a no-op (the
code's assertion branch returns early); `removeComponent` clears. -/
def specStep (sv : Nat → CompId → Option Nat) : COp → Nat → CompId → Option Nat
  | COp.add i cid v =>
      if (sv i cid).isSome then sv
      else fun j c => if j = i then (if c = cid then Option.some v else sv j c)
        else sv j c
  | COp.rem i cid =>
      fun j c => if j = i then (if c = cid then Option.none else sv j c) else sv j c

/-- Run the abstract specification over an operation sequence. -/
def specFold (sv : Nat → CompId → Option Nat) (ops : List COp) :
    Nat → CompId → Option Nat :=
  ops.foldl specStep sv

theorem specStep_add (sv : Nat → CompId → Option Nat) (i : Nat) (cid : CompId) (v : Nat) :
    specStep sv (COp.add i cid v) =
      if (sv i cid).isSome then sv
      else fun j c => if j = i then (if c = cid then Option.some v else sv j c)
        else sv j c := rfl

theorem specStep_rem (sv : Nat → CompId → Option Nat) (i : Nat) (cid : CompId) :
    specStep sv (COp.rem i cid) =
      fun j c => if j = i then (if c = cid then Option.none else sv j c)
        else sv j c := rfl

/-- The concrete/abstract coupling invariant: `N` packed entity slots (slot
`i` stores the live entity with id and pointer `i`), masks mirror the spec
map, every held component's recorded pool index stores the owner's value
with the correct back-reference, and every occupied pool slot is owned. -/
def CInv (N : Nat) (w : World) (sv : Nat → CompId → Option Nat) : Prop :=
  w.entities.length = N ∧
  (∀ i : Nat, i < N → ∃ e : Entity,
    w.entities[i]? = Option.some (Option.some e) ∧
    e.ref = i ∧ e.id = i ∧ e.alive = true ∧
    (∀ c : CompId, e.mask c = (sv i c).isSome) ∧
    (∀ (c : CompId) (v : Nat), sv i c = Option.some v →
      e.compIdx c < ((w.pools c).getD []).length ∧
      ((w.pools c).getD [])[e.compIdx c]? = Option.some ⟨i, v⟩)) ∧
  (∀ (c : CompId) (k : Nat), k < ((w.pools c).getD []).length →
    ∃ (i : Nat) (v : Nat), i < N ∧
      ((w.pools c).getD [])[k]? = Option.some ⟨i, v⟩ ∧
      sv i c = Option.some v ∧
      ∃ e : Entity, w.entities[i]? = Option.some (Option.some e) ∧ e.compIdx c = k)

theorem ensurePool_pools_getD (w : World) (cid : CompId) :
    ((w.ensurePool cid).pools cid).getD [] = (w.pools cid).getD [] := by
  unfold World.ensurePool
  cases h : w.pools cid with
  | none =>
      show ((Function.update w.pools cid (Option.some [])) cid).getD [] = _
      rw [Function.update_same]
      rfl
  | some p =>
      show (w.pools cid).getD [] = (Option.some p).getD []
      rw [h]

theorem ensurePool_pools_other (w : World) (cid cid2 : CompId) (h : cid2 ≠ cid) :
    (w.ensurePool cid).pools cid2 = w.pools cid2 := by
  unfold World.ensurePool
  cases w.pools cid
  · show Function.update w.pools cid (Option.some []) cid2 = w.pools cid2
    rw [Function.update_noteq h _ _]
  · rfl

theorem addComponentBody_pools (w : World) (r : Nat) (cid : CompId) (v : Nat) :
    (addComponentBody w r cid v).pools =
      Function.update (w.ensurePool cid).pools cid
        (Option.some (((w.ensurePool cid).pools cid).getD [] ++ [(⟨r, v⟩ : Comp)])) := by
  have hb : addComponentBody w r cid v =
      (({ w.ensurePool cid with
            pools := Function.update (w.ensurePool cid).pools cid
              (Option.some (((w.ensurePool cid).pools cid).getD [] ++ [(⟨r, v⟩ : Comp)])) }).updateEntity
          r (fun x => { x with
            compIdx := Function.update x.compIdx cid
              ((((w.ensurePool cid).pools cid).getD [] ++ [(⟨r, v⟩ : Comp)]).length - 1),
            mask := Mask.set x.mask cid })).updateEntitySystemList r := rfl
  rw [hb, updateEntitySystemList_pools]
  rfl

theorem removeComponentBody_pools (w : World) (r : Nat) (cid : CompId) (e : Entity) :
    (removeComponentBody w r cid e).pools =
      Function.update (w.ensurePool cid).pools cid
        (Option.some (poolRemove (((w.ensurePool cid).pools cid).getD [])
          (e.compIdx cid))) := by
  have hb : removeComponentBody w r cid e =
      (if e.compIdx cid <
          (poolRemove (((w.ensurePool cid).pools cid).getD []) (e.compIdx cid)).length
        then
          (({ w.ensurePool cid with
                trace := (w.ensurePool cid).trace ++ [TraceEv.componentRemoved e.id cid],
                pools := Function.update (w.ensurePool cid).pools cid
                  (Option.some (poolRemove (((w.ensurePool cid).pools cid).getD [])
                    (e.compIdx cid))) }).updateEntity r
              (fun x => { x with mask := Mask.clear x.mask cid })).updateEntity
            ((poolRemove (((w.ensurePool cid).pools cid).getD []) (e.compIdx cid)).getD
              (e.compIdx cid) ⟨0, 0⟩).owner
            (fun x => { x with compIdx := Function.update x.compIdx cid (e.compIdx cid) })
        else
          ({ w.ensurePool cid with
              trace := (w.ensurePool cid).trace ++ [TraceEv.componentRemoved e.id cid],
              pools := Function.update (w.ensurePool cid).pools cid
                (Option.some (poolRemove (((w.ensurePool cid).pools cid).getD [])
                  (e.compIdx cid))) }).updateEntity r
            (fun x => { x with mask := Mask.clear x.mask cid })).updateEntitySystemList
        r := rfl
  rw [hb, updateEntitySystemList_pools]
  split
  · rfl
  · rfl

theorem poolRemove_length (p : List Comp) (index : Nat) (h : index < p.length) :
    (poolRemove p index).length = p.length - 1 := by
  unfold poolRemove
  rw [if_pos h]
  split
  · rw [List.length_take, List.length_set, Nat.min_eq_left (by omega)]
  · rw [List.length_take, Nat.min_eq_left (by omega)]

theorem poolRemove_last (p : List Comp) (index : Nat) (h1 : index < p.length)
    (h2 : ¬(index < p.length - 1)) :
    poolRemove p index = p.take (p.length - 1) := by
  unfold poolRemove
  rw [if_pos h1, if_neg h2]

theorem poolRemove_mid (p : List Comp) (index : Nat) (h2 : index < p.length - 1) :
    poolRemove p index =
      (p.set index (p.getD (p.length - 1) ⟨0, 0⟩)).take (p.length - 1) := by
  unfold poolRemove
  rw [if_pos (by omega), if_pos h2]

theorem poolRemove_getElem_last (p : List Comp) (index : Nat) (h1 : index < p.length)
    (h2 : ¬(index < p.length - 1)) (k : Nat) (hk : k < p.length - 1) :
    (poolRemove p index)[k]? = p[k]? := by
  rw [poolRemove_last p index h1 h2, List.getElem?_take, if_pos hk]

theorem poolRemove_getElem_mid (p : List Comp) (index : Nat) (h2 : index < p.length - 1)
    (k : Nat) (hk : k < p.length - 1) :
    (poolRemove p index)[k]? =
      if k = index then Option.some (p.getD (p.length - 1) ⟨0, 0⟩) else p[k]? := by
  rw [poolRemove_mid p index h2, List.getElem?_take, if_pos hk]
  by_cases hki : k = index
  · rw [if_pos hki, hki, List.getElem?_set_self (by omega : index < p.length)]
  · rw [if_neg hki, List.getElem?_set_ne (fun hc => hki hc.symm)]

theorem createEntity_pools (w : World) : (w.createEntity).1.pools = w.pools := by
  unfold World.createEntity
  cases w.freeEntityIDs <;> rfl

theorem createMany_pools (k : Nat) : ∀ w : World, (w.createMany k).1.pools = w.pools := by
  induction k with
  | zero => intro w; rfl
  | succ k ih =>
      intro w
      rw [createMany_succ_fst, ih, createEntity_pools]

/-- Shape of a world built by fresh creations only: `m` packed slots. -/
def Packed (w : World) (m : Nat) : Prop :=
  w.freeEntityIDs = [] ∧ w.nextEntityID = m ∧ w.refCtr = m ∧ w.entities.length = m ∧
  (∀ j, j < m → w.entities[j]? =
    Option.some (Option.some ⟨j, j, true, Mask.none, fun _ => 0⟩))

theorem Packed_create {w : World} {m : Nat} (h : Packed w m) :
    Packed (w.createEntity).1 (m + 1) := by
  obtain ⟨hf, hn, hr, hl, hs⟩ := h
  rw [createEntity_eq_fresh hf]
  have hcond : ¬(w.nextEntityID < w.entities.length) := by omega
  refine ⟨hf, by rw [hn], by rw [hr], ?_, ?_⟩
  · show ((if w.nextEntityID < w.entities.length then w.entities
      else w.entities ++ List.replicate (w.nextEntityID + 1 - w.entities.length)
        Option.none).set w.nextEntityID _).length = m + 1
    rw [List.length_set, if_neg hcond, List.length_append, List.length_replicate]
    omega
  · intro j hj
    show ((if w.nextEntityID < w.entities.length then w.entities
      else w.entities ++ List.replicate (w.nextEntityID + 1 - w.entities.length)
        Option.none).set w.nextEntityID
      (Option.some ⟨w.refCtr, w.nextEntityID, true, Mask.none, fun _ => 0⟩))[j]? = _
    rw [if_neg hcond]
    by_cases hjm : j = m
    · have hlen2 : w.nextEntityID < (w.entities ++
          List.replicate (w.nextEntityID + 1 - w.entities.length)
            (Option.none : Option Entity)).length := by
        rw [List.length_append, List.length_replicate]
        omega
      rw [hjm, ← hn, List.getElem?_set_self hlen2, hr, hn]
    · have hne : w.nextEntityID ≠ j := by omega
      rw [List.getElem?_set_ne hne, List.getElem?_append, if_pos (by omega)]
      exact hs j (by omega)

theorem Packed_createMany (k : Nat) : ∀ (w : World) (m : Nat), Packed w m →
    Packed ((w.createMany k).1) (m + k) := by
  induction k with
  | zero => intro w m h; exact h
  | succ k ih =>
      intro w m h
      rw [createMany_succ_fst]
      have h2 := ih (w.createEntity).1 (m + 1) (Packed_create h)
      rwa [show m + 1 + k = m + (k + 1) by omega] at h2

theorem Packed_init : Packed World.init 0 := by
  refine ⟨rfl, rfl, rfl, rfl, ?_⟩
  intro j hj
  exact absurd hj (Nat.not_lt_zero j)

theorem CInv_initN (N : Nat) :
    CInv N (World.init.createMany N).1 (fun _ _ => Option.none) := by
  have hp := Packed_createMany N World.init 0 Packed_init
  rw [Nat.zero_add] at hp
  obtain ⟨hf, hn, hr, hl, hs⟩ := hp
  have hpools := createMany_pools N World.init
  refine ⟨hl, ?_, ?_⟩
  · intro i hiN
    refine ⟨⟨i, i, true, Mask.none, fun _ => 0⟩, hs i hiN, rfl, rfl, rfl, ?_, ?_⟩
    · intro c
      rfl
    · intro c v hsv
      exact Option.noConfusion hsv
  · intro c k hk
    rw [hpools] at hk
    have hk2 : k < ([] : List Comp).length := hk
    exact absurd hk2 (by simp)

theorem CInv_add (N : Nat) (w : World) (sv : Nat → CompId → Option Nat)
    (i : Nat) (cid : CompId) (v : Nat) (hiN : i < N) (hC : CInv N w sv) :
    CInv N (w.addComponentToEntity i cid v) (specStep sv (COp.add i cid v)) := by
  obtain ⟨hLen, hEnt, hPool⟩ := hC
  have hRefs : ∀ (j : Nat) (e2 : Entity), w.entities[j]? = Option.some (Option.some e2) →
      e2.ref = j := by
    intro j e2 hj
    have hjN : j < N := by
      by_contra hn
      rw [List.getElem?_eq_none_iff.mpr (by omega)] at hj
      exact Option.noConfusion hj
    obtain ⟨ej, hej, hr, _, _, _, _⟩ := hEnt j hjN
    rw [hej] at hj
    injection hj with hj
    injection hj with hj
    rw [← hj]
    exact hr
  obtain ⟨e, hslot, her, heid, hea, hem, hep⟩ := hEnt i hiN
  have huniq : ∀ (j : Nat) (e2 : Entity), w.entities[j]? = Option.some (Option.some e2) →
      e2.ref = i → j = i := by
    intro j e2 hj hr2
    have hx := hRefs j e2 hj
    omega
  have hd : w.derefEntity i = Option.some e := derefEntity_unique hslot her huniq
  rw [specStep_add]
  by_cases hsv : (sv i cid).isSome = true
  · rw [if_pos hsv]
    have hm : e.mask cid = true := by rw [hem cid, hsv]
    rw [addComponentToEntity_eq_dup hd hm]
    exact ⟨hLen, hEnt, hPool⟩
  · rw [if_neg hsv]
    have hsvn : sv i cid = Option.none := by
      cases hx : sv i cid
      · rfl
      · rw [hx] at hsv
        exact absurd rfl hsv
    have hm : e.mask cid = false := by
      rw [hem cid, hsvn]
      rfl
    rw [addComponentToEntity_eq hd hm]
    obtain ⟨e1, he1r, he1a, he1m, hSelf, hOth, hSys, hLenB, hFree, hPend, hCtr, hNext,
      he1id, he1ci⟩ := addComponentBody_systems w i cid v i e hslot her huniq
    have hPools := addComponentBody_pools w i cid v
    have hG := ensurePool_pools_getD w cid
    have hPoolCid : ((addComponentBody w i cid v).pools cid).getD [] =
        (w.pools cid).getD [] ++ [(⟨i, v⟩ : Comp)] := by
      rw [hPools, Function.update_same]
      show ((w.ensurePool cid).pools cid).getD [] ++ [(⟨i, v⟩ : Comp)] = _
      rw [hG]
    have hPoolOther : ∀ c2 : CompId, c2 ≠ cid →
        ((addComponentBody w i cid v).pools c2).getD [] = (w.pools c2).getD [] := by
      intro c2 hc2
      rw [hPools, Function.update_noteq hc2 _ _, ensurePool_pools_other w cid c2 hc2]
    have hidx : e1.compIdx cid = ((w.pools cid).getD []).length := by
      rw [he1ci, Function.update_same, List.length_append, hG]
      simp
    have hidxOther : ∀ c2, c2 ≠ cid → e1.compIdx c2 = e.compIdx c2 := by
      intro c2 hc2
      rw [he1ci, Function.update_noteq hc2 _ _]
    have hmaskOther : ∀ c2, c2 ≠ cid → e1.mask c2 = e.mask c2 := by
      intro c2 hc2
      rw [he1m]
      show Function.update e.mask cid true c2 = e.mask c2
      exact Function.update_noteq hc2 _ _
    have hmaskCid : e1.mask cid = true := by
      rw [he1m]
      show Function.update e.mask cid true cid = true
      exact Function.update_same _ _ _
    set sv2 : Nat → CompId → Option Nat := fun j c =>
      if j = i then (if c = cid then Option.some v else sv j c) else sv j c with hsv2def
    have hsv2_ii : sv2 i cid = Option.some v := by
      rw [hsv2def]
      simp
    have hsv2_ic : ∀ c2, c2 ≠ cid → sv2 i c2 = sv i c2 := by
      intro c2 hc2
      rw [hsv2def]
      simp [hc2]
    have hsv2_j : ∀ j, j ≠ i → ∀ c2, sv2 j c2 = sv j c2 := by
      intro j hj c2
      rw [hsv2def]
      simp [hj]
    refine ⟨?_, ?_, ?_⟩
    · rw [hLenB]
      exact hLen
    · intro j hjN
      by_cases hji : j = i
      · rw [hji]
        refine ⟨e1, hSelf, by rw [he1r, her], by rw [he1id, heid], by rw [he1a, hea],
          ?_, ?_⟩
        · intro c
          by_cases hc : c = cid
          · rw [hc, hmaskCid, hsv2_ii]
            rfl
          · rw [hmaskOther c hc, hsv2_ic c hc]
            exact hem c
        · intro c v2 hv2
          by_cases hc : c = cid
          · rw [hc] at hv2 ⊢
            rw [hsv2_ii] at hv2
            injection hv2 with hv2
            rw [hPoolCid, hidx]
            constructor
            · rw [List.length_append]
              simp
            · rw [List.getElem?_append, if_neg (by omega), Nat.sub_self,
                List.getElem?_cons_zero, ← hv2]
          · rw [hsv2_ic c hc] at hv2
            rw [hPoolOther c hc, hidxOther c hc]
            exact hep c v2 hv2
      · obtain ⟨ej, hej, hjr, hjid, hja, hjm, hjp⟩ := hEnt j hjN
        refine ⟨ej, by rw [hOth j hji]; exact hej, hjr, hjid, hja, ?_, ?_⟩
        · intro c
          rw [hsv2_j j hji c]
          exact hjm c
        · intro c v2 hv2
          rw [hsv2_j j hji c] at hv2
          by_cases hc : c = cid
          · rw [hc] at hv2 ⊢
            obtain ⟨hjlt, hjval⟩ := hjp cid v2 hv2
            rw [hPoolCid]
            constructor
            · rw [List.length_append]
              omega
            · rw [List.getElem?_append, if_pos hjlt]
              exact hjval
          · rw [hPoolOther c hc]
            exact hjp c v2 hv2
    · intro c k hk
      by_cases hc : c = cid
      · rw [hc] at hk ⊢
        rw [hPoolCid] at hk ⊢
        rw [List.length_append] at hk
        by_cases hkl : k < ((w.pools cid).getD []).length
        · obtain ⟨i2, v2, hi2N, hpk, hsv2x, e2, hslot2, hci2⟩ := hPool cid k hkl
          have hi2ne : i2 ≠ i := by
            intro hcc
            rw [hcc, hsvn] at hsv2x
            exact Option.noConfusion hsv2x
          refine ⟨i2, v2, hi2N, ?_, ?_, ?_⟩
          · rw [List.getElem?_append, if_pos hkl]
            exact hpk
          · rw [hsv2_j i2 hi2ne cid]
            exact hsv2x
          · exact ⟨e2, by rw [hOth i2 hi2ne]; exact hslot2, hci2⟩
        · have hke : k = ((w.pools cid).getD []).length := by
            have hone : ([(⟨i, v⟩ : Comp)] : List Comp).length = 1 := rfl
            omega
          refine ⟨i, v, hiN, ?_, hsv2_ii, e1, hSelf, ?_⟩
          · rw [hke, List.getElem?_append, if_neg (by omega), Nat.sub_self,
              List.getElem?_cons_zero]
          · rw [hidx, hke]
      · rw [hPoolOther c hc] at hk ⊢
        obtain ⟨i2, v2, hi2N, hpk, hsv2x, e2, hslot2, hci2⟩ := hPool c k hk
        by_cases hi2i : i2 = i
        · rw [hi2i] at hsv2x hslot2 hpk
          rw [hslot] at hslot2
          injection hslot2 with hx
          injection hx with hx
          refine ⟨i, v2, hiN, hpk, ?_, e1, hSelf, ?_⟩
          · rw [hsv2_ic c hc]
            exact hsv2x
          · rw [hidxOther c hc, hx]
            exact hci2
        · exact ⟨i2, v2, hi2N, hpk, by rw [hsv2_j i2 hi2i c]; exact hsv2x, e2,
            by rw [hOth i2 hi2i]; exact hslot2, hci2⟩

theorem remSlots_nofix (w u : World) (hu : u.entities = w.entities)
    (r : Nat) (cid : CompId) (id : Nat) (e0 : Entity)
    (hslot : w.entities[id]? = Option.some (Option.some e0))
    (href : e0.ref = r)
    (huniq : ∀ (j : Nat) (e2 : Entity), w.entities[j]? = Option.some (Option.some e2) →
      e2.ref = r → j = id)
    (W : World)
    (hW : W = (u.updateEntity r
      (fun x => { x with mask := Mask.clear x.mask cid })).updateEntitySystemList r) :
    W.entities[id]? = Option.some (Option.some
      ⟨e0.ref, e0.id, e0.alive, Mask.clear e0.mask cid, e0.compIdx⟩) ∧
    (∀ j, j ≠ id → W.entities[j]? = w.entities[j]?) ∧
    W.entities.length = w.entities.length := by
  subst hW
  refine ⟨?_, ?_, ?_⟩
  · rw [updateEntitySystemList_entities]
    exact updateEntity_slot_self _ (by rw [hu]; exact hslot) href
  · intro j hj
    rw [updateEntitySystemList_entities]
    have hne : ∀ e2, u.entities[j]? = Option.some (Option.some e2) → e2.ref ≠ r := by
      intro e2 hj2 hr2
      rw [hu] at hj2
      exact hj (huniq j e2 hj2 hr2)
    rw [updateEntity_slot_other _ hne, hu]
  · rw [updateEntitySystemList_entities, updateEntity_length, hu]

theorem remSlots_fix (w u : World) (hu : u.entities = w.entities)
    (r : Nat) (cid : CompId) (o idx2 : Nat) (id : Nat) (e0 : Entity)
    (hslot : w.entities[id]? = Option.some (Option.some e0))
    (href : e0.ref = r)
    (huniq : ∀ (j : Nat) (e2 : Entity), w.entities[j]? = Option.some (Option.some e2) →
      e2.ref = r → j = id)
    (jl : Nat) (ejl : Entity)
    (hslotl : w.entities[jl]? = Option.some (Option.some ejl))
    (hjlr : ejl.ref = o)
    (huniqo : ∀ (j : Nat) (e2 : Entity), w.entities[j]? = Option.some (Option.some e2) →
      e2.ref = o → j = jl)
    (hne : jl ≠ id)
    (W : World)
    (hW : W = ((u.updateEntity r
        (fun x => { x with mask := Mask.clear x.mask cid })).updateEntity o
        (fun x =>
          { x with compIdx := Function.update x.compIdx cid idx2 })).updateEntitySystemList
        r) :
    W.entities[id]? = Option.some (Option.some
      ⟨e0.ref, e0.id, e0.alive, Mask.clear e0.mask cid, e0.compIdx⟩) ∧
    W.entities[jl]? = Option.some (Option.some
      ⟨ejl.ref, ejl.id, ejl.alive, ejl.mask, Function.update ejl.compIdx cid idx2⟩) ∧
    (∀ j, j ≠ id → j ≠ jl → W.entities[j]? = w.entities[j]?) ∧
    W.entities.length = w.entities.length := by
  subst hW
  have hro : e0.ref ≠ o := fun hc => hne (huniqo id e0 hslot hc).symm
  have h1self : (u.updateEntity r
      (fun x => { x with mask := Mask.clear x.mask cid })).entities[id]? =
      Option.some (Option.some ⟨e0.ref, e0.id, e0.alive, Mask.clear e0.mask cid,
        e0.compIdx⟩) :=
    updateEntity_slot_self _ (by rw [hu]; exact hslot) href
  have h1other : ∀ j, j ≠ id → (u.updateEntity r
      (fun x => { x with mask := Mask.clear x.mask cid })).entities[j]? =
      w.entities[j]? := by
    intro j hj
    have hne2 : ∀ e2, u.entities[j]? = Option.some (Option.some e2) → e2.ref ≠ r := by
      intro e2 hj2 hr2
      rw [hu] at hj2
      exact hj (huniq j e2 hj2 hr2)
    rw [updateEntity_slot_other _ hne2, hu]
  refine ⟨?_, ?_, ?_, ?_⟩
  · rw [updateEntitySystemList_entities]
    have hne2 : ∀ e2, (u.updateEntity r
        (fun x => { x with mask := Mask.clear x.mask cid })).entities[id]? =
        Option.some (Option.some e2) → e2.ref ≠ o := by
      intro e2 hj2 hr2
      rw [h1self] at hj2
      injection hj2 with hj2
      injection hj2 with hj2
      rw [← hj2] at hr2
      exact hro hr2
    rw [updateEntity_slot_other _ hne2]
    exact h1self
  · rw [updateEntitySystemList_entities]
    exact updateEntity_slot_self _ (by rw [h1other jl hne]; exact hslotl) hjlr
  · intro j hj hjl
    rw [updateEntitySystemList_entities]
    have hne2 : ∀ e2, (u.updateEntity r
        (fun x => { x with mask := Mask.clear x.mask cid })).entities[j]? =
        Option.some (Option.some e2) → e2.ref ≠ o := by
      intro e2 hj2 hr2
      rw [h1other j hj] at hj2
      exact hjl (huniqo j e2 hj2 hr2)
    rw [updateEntity_slot_other _ hne2]
    exact h1other j hj
  · rw [updateEntitySystemList_entities, updateEntity_length, updateEntity_length, hu]

set_option maxHeartbeats 2000000 in
theorem CInv_rem (N : Nat) (w : World) (sv : Nat → CompId → Option Nat)
    (i : Nat) (cid : CompId) (hiN : i < N) (hC : CInv N w sv) :
    CInv N (w.removeComponentFromEntity i cid) (specStep sv (COp.rem i cid)) := by
  obtain ⟨hLen, hEnt, hPool⟩ := hC
  have hRefs : ∀ (j : Nat) (e2 : Entity), w.entities[j]? = Option.some (Option.some e2) →
      e2.ref = j := by
    intro j e2 hj
    have hjN : j < N := by
      by_contra hn
      rw [List.getElem?_eq_none_iff.mpr (by omega)] at hj
      exact Option.noConfusion hj
    obtain ⟨ej, hej, hr, _, _, _, _⟩ := hEnt j hjN
    rw [hej] at hj
    injection hj with hj
    injection hj with hj
    rw [← hj]
    exact hr
  obtain ⟨e, hslot, her, heid, hea, hem, hep⟩ := hEnt i hiN
  have huniq : ∀ (j : Nat) (e2 : Entity), w.entities[j]? = Option.some (Option.some e2) →
      e2.ref = i → j = i := by
    intro j e2 hj hr2
    have hx := hRefs j e2 hj
    omega
  have hd : w.derefEntity i = Option.some e := derefEntity_unique hslot her huniq
  rw [specStep_rem]
  set sv2 : Nat → CompId → Option Nat := fun j c =>
    if j = i then (if c = cid then Option.none else sv j c) else sv j c with hsv2def
  have hsv2_ii : sv2 i cid = Option.none := by
    rw [hsv2def]
    simp
  have hsv2_ic : ∀ c2, c2 ≠ cid → sv2 i c2 = sv i c2 := by
    intro c2 hc2
    rw [hsv2def]
    simp [hc2]
  have hsv2_j : ∀ j, j ≠ i → ∀ c2, sv2 j c2 = sv j c2 := by
    intro j hj c2
    rw [hsv2def]
    simp [hj]
  by_cases hsv : (sv i cid).isSome = true
  case neg =>
    have hsvn : sv i cid = Option.none := by
      cases hx : sv i cid
      · rfl
      · rw [hx] at hsv
        exact absurd rfl hsv
    have hm : e.mask cid = false := by
      rw [hem cid, hsvn]
      rfl
    rw [removeComponentFromEntity_eq_noComp hd hm]
    have hsv2_pt : ∀ j c, sv2 j c = sv j c := by
      intro j c
      by_cases hji : j = i
      · by_cases hc : c = cid
        · rw [hji, hc, hsv2_ii, hsvn]
        · rw [hji, hsv2_ic c hc]
      · rw [hsv2_j j hji c]
    refine ⟨hLen, ?_, ?_⟩
    · intro j hjN
      obtain ⟨ej, hej, hjr, hjid, hja, hjm, hjp⟩ := hEnt j hjN
      refine ⟨ej, hej, hjr, hjid, hja, ?_, ?_⟩
      · intro c
        rw [hsv2_pt j c]
        exact hjm c
      · intro c v2 hv2
        rw [hsv2_pt j c] at hv2
        exact hjp c v2 hv2
    · intro c k hk
      obtain ⟨i2, v2, hi2N, hpk, hsvx, e2, hslot2, hci2⟩ := hPool c k hk
      exact ⟨i2, v2, hi2N, hpk, by rw [hsv2_pt i2 c]; exact hsvx, e2, hslot2, hci2⟩
  case pos =>
    obtain ⟨v0, hv0⟩ : ∃ v0, sv i cid = Option.some v0 := Option.isSome_iff_exists.mp hsv
    have hm : e.mask cid = true := by rw [hem cid, hsv]
    rw [removeComponentFromEntity_eq hd hm]
    obtain ⟨hidxlt, hidxval⟩ := hep cid v0 hv0
    have hG := ensurePool_pools_getD w cid
    have hPools := removeComponentBody_pools w i cid e
    have hPoolCid : (((removeComponentBody w i cid e).pools cid).getD []) =
        poolRemove ((w.pools cid).getD []) (e.compIdx cid) := by
      rw [hPools, Function.update_same]
      show poolRemove (((w.ensurePool cid).pools cid).getD []) (e.compIdx cid) = _
      rw [hG]
    have hPoolOther : ∀ c2, c2 ≠ cid →
        (((removeComponentBody w i cid e).pools c2).getD []) =
        (w.pools c2).getD [] := by
      intro c2 hc2
      rw [hPools, Function.update_noteq hc2 _ _, ensurePool_pools_other w cid c2 hc2]
    have hlenNew : ((((removeComponentBody w i cid e).pools cid).getD [])).length =
        ((w.pools cid).getD []).length - 1 := by
      rw [hPoolCid, poolRemove_length _ _ hidxlt]
    have hb : removeComponentBody w i cid e =
        (if e.compIdx cid <
            (poolRemove (((w.ensurePool cid).pools cid).getD []) (e.compIdx cid)).length
          then
            (({ w.ensurePool cid with
                  trace := (w.ensurePool cid).trace ++
                    [TraceEv.componentRemoved e.id cid],
                  pools := Function.update (w.ensurePool cid).pools cid
                    (Option.some (poolRemove (((w.ensurePool cid).pools cid).getD [])
                      (e.compIdx cid))) }).updateEntity i
                (fun x => { x with mask := Mask.clear x.mask cid })).updateEntity
              ((poolRemove (((w.ensurePool cid).pools cid).getD []) (e.compIdx cid)).getD
                (e.compIdx cid) ⟨0, 0⟩).owner
              (fun x =>
                { x with compIdx := Function.update x.compIdx cid (e.compIdx cid) })
          else
            ({ w.ensurePool cid with
                trace := (w.ensurePool cid).trace ++
                  [TraceEv.componentRemoved e.id cid],
                pools := Function.update (w.ensurePool cid).pools cid
                  (Option.some (poolRemove (((w.ensurePool cid).pools cid).getD [])
                    (e.compIdx cid))) }).updateEntity i
              (fun x => { x with mask := Mask.clear x.mask cid })).updateEntitySystemList
          i := rfl
    have hcnd : (e.compIdx cid <
        (poolRemove (((w.ensurePool cid).pools cid).getD []) (e.compIdx cid)).length) ↔
        (e.compIdx cid < ((w.pools cid).getD []).length - 1) := by
      rw [hG, poolRemove_length _ _ hidxlt]
    by_cases hmid : e.compIdx cid < ((w.pools cid).getD []).length - 1
    · -- swap case: the last occupied slot is moved into the freed slot
      have hlm : ((w.pools cid).getD []).length - 1 < ((w.pools cid).getD []).length := by
        omega
      obtain ⟨iL, vL, hiLN, hpL, hsvL, eLx, hslotLx, hciLx⟩ :=
        hPool cid (((w.pools cid).getD []).length - 1) hlm
      obtain ⟨eL, hslotL, hLr, hLid, hLa, hLm, hLp⟩ := hEnt iL hiLN
      have hciL : eL.compIdx cid = ((w.pools cid).getD []).length - 1 := by
        rw [hslotL] at hslotLx
        injection hslotLx with hx
        injection hx with hx
        rw [hx]
        exact hciLx
      have hlastc : ((w.pools cid).getD []).getD
          (((w.pools cid).getD []).length - 1) ⟨0, 0⟩ = (⟨iL, vL⟩ : Comp) := by
        rw [List.getD_eq_getElem?_getD, hpL]
        rfl
      have hiLne : iL ≠ i := by
        intro hcc
        rw [hcc, hslot] at hslotL
        injection hslotL with hx
        injection hx with hx
        rw [← hx] at hciL
        omega
      have huniqL : ∀ (j : Nat) (e2 : Entity),
          w.entities[j]? = Option.some (Option.some e2) → e2.ref = iL → j = iL := by
        intro j e2 hj hr2
        have hx := hRefs j e2 hj
        omega
      have hmoved : ((poolRemove (((w.ensurePool cid).pools cid).getD [])
          (e.compIdx cid)).getD (e.compIdx cid) ⟨0, 0⟩) = (⟨iL, vL⟩ : Comp) := by
        rw [hG, List.getD_eq_getElem?_getD,
          poolRemove_getElem_mid _ _ hmid (e.compIdx cid) hmid, if_pos rfl, hlastc]
        rfl
      have hW : removeComponentBody w i cid e =
          ((({ w.ensurePool cid with
                trace := (w.ensurePool cid).trace ++
                  [TraceEv.componentRemoved e.id cid],
                pools := Function.update (w.ensurePool cid).pools cid
                  (Option.some (poolRemove (((w.ensurePool cid).pools cid).getD [])
                    (e.compIdx cid))) }).updateEntity i
              (fun x => { x with mask := Mask.clear x.mask cid })).updateEntity iL
            (fun x =>
              { x with
                  compIdx :=
                    Function.update x.compIdx cid (e.compIdx cid) })).updateEntitySystemList
            i := by
        rw [hb, if_pos (hcnd.mpr hmid), hmoved]
      obtain ⟨hS_i, hS_l, hS_oth, hS_len⟩ := remSlots_fix w
        { w.ensurePool cid with
            trace := (w.ensurePool cid).trace ++ [TraceEv.componentRemoved e.id cid],
            pools := Function.update (w.ensurePool cid).pools cid
              (Option.some (poolRemove (((w.ensurePool cid).pools cid).getD [])
                (e.compIdx cid))) }
        (ensurePool_entities w cid) i cid iL (e.compIdx cid) i e hslot her huniq
        iL eL hslotL hLr huniqL hiLne (removeComponentBody w i cid e) hW
      have hNewPool : ∀ k : Nat, k < ((w.pools cid).getD []).length - 1 →
          ((((removeComponentBody w i cid e).pools cid).getD []))[k]? =
          if k = e.compIdx cid then Option.some (⟨iL, vL⟩ : Comp)
          else ((w.pools cid).getD [])[k]? := by
        intro k hk
        rw [hPoolCid, poolRemove_getElem_mid _ _ hmid k hk, hlastc]
      refine ⟨?_, ?_, ?_⟩
      · rw [hS_len]
        exact hLen
      · intro j hjN
        by_cases hji : j = i
        · rw [hji]
          refine ⟨⟨e.ref, e.id, e.alive, Mask.clear e.mask cid, e.compIdx⟩, hS_i,
            her, heid, hea, ?_, ?_⟩
          · intro c
            by_cases hc : c = cid
            · rw [hc, hsv2_ii]
              show Function.update e.mask cid false cid = false
              exact Function.update_same _ _ _
            · rw [hsv2_ic c hc]
              show Function.update e.mask cid false c = (sv i c).isSome
              rw [Function.update_noteq hc _ _]
              exact hem c
          · intro c v2 hv2
            by_cases hc : c = cid
            · rw [hc, hsv2_ii] at hv2
              exact Option.noConfusion hv2
            · rw [hsv2_ic c hc] at hv2
              rw [hPoolOther c hc]
              exact hep c v2 hv2
        · by_cases hjl : j = iL
          · rw [hjl]
            refine ⟨⟨eL.ref, eL.id, eL.alive, eL.mask,
              Function.update eL.compIdx cid (e.compIdx cid)⟩, hS_l,
              hLr, hLid, hLa, ?_, ?_⟩
            · intro c
              rw [hsv2_j iL hiLne c]
              exact hLm c
            · intro c v2 hv2
              rw [hsv2_j iL hiLne c] at hv2
              by_cases hc : c = cid
              · rw [hc] at hv2 ⊢
                rw [hsvL] at hv2
                injection hv2 with hv2
                constructor
                · show Function.update eL.compIdx cid (e.compIdx cid) cid <
                    ((((removeComponentBody w i cid e).pools cid).getD [])).length
                  rw [Function.update_same, hlenNew]
                  exact hmid
                · show ((((removeComponentBody w i cid e).pools cid).getD
                    []))[Function.update eL.compIdx cid (e.compIdx cid) cid]? =
                    Option.some ⟨iL, v2⟩
                  rw [Function.update_same, hNewPool (e.compIdx cid) hmid,
                    if_pos rfl, ← hv2]
              · rw [hPoolOther c hc]
                show Function.update eL.compIdx cid (e.compIdx cid) c <
                    ((w.pools c).getD []).length ∧
                  ((w.pools c).getD
                    [])[Function.update eL.compIdx cid (e.compIdx cid) c]? =
                    Option.some ⟨iL, v2⟩
                rw [Function.update_noteq hc _ _]
                exact hLp c v2 hv2
          · obtain ⟨ej, hej, hjr, hjid, hja, hjm, hjp⟩ := hEnt j hjN
            refine ⟨ej, by rw [hS_oth j hji hjl]; exact hej, hjr, hjid, hja, ?_, ?_⟩
            · intro c
              rw [hsv2_j j hji c]
              exact hjm c
            · intro c v2 hv2
              rw [hsv2_j j hji c] at hv2
              by_cases hc : c = cid
              · rw [hc] at hv2 ⊢
                obtain ⟨hjlt, hjval⟩ := hjp cid v2 hv2
                have hne1 : ej.compIdx cid ≠ ((w.pools cid).getD []).length - 1 := by
                  intro hcc
                  rw [hcc, hpL] at hjval
                  injection hjval with hx
                  injection hx with h1 h2
                  exact hjl h1.symm
                have hne2 : ej.compIdx cid ≠ e.compIdx cid := by
                  intro hcc
                  rw [hcc, hidxval] at hjval
                  injection hjval with hx
                  injection hx with h1 h2
                  exact hji h1.symm
                have hjlt2 : ej.compIdx cid < ((w.pools cid).getD []).length - 1 := by
                  omega
                constructor
                · rw [hlenNew]
                  exact hjlt2
                · rw [hNewPool (ej.compIdx cid) hjlt2, if_neg hne2]
                  exact hjval
              · rw [hPoolOther c hc]
                exact hjp c v2 hv2
      · intro c k hk
        by_cases hc : c = cid
        · rw [hc] at hk ⊢
          rw [hlenNew] at hk
          by_cases hki : k = e.compIdx cid
          · refine ⟨iL, vL, hiLN, ?_, ?_,
              ⟨eL.ref, eL.id, eL.alive, eL.mask,
                Function.update eL.compIdx cid (e.compIdx cid)⟩, hS_l, ?_⟩
            · rw [hNewPool k hk, if_pos hki]
            · rw [hsv2_j iL hiLne cid]
              exact hsvL
            · show Function.update eL.compIdx cid (e.compIdx cid) cid = k
              rw [Function.update_same, hki]
          · obtain ⟨i2, v2, hi2N, hpk, hsvx, e2x, hslot2x, hci2x⟩ :=
              hPool cid k (by omega)
            obtain ⟨e2, hslot2, h2r, h2id, h2a, h2m, h2p⟩ := hEnt i2 hi2N
            have hci2 : e2.compIdx cid = k := by
              rw [hslot2] at hslot2x
              injection hslot2x with hx
              injection hx with hx
              rw [hx]
              exact hci2x
            have hi2i : i2 ≠ i := by
              intro hcc
              rw [hcc, hslot] at hslot2
              injection hslot2 with hx
              injection hx with hx
              rw [← hx] at hci2
              exact hki hci2.symm
            have hi2L : i2 ≠ iL := by
              intro hcc
              rw [hcc, hslotL] at hslot2
              injection hslot2 with hx
              injection hx with hx
              rw [← hx] at hci2
              omega
            refine ⟨i2, v2, hi2N, ?_, ?_, e2,
              by rw [hS_oth i2 hi2i hi2L]; exact hslot2, hci2⟩
            · rw [hNewPool k hk, if_neg hki]
              exact hpk
            · rw [hsv2_j i2 hi2i cid]
              exact hsvx
        · rw [hPoolOther c hc] at hk ⊢
          obtain ⟨i2, v2, hi2N, hpk, hsvx, e2x, hslot2x, hci2x⟩ := hPool c k hk
          obtain ⟨e2, hslot2, h2r, h2id, h2a, h2m, h2p⟩ := hEnt i2 hi2N
          have hci2 : e2.compIdx c = k := by
            rw [hslot2] at hslot2x
            injection hslot2x with hx
            injection hx with hx
            rw [hx]
            exact hci2x
          by_cases hi2i : i2 = i
          · refine ⟨i2, v2, hi2N, hpk, ?_,
              ⟨e.ref, e.id, e.alive, Mask.clear e.mask cid, e.compIdx⟩,
              by rw [hi2i]; exact hS_i, ?_⟩
            · rw [hi2i, hsv2_ic c hc]
              rw [hi2i] at hsvx
              exact hsvx
            · have hxe : e2 = e := by
                rw [hi2i, hslot] at hslot2
                injection hslot2 with hx
                injection hx with hx
                exact hx.symm
              show e.compIdx c = k
              rw [← hxe]
              exact hci2
          · by_cases hi2L : i2 = iL
            · refine ⟨i2, v2, hi2N, hpk, ?_,
                ⟨eL.ref, eL.id, eL.alive, eL.mask,
                  Function.update eL.compIdx cid (e.compIdx cid)⟩,
                by rw [hi2L]; exact hS_l, ?_⟩
              · rw [hsv2_j i2 hi2i c]
                exact hsvx
              · have hxe : e2 = eL := by
                  rw [hi2L, hslotL] at hslot2
                  injection hslot2 with hx
                  injection hx with hx
                  exact hx.symm
                show Function.update eL.compIdx cid (e.compIdx cid) c = k
                rw [Function.update_noteq hc _ _, ← hxe]
                exact hci2
            · exact ⟨i2, v2, hi2N, hpk, by rw [hsv2_j i2 hi2i c]; exact hsvx, e2,
                by rw [hS_oth i2 hi2i hi2L]; exact hslot2, hci2⟩
    · -- last-slot case: no instance is moved
      have hW : removeComponentBody w i cid e =
          (({ w.ensurePool cid with
              trace := (w.ensurePool cid).trace ++
                [TraceEv.componentRemoved e.id cid],
              pools := Function.update (w.ensurePool cid).pools cid
                (Option.some (poolRemove (((w.ensurePool cid).pools cid).getD [])
                  (e.compIdx cid))) }).updateEntity i
            (fun x =>
              { x with mask := Mask.clear x.mask cid })).updateEntitySystemList i := by
        rw [hb, if_neg (fun hcc => hmid (hcnd.mp hcc))]
      obtain ⟨hS_i, hS_oth, hS_len⟩ := remSlots_nofix w
        { w.ensurePool cid with
            trace := (w.ensurePool cid).trace ++ [TraceEv.componentRemoved e.id cid],
            pools := Function.update (w.ensurePool cid).pools cid
              (Option.some (poolRemove (((w.ensurePool cid).pools cid).getD [])
                (e.compIdx cid))) }
        (ensurePool_entities w cid) i cid i e hslot her huniq
        (removeComponentBody w i cid e) hW
      have hidxlast : e.compIdx cid = ((w.pools cid).getD []).length - 1 := by
        omega
      have hNewPool2 : ∀ k : Nat, k < ((w.pools cid).getD []).length - 1 →
          ((((removeComponentBody w i cid e).pools cid).getD []))[k]? =
          ((w.pools cid).getD [])[k]? := by
        intro k hk
        rw [hPoolCid, poolRemove_getElem_last _ _ hidxlt hmid k hk]
      refine ⟨?_, ?_, ?_⟩
      · rw [hS_len]
        exact hLen
      · intro j hjN
        by_cases hji : j = i
        · rw [hji]
          refine ⟨⟨e.ref, e.id, e.alive, Mask.clear e.mask cid, e.compIdx⟩, hS_i,
            her, heid, hea, ?_, ?_⟩
          · intro c
            by_cases hc : c = cid
            · rw [hc, hsv2_ii]
              show Function.update e.mask cid false cid = false
              exact Function.update_same _ _ _
            · rw [hsv2_ic c hc]
              show Function.update e.mask cid false c = (sv i c).isSome
              rw [Function.update_noteq hc _ _]
              exact hem c
          · intro c v2 hv2
            by_cases hc : c = cid
            · rw [hc, hsv2_ii] at hv2
              exact Option.noConfusion hv2
            · rw [hsv2_ic c hc] at hv2
              rw [hPoolOther c hc]
              exact hep c v2 hv2
        · obtain ⟨ej, hej, hjr, hjid, hja, hjm, hjp⟩ := hEnt j hjN
          refine ⟨ej, by rw [hS_oth j hji]; exact hej, hjr, hjid, hja, ?_, ?_⟩
          · intro c
            rw [hsv2_j j hji c]
            exact hjm c
          · intro c v2 hv2
            rw [hsv2_j j hji c] at hv2
            by_cases hc : c = cid
            · rw [hc] at hv2 ⊢
              obtain ⟨hjlt, hjval⟩ := hjp cid v2 hv2
              have hne2 : ej.compIdx cid ≠ e.compIdx cid := by
                intro hcc
                rw [hcc, hidxval] at hjval
                injection hjval with hx
                injection hx with h1 h2
                exact hji h1.symm
              have hjlt2 : ej.compIdx cid < ((w.pools cid).getD []).length - 1 := by
                omega
              constructor
              · rw [hlenNew]
                exact hjlt2
              · rw [hNewPool2 (ej.compIdx cid) hjlt2]
                exact hjval
            · rw [hPoolOther c hc]
              exact hjp c v2 hv2
      · intro c k hk
        by_cases hc : c = cid
        · rw [hc] at hk ⊢
          rw [hlenNew] at hk
          obtain ⟨i2, v2, hi2N, hpk, hsvx, e2x, hslot2x, hci2x⟩ :=
            hPool cid k (by omega)
          obtain ⟨e2, hslot2, h2r, h2id, h2a, h2m, h2p⟩ := hEnt i2 hi2N
          have hci2 : e2.compIdx cid = k := by
            rw [hslot2] at hslot2x
            injection hslot2x with hx
            injection hx with hx
            rw [hx]
            exact hci2x
          have hi2i : i2 ≠ i := by
            intro hcc
            rw [hcc, hslot] at hslot2
            injection hslot2 with hx
            injection hx with hx
            rw [← hx] at hci2
            omega
          refine ⟨i2, v2, hi2N, ?_, ?_, e2, by rw [hS_oth i2 hi2i]; exact hslot2, hci2⟩
          · rw [hNewPool2 k hk]
            exact hpk
          · rw [hsv2_j i2 hi2i cid]
            exact hsvx
        · rw [hPoolOther c hc] at hk ⊢
          obtain ⟨i2, v2, hi2N, hpk, hsvx, e2x, hslot2x, hci2x⟩ := hPool c k hk
          obtain ⟨e2, hslot2, h2r, h2id, h2a, h2m, h2p⟩ := hEnt i2 hi2N
          have hci2 : e2.compIdx c = k := by
            rw [hslot2] at hslot2x
            injection hslot2x with hx
            injection hx with hx
            rw [hx]
            exact hci2x
          by_cases hi2i : i2 = i
          · refine ⟨i2, v2, hi2N, hpk, ?_,
              ⟨e.ref, e.id, e.alive, Mask.clear e.mask cid, e.compIdx⟩,
              by rw [hi2i]; exact hS_i, ?_⟩
            · rw [hi2i, hsv2_ic c hc]
              rw [hi2i] at hsvx
              exact hsvx
            · have hxe : e2 = e := by
                rw [hi2i, hslot] at hslot2
                injection hslot2 with hx
                injection hx with hx
                exact hx.symm
              show e.compIdx c = k
              rw [← hxe]
              exact hci2
          · exact ⟨i2, v2, hi2N, hpk, by rw [hsv2_j i2 hi2i c]; exact hsvx, e2,
              by rw [hS_oth i2 hi2i]; exact hslot2, hci2⟩

/-- Executing an interpreted operation sequence preserves the coupling
invariant, with the abstract map advanced by `specStep` at each step. -/
theorem CInv_exec (ops : List COp) : ∀ (N : Nat) (w : World) (sv : Nat → CompId → Option Nat),
    (∀ op ∈ ops, COp.idx op < N) → CInv N w sv →
    CInv N (w.exec (ops.map COp.toOp)) (specFold sv ops) := by
  induction ops with
  | nil =>
      intro N w sv _ hC
      exact hC
  | cons op rest ih =>
      intro N w sv hops hC
      have hop : COp.idx op < N := hops op (List.mem_cons_self _ _)
      have hrest : ∀ o ∈ rest, COp.idx o < N := fun o ho => hops o (List.mem_cons_of_mem _ ho)
      rw [List.map_cons, exec_cons]
      show CInv N ((w.applyOp op.toOp).exec (rest.map COp.toOp)) (specFold (specStep sv op) rest)
      cases op with
      | add i cid v => exact ih N _ _ hrest (CInv_add N w sv i cid v hop hC)
      | rem i cid => exact ih N _ _ hrest (CInv_rem N w sv i cid hop hC)

/-- In a coupled state, `getComponentForEntity` observes exactly the abstract
specification map: the most recently constructed value, with the owner
back-reference, or null when the entity does not hold the component. -/
theorem CInv_getComponent (N : Nat) (w : World) (sv : Nat → CompId → Option Nat)
    (hC : CInv N w sv) (i : Nat) (cid : CompId) (hiN : i < N) :
    w.getComponentForEntity i cid = (sv i cid).map (fun v => (⟨i, v⟩ : Comp)) := by
  obtain ⟨hLen, hEnt, hPool⟩ := hC
  obtain ⟨e, hslot, her, heid, hea, hem, hep⟩ := hEnt i hiN
  have hRefs : ∀ (j : Nat) (e2 : Entity), w.entities[j]? = Option.some (Option.some e2) →
      e2.ref = j := by
    intro j e2 hj
    have hjN : j < N := by
      by_contra hn
      rw [List.getElem?_eq_none_iff.mpr (by omega)] at hj
      exact Option.noConfusion hj
    obtain ⟨ej, hej, hr, _, _, _, _⟩ := hEnt j hjN
    rw [hej] at hj
    injection hj with hj
    injection hj with hj
    rw [← hj]
    exact hr
  have huniq : ∀ (j : Nat) (e2 : Entity), w.entities[j]? = Option.some (Option.some e2) →
      e2.ref = i → j = i := by
    intro j e2 hj hr2
    have hx := hRefs j e2 hj
    omega
  have hd : w.derefEntity i = Option.some e := derefEntity_unique hslot her huniq
  unfold World.getComponentForEntity
  rw [hd]
  show (if (!e.mask cid) = true then Option.none
      else ((w.pools cid).getD [])[e.compIdx cid]?) =
    (sv i cid).map (fun v => (⟨i, v⟩ : Comp))
  cases hsv : sv i cid with
  | none =>
      have hm : e.mask cid = false := by
        rw [hem cid, hsv]
        rfl
      rw [hm]
      rfl
  | some v =>
      have hm : e.mask cid = true := by
        rw [hem cid, hsv]
        rfl
      rw [hm]
      show ((w.pools cid).getD [])[e.compIdx cid]? = Option.some ⟨i, v⟩
      exact (hep cid v hsv).2

/-- C1 — Swap-remove correctness.  (1) Refinement: for every sequence of
`addComponent`/`removeComponent` operations across `N` entities (each
operation targeting an entity index below `N`) — and hence for every prefix,
since the quantification ranges over all sequences — `getComponentForEntity`
returns, for every entity, exactly the value most recently constructed for
it by the abstract per-entity specification map (null when the entity no
longer holds the component type); in particular no other entity's instance
is ever altered by an operation.  (2) Swap-remove mechanics: in any coupled
state, removing a component whose pool slot is not the pool's last occupied
slot shortens the pool by one, copies the last slot's bytes into the freed
index, and the moved instance's owning entity's slot-index entry for that
component type is updated to the freed index. -/
theorem swap_remove_correctness :
    (∀ (N : Nat) (ops : List COp), (∀ op ∈ ops, COp.idx op < N) →
      ∀ (i : Nat) (cid : CompId), i < N →
        ((World.init.createMany N).1.exec (ops.map COp.toOp)).getComponentForEntity i cid =
          (specFold (fun _ _ => Option.none) ops i cid).map (fun v => (⟨i, v⟩ : Comp))) ∧
    (∀ (N : Nat) (w : World) (sv : Nat → CompId → Option Nat) (i : Nat) (cid : CompId)
      (v : Nat) (e : Entity), CInv N w sv → i < N →
      sv i cid = Option.some v → w.derefEntity i = Option.some e →
      e.compIdx cid < ((w.pools cid).getD []).length - 1 →
      (((w.removeComponentFromEntity i cid).pools cid).getD []).length =
          ((w.pools cid).getD []).length - 1 ∧
      (((w.removeComponentFromEntity i cid).pools cid).getD [])[e.compIdx cid]? =
          ((w.pools cid).getD [])[((w.pools cid).getD []).length - 1]? ∧
      (∀ (iL vL : Nat),
        ((w.pools cid).getD [])[((w.pools cid).getD []).length - 1]? =
            Option.some ⟨iL, vL⟩ →
        ∃ e2 : Entity,
          (w.removeComponentFromEntity i cid).entities[iL]? =
              Option.some (Option.some e2) ∧
          e2.compIdx cid = e.compIdx cid)) := by
  constructor
  · intro N ops hops i cid hiN
    exact CInv_getComponent N _ _ (CInv_exec ops N _ _ hops (CInv_initN N)) i cid hiN
  · intro N w sv i cid v e hC hiN hsv hde hmid
    obtain ⟨hLen, hEnt, hPool⟩ := hC
    obtain ⟨e0, hslot, her, heid, hea, hem, hep⟩ := hEnt i hiN
    have hRefs : ∀ (j : Nat) (e2 : Entity), w.entities[j]? = Option.some (Option.some e2) →
        e2.ref = j := by
      intro j e2 hj
      have hjN : j < N := by
        by_contra hn
        rw [List.getElem?_eq_none_iff.mpr (by omega)] at hj
        exact Option.noConfusion hj
      obtain ⟨ej, hej, hr, _, _, _, _⟩ := hEnt j hjN
      rw [hej] at hj
      injection hj with hj
      injection hj with hj
      rw [← hj]
      exact hr
    have huniq : ∀ (j : Nat) (e2 : Entity), w.entities[j]? = Option.some (Option.some e2) →
        e2.ref = i → j = i := by
      intro j e2 hj hr2
      have hx := hRefs j e2 hj
      omega
    have hd : w.derefEntity i = Option.some e0 := derefEntity_unique hslot her huniq
    rw [hd] at hde
    injection hde with hde
    subst hde
    have hm : e0.mask cid = true := by
      rw [hem cid, hsv]
      rfl
    have hW : w.removeComponentFromEntity i cid = removeComponentBody w i cid e0 :=
      removeComponentFromEntity_eq hd hm
    have hPools := removeComponentBody_pools w i cid e0
    have hG := ensurePool_pools_getD w cid
    have hpool2 : ((w.removeComponentFromEntity i cid).pools cid).getD [] =
        poolRemove ((w.pools cid).getD []) (e0.compIdx cid) := by
      rw [hW, hPools, Function.update_same]
      show poolRemove (((w.ensurePool cid).pools cid).getD []) (e0.compIdx cid) = _
      rw [hG]
    have hcopy : (((w.removeComponentFromEntity i cid).pools cid).getD [])[e0.compIdx cid]? =
        ((w.pools cid).getD [])[((w.pools cid).getD []).length - 1]? := by
      rw [hpool2, poolRemove_getElem_mid _ _ hmid _ hmid, if_pos rfl,
        List.getD_eq_getElem?_getD]
      cases hx : ((w.pools cid).getD [])[((w.pools cid).getD []).length - 1]? with
      | none =>
          rw [List.getElem?_eq_none_iff] at hx
          exact absurd hx (by omega)
      | some c => rfl
    refine ⟨?_, hcopy, ?_⟩
    · rw [hpool2]
      exact poolRemove_length _ _ (by omega)
    · intro iL vL hlast
      rw [hlast] at hcopy
      have hC2 := CInv_rem N w sv i cid hiN ⟨hLen, hEnt, hPool⟩
      obtain ⟨hLen2, hEnt2, hPool2⟩ := hC2
      have hk2 : e0.compIdx cid <
          (((w.removeComponentFromEntity i cid).pools cid).getD []).length := by
        rw [hpool2, poolRemove_length _ _ (by omega)]
        exact hmid
      obtain ⟨i3, v3, hi3N, hpk3, hsv3, e3, hslot3, hci3⟩ :=
        hPool2 cid (e0.compIdx cid) hk2
      rw [hcopy] at hpk3
      injection hpk3 with hpk3
      injection hpk3 with hO hV
      refine ⟨e3, ?_, hci3⟩
      rw [hO]
      exact hslot3

/-- Concrete run exercising a non-last-slot removal: two entities each add
component 0 (values 5 and 7), then entity 0 removes it, so the pool's last
slot (entity 1's instance) is swapped into index 0; entity 1's component
still reads back as value 7 with the correct owner. -/
theorem swap_remove_correctness_witness :
    ((World.init.createMany 2).1.exec
        ([COp.add 0 0 5, COp.add 1 0 7, COp.rem 0 0].map COp.toOp)).getComponentForEntity 1 0 =
      Option.some ⟨1, 7⟩ := by
  rw [swap_remove_correctness.1 2 [COp.add 0 0 5, COp.add 1 0 7, COp.rem 0 0]
    (by decide) 1 0 (by decide)]
  rfl
